import Mathlib

/-!
# micr: the text-editing engine of `src/main.c`

A shallow embedding of the editing core of the editor (line store, undo log,
kill-ring, region, yank, word motion and incremental search) together with
theorems about it.

Representation choices, all fixed here once:

* A C string `char *` is a `Line = List Char`: the bytes before the NUL
  terminator.  `STRLEN` is `List.length`.
* `e->lines[0 .. num_lines)` is the list `Editor.lines`; `num_lines` is its
  length.  `e->lines` aliases `e->buffers[e->current_buffer]`, and every
  function that changes `num_lines` stores it to
  `num_lines_buf[current_buffer]` before returning, so the inactive buffer
  is kept as the separate list `Editor.other_lines`.
* `e->undo_stack[0 .. undo_count)` is the list `Editor.undo_stack`, most
  recent entry first; `undo_count` is its length.  The `action` strings are
  the six literals ever passed to `add_undo`, modelled by `Action`.
* `draw` (terminal rendering) and the scrolling field `top_line` are not part
  of the model.
* Array and string accesses outside their bounds are undefined behaviour in C.
  The functions below are total (they use `take`, `drop`, `set`, `getD`), and
  the theorems are stated for states in which every line and character the
  function indexes exists (`Valid`, `cursor_ok`, `mark_ok`, `entry_inside`,
  `step_inside`).
* The model gives the string contents each function computes.  Where the
  source sizes a block from the state (`delete_region`, `delete_word_left`,
  `delete_word_right`), the size and what is written are given by
  `delete_region_block`, `delete_region_bytes` and the predicates
  `delete_region_fits`, `delete_word_left_fits`, `delete_word_right_fits`; the
  value of the function is the source's where the block suffices.  The bytes
  behind a terminator and the lifetime of the freed blocks are not modelled.
* `num_lines` is the length of `lines` as long as every operation finds the
  rows it indexes; the counter on its own, a C `int`, is modelled by
  `LineCounts` and `count_step`.
-/

namespace Micr

/-- A line of text: the characters of a C string before its terminator. -/
abbrev Line := List Char

/-- Constant `#define MAX_LINES 10000` -/
def MAX_LINES : Nat := 10000

/-- Constant `#define MAX_LINE_LEN 1024` -/
def MAX_LINE_LEN : Nat := 1024

/-- The NUL character. -/
def NUL : Char := Char.ofNat 0

/-- Constant `#define NEWLINE "\n"` -/
def NEWLINE : Line := ['\n']

/-- The C library test `isprint` in the C locale. -/
def ISPRINT (c : Char) : Bool := decide (32 ≤ c.toNat) && decide (c.toNat ≤ 126)

/-- The C library test `isspace` in the C locale: space, `\t`, `\n`, `\v`, `\f`,
`\r`. -/
def ISSPACE (c : Char) : Bool :=
  decide (c.toNat = 32) || (decide (9 ≤ c.toNat) && decide (c.toNat ≤ 13))

/-- The C library test `isalnum` in the C locale. -/
def ISALNUM (c : Char) : Bool :=
  (decide (48 ≤ c.toNat) && decide (c.toNat ≤ 57)) ||
  (decide (65 ≤ c.toNat) && decide (c.toNat ≤ 90)) ||
  (decide (97 ≤ c.toNat) && decide (c.toNat ≤ 122))

/-- The `action` tag of an undo entry (the string literals given to `add_undo`). -/
inductive Action where
  | insert
  | delete
  | delete_right
  | newline
  | bulk_insert
  | delete_word
deriving DecidableEq, Repr

/-- One element of `undo_stack`. -/
structure UndoEntry where
  action : Action
  x : Nat
  y : Nat
  data : Char
  bulk_data : Option Line
  line_count : Nat
deriving DecidableEq, Repr

/-- The fields of `Editor` that the editing engine reads and writes. -/
structure Editor where
  lines : List Line
  cursor_x : Nat
  cursor_y : Nat
  message : String
  undo_stack : List UndoEntry
  undo_size : Nat
  kill_ring : Option Line
  mark_x : Nat
  mark_y : Nat
  mark_active : Bool
  search_query : Line
  searching : Bool
  current_buffer : Nat
  other_lines : List Line
deriving DecidableEq, Repr

/-- Field or element `e->num_lines` -/
def num_lines (e : Editor) : Nat := e.lines.length

/-- Field or element `e->undo_count` -/
def undo_count (e : Editor) : Nat := e.undo_stack.length

/-- Field or element `e->lines[y]` -/
def line_at (L : List Line) (y : Nat) : Line := L.getD y []

/-- Element `line[i]`: the character at index `i`, the terminator at the end. -/
def char_at (line : Line) (i : Nat) : Char := line.getD i NUL

/-- Source function `init_editor`: both buffers hold one empty line, the cursor
is at the origin, and the undo stack has room for 1000 entries. -/
def init_editor : Editor :=
  { lines := [[]]
    cursor_x := 0
    cursor_y := 0
    message := ""
    undo_stack := []
    undo_size := 1000
    kill_ring := none
    mark_x := 0
    mark_y := 0
    mark_active := false
    search_query := []
    searching := false
    current_buffer := 0
    other_lines := [[]] }

/-- Source function `add_undo`: the push is dropped when the stack is full. -/
def add_undo (e : Editor) (action : Action) (x y : Nat) (data : Char)
    (bulk_data : Option Line) (line_count : Nat) : Editor :=
  if undo_count e ≥ e.undo_size then e
  else
    { e with undo_stack :=
        { action := action, x := x, y := y, data := data,
          bulk_data := bulk_data, line_count := line_count } :: e.undo_stack }

/-- The effect of one popped entry on `lines`, as in the branches of `undo`.
This is what the source computes when the entry lies inside the buffer
(`entry_inside`): the `insert` branch moves `STRLEN(line + x) + 1` bytes from
`line + x + 1`, which for `x` at or behind the terminator are bytes the list
does not hold; the `delete` branches copy from `line + x`; the `newline`
branch reads row `y + 1`; the bulk branch frees the rows `y .. y + line_count`
and subtracts `line_count` from `num_lines`. -/
def undo_lines (L : List Line) (u : UndoEntry) : List Line :=
  match u.action with
  | Action.insert =>
      let line := line_at L u.y
      L.set u.y (line.take u.x ++ line.drop (u.x + 1))
  | Action.delete | Action.delete_right =>
      let line := line_at L u.y
      L.set u.y (line.take u.x ++ [u.data] ++ line.drop u.x)
  | Action.newline =>
      let line := line_at L u.y
      let next_line := line_at L (u.y + 1)
      (L.set u.y (line ++ next_line)).take (u.y + 1) ++ L.drop (u.y + 2)
  | Action.bulk_insert | Action.delete_word =>
      L.take u.y ++ L.drop (u.y + u.line_count)

/-- Source function `undo`: pops the most recent entry and applies the branch
of its action; every branch sets the cursor to the entry's `(x, y)`. -/
def undo (e : Editor) : Editor :=
  match e.undo_stack with
  | [] => { e with message := "Nothing to undo" }
  | u :: rest =>
      { e with
        undo_stack := rest
        lines := undo_lines e.lines u
        cursor_x := u.x
        cursor_y := u.y
        message := "Undo performed" }

/-- Source function `insert_char` (the `redraw` flag only selects a call of
`draw`). -/
def insert_char (e : Editor) (c : Char) : Editor :=
  if !ISPRINT c then e
  else
    let line := line_at e.lines e.cursor_y
    if line.length ≥ MAX_LINE_LEN - 1 then e
    else
      let e1 := add_undo e Action.insert e.cursor_x e.cursor_y c none 0
      { e1 with
        lines := e.lines.set e.cursor_y
          (line.take e.cursor_x ++ [c] ++ line.drop e.cursor_x)
        cursor_x := e.cursor_x + 1 }

/-- Source function `delete_char` (backspace) -/
def delete_char (e : Editor) : Editor :=
  let line := line_at e.lines e.cursor_y
  if e.cursor_x = 0 ∧ e.cursor_y = 0 then e
  else if e.cursor_x > 0 then
    let e1 := add_undo e Action.delete (e.cursor_x - 1) e.cursor_y
      (char_at line (e.cursor_x - 1)) none 0
    { e1 with
      lines := e.lines.set e.cursor_y
        (line.take (e.cursor_x - 1) ++ line.drop e.cursor_x)
      cursor_x := e.cursor_x - 1 }
  else if e.cursor_y > 0 then
    let prev_line := line_at e.lines (e.cursor_y - 1)
    { e with
      cursor_x := prev_line.length
      lines := (e.lines.set (e.cursor_y - 1) (prev_line ++ line)).take e.cursor_y
        ++ e.lines.drop (e.cursor_y + 1)
      cursor_y := e.cursor_y - 1 }
  else e

/-- Source function `delete_char_right` -/
def delete_char_right (e : Editor) : Editor :=
  let line := line_at e.lines e.cursor_y
  if e.cursor_x < line.length then
    let e1 := add_undo e Action.delete_right e.cursor_x e.cursor_y
      (char_at line e.cursor_x) none 0
    { e1 with
      lines := e.lines.set e.cursor_y
        (line.take e.cursor_x ++ line.drop (e.cursor_x + 1)) }
  else if e.cursor_y + 1 < num_lines e then
    let next_line := line_at e.lines (e.cursor_y + 1)
    { e with
      lines := (e.lines.set e.cursor_y (line ++ next_line)).take (e.cursor_y + 1)
        ++ e.lines.drop (e.cursor_y + 2) }
  else e

/-- Source function `insert_newline`: the current line is cut at the cursor in
place, the rows after it move down by one and the tail becomes row
`cursor_y + 1`. -/
def insert_newline (e : Editor) : Editor :=
  if num_lines e ≥ MAX_LINES then e
  else
    let e1 := add_undo e Action.newline e.cursor_x e.cursor_y NUL none 0
    let line := line_at e.lines e.cursor_y
    let new_line := line.drop e.cursor_x
    let L1 := e.lines.set e.cursor_y (line.take e.cursor_x)
    { e1 with
      lines := L1.take (e.cursor_y + 1) ++ [new_line] ++ L1.drop (e.cursor_y + 1)
      cursor_y := e.cursor_y + 1
      cursor_x := 0 }

/-- The backward loops of the word functions:
`while (x > 0 && P(line[x - 1])) x--;` -/
def skip_left (p : Char → Bool) (line : Line) : Nat → Nat
  | 0 => 0
  | x + 1 => if p (char_at line x) then skip_left p line x else x + 1

/-- The forward loops of the word functions, `while (line[x] && P(line[x])) x++;`,
run for at most `fuel` iterations. -/
def skip_right_loop (p : Char → Bool) (line : Line) : Nat → Nat → Nat
  | 0, x => x
  | fuel + 1, x =>
      if char_at line x ≠ NUL ∧ p (char_at line x) = true then
        skip_right_loop p line fuel (x + 1)
      else x

/-- The forward loop from column `x`; it stops at the terminator, so
`line.length - x` iterations are all it can make. -/
def skip_right (p : Char → Bool) (line : Line) (x : Nat) : Nat :=
  skip_right_loop p line (line.length - x) x

/-- The test `!ISALNUM(c) && !ISSPACE(c)` of the word functions. -/
def ISPUNCT (c : Char) : Bool := !ISALNUM c && !ISSPACE c

/-- Source function `delete_word_left`.  When the scan reaches column 0 of a
later row it moves to the previous row; there
`memmove(&lines[new_y + 1], &lines[orig_y], ...)` has equal source and
destination, and `num_lines` drops by one.  In that branch the source sizes
`deleted` for `orig_x` characters of the cursor row and copies the whole row
into it; the value below is what the source computes when the row has no more
than `orig_x` characters (`delete_word_left_fits`), otherwise the source writes
behind the block and what it leaves is not defined. -/
def delete_word_left (e : Editor) : Editor :=
  let orig_x := e.cursor_x
  let orig_y := e.cursor_y
  let line := line_at e.lines e.cursor_y
  if e.cursor_x = 0 ∧ e.cursor_y = 0 then e
  else
    let x3 := skip_left ISALNUM line (skip_left ISPUNCT line (skip_left ISSPACE line orig_x))
    let wrap : Bool := decide (x3 = 0 ∧ orig_y > 0)
    let new_y := if wrap then orig_y - 1 else orig_y
    let line2 := if wrap then line_at e.lines new_y else line
    let new_x :=
      if wrap then skip_left ISPUNCT line2 (skip_left ISSPACE line2 line2.length) else x3
    if new_y = orig_y then
      let deleted := (line2.drop new_x).take (orig_x - new_x)
      let e1 := { e with
        lines := e.lines.set orig_y (line2.take new_x ++ line2.drop orig_x)
        cursor_x := new_x }
      add_undo e1 Action.delete_word e1.cursor_x e1.cursor_y NUL (some deleted)
        (orig_y - new_y + 1)
    else
      let deleted := (line_at e.lines new_y).drop new_x ++ NEWLINE ++ line_at e.lines orig_y
      let new_line := (line_at e.lines new_y).take new_x ++ line_at e.lines orig_y
      let L1 := e.lines.set new_y new_line
      let e1 := { e with
        lines := (L1.take (new_y + 1) ++ L1.drop orig_y).take (num_lines e - (orig_y - new_y))
        cursor_y := new_y
        cursor_x := new_x }
      add_undo e1 Action.delete_word e1.cursor_x e1.cursor_y NUL (some deleted)
        (orig_y - new_y + 1)

/-- Source function `delete_word_right`.  When the scan reaches the end of a
line that is not the last, `line` is reassigned to the next line before the
deleted text and the joined line are built from it.  In that branch the source
reads the next row from `line + orig_x` and sizes `deleted` as
`STRLEN(line) - orig_x + 1 + STRLEN(lines[new_y]) + 1`; the value below is what
the source computes when `orig_x` lies inside the next row
(`delete_word_right_fits`), otherwise the size can be negative and the read is
behind the terminator, and what the source leaves is not defined. -/
def delete_word_right (e : Editor) : Editor :=
  let orig_x := e.cursor_x
  let orig_y := e.cursor_y
  let line := line_at e.lines e.cursor_y
  if e.cursor_y + 1 = num_lines e ∧ e.cursor_x = line.length then e
  else
    let x3 := skip_right ISSPACE line (skip_right ISPUNCT line (skip_right ISALNUM line orig_x))
    let wrap : Bool := decide (char_at line x3 = NUL ∧ orig_y + 1 < num_lines e)
    let new_y := if wrap then orig_y + 1 else orig_y
    let new_x := if wrap then 0 else x3
    let line2 := if wrap then line_at e.lines new_y else line
    if new_y = orig_y then
      let deleted := (line2.drop orig_x).take (new_x - orig_x)
      let e1 := { e with
        lines := e.lines.set orig_y (line2.take orig_x ++ line2.drop new_x) }
      add_undo e1 Action.delete_word e1.cursor_x e1.cursor_y NUL (some deleted)
        (new_y - orig_y + 1)
    else
      let deleted := line2.drop orig_x ++ NEWLINE ++ line_at e.lines new_y
      let new_line := line2.take orig_x ++ line_at e.lines new_y
      let L1 := e.lines.set orig_y new_line
      let e1 := { e with lines := L1.take (orig_y + 1) ++ L1.drop (new_y + 1) }
      add_undo e1 Action.delete_word e1.cursor_x e1.cursor_y NUL (some deleted)
        (new_y - orig_y + 1)

/-- Source function `insert_lines`.  The loop
`lines[cursor_y + i] = STRDUP(new_lines[i])` starts at `i = 0`, so the slot of
the current line (already cut at the cursor) is overwritten by the first new
line; the tail goes to slot `cursor_y + line_count`. -/
def insert_lines (e : Editor) (new_lines : List Line) : Editor :=
  let line_count := new_lines.length
  if num_lines e + line_count > MAX_LINES then e
  else
    let bulk_data := NEWLINE.intercalate new_lines
    let e1 := add_undo e Action.bulk_insert e.cursor_x e.cursor_y NUL (some bulk_data) line_count
    let line := line_at e.lines e.cursor_y
    let line_tail := line.drop e.cursor_x
    let L1 := e.lines.set e.cursor_y (line.take e.cursor_x)
    let L2 := L1.take e.cursor_y ++ new_lines ++ [line_tail] ++ L1.drop (e.cursor_y + 1)
    let cy := e.cursor_y + line_count - 1
    let cx := (line_at new_lines (line_count - 1)).length
    if line_count = 1 ∧ cx = 0 then
      { e1 with lines := L2, cursor_y := cy + 1, cursor_x := 0 }
    else
      { e1 with lines := L2, cursor_y := cy, cursor_x := cx }

/-- The call `STRCHR(start, c)` as an offset into `start`. -/
def STRCHR (start : Line) (c : Char) : Option Nat :=
  if start.indexOf c < start.length then some (start.indexOf c) else none

/-- The `while` loop of `yank`: with `acc` the lines found so far, returns
them together with the final value of `start`. -/
def yank_loop : Nat → Line → List Line → List Line × Line
  | 0, start, acc => (acc, start)
  | fuel + 1, start, acc =>
      match STRCHR start '\n' with
      | some k =>
          if acc.length < MAX_LINES then
            yank_loop fuel (start.drop (k + 1)) (acc ++ [start.take k])
          else (acc, start)
      | none => (acc, start)

/-- The lines `yank` passes to `insert_lines`.  Every iteration of the loop
consumes a newline of `text`, so `text.length + 1` iterations are enough. -/
def yank_lines (text : Line) : List Line :=
  let r := yank_loop (text.length + 1) text []
  let new_lines :=
    if r.2 ≠ [] ∧ r.1.length < MAX_LINES then r.1 ++ [r.2] else r.1
  if new_lines.length = 0 then [text] else new_lines

/-- Source function `yank` -/
def yank (e : Editor) : Editor :=
  match e.kill_ring with
  | none => { e with message := "Nothing to yank" }
  | some text =>
      { insert_lines e (yank_lines text) with message := "Yanked from kill-ring" }

/-- Source function `set_mark` -/
def set_mark (e : Editor) : Editor :=
  { e with mark_x := e.cursor_x, mark_y := e.cursor_y, mark_active := true,
           message := "Mark set" }

/-- The start of the region: mark and cursor ordered by row, then column. -/
def region_start (e : Editor) : Nat × Nat :=
  if e.mark_y < e.cursor_y ∨ (e.mark_y = e.cursor_y ∧ e.mark_x ≤ e.cursor_x) then
    (e.mark_x, e.mark_y)
  else (e.cursor_x, e.cursor_y)

/-- The end of the region. -/
def region_end (e : Editor) : Nat × Nat :=
  if e.mark_y < e.cursor_y ∨ (e.mark_y = e.cursor_y ∧ e.mark_x ≤ e.cursor_x) then
    (e.cursor_x, e.cursor_y)
  else (e.mark_x, e.mark_y)

/-- Source function `delete_region`; positions are `(x, y)` pairs.  The
multi-line kill text is built by the same sequence of `STRCAT` calls as in the
source.  In the multi-line branch the source allocates
`STRLEN(lines[start_y]) - start_x + end_x + 1` bytes for `new_line`
(`delete_region_block`) and writes `start_x + STRLEN(lines[end_y] + end_x) + 1`
bytes to it (`delete_region_bytes`).  The value below is what the source
computes when the block suffices (`delete_region_fits`); otherwise the source
writes behind the block, and what it leaves is not defined. -/
def delete_region (e : Editor) : Editor :=
  if !e.mark_active then { e with message := "No region selected" }
  else
    let start_x := (region_start e).1
    let start_y := (region_start e).2
    let end_x := (region_end e).1
    let end_y := (region_end e).2
    if start_y = end_y then
      let line := line_at e.lines start_y
      { e with
        kill_ring := some ((line.drop start_x).take (end_x - start_x))
        lines := e.lines.set start_y (line.take start_x ++ line.drop end_x)
        cursor_y := start_y
        cursor_x := start_x
        mark_active := false
        message := "Region cut to kill-ring" }
    else
      let first := (line_at e.lines start_y).drop start_x
      let last := (line_at e.lines end_y).take end_x
      let middle := (List.range (end_y - (start_y + 1))).map
        (fun i => line_at e.lines (start_y + 1 + i))
      let kill := middle.foldl (fun k l => k ++ l ++ NEWLINE) (first ++ NEWLINE) ++ last
      let new_line := (line_at e.lines start_y).take start_x ++ (line_at e.lines end_y).drop end_x
      { e with
        kill_ring := some kill
        lines := (e.lines.set start_y new_line).take (start_y + 1) ++ e.lines.drop (end_y + 1)
        cursor_y := start_y
        cursor_x := start_x
        mark_active := false
        message := "Region cut to kill-ring" }

/-- Source function `kill_line` -/
def kill_line (e : Editor) : Editor :=
  if e.mark_active then delete_region e
  else
    let line := line_at e.lines e.cursor_y
    { e with
      kill_ring := some (line.drop e.cursor_x)
      lines := e.lines.set e.cursor_y (line.take e.cursor_x)
      message := "Line cut to kill-ring" }

/-- Source function `move_cursor_left` -/
def move_cursor_left (e : Editor) : Editor :=
  if e.cursor_x > 0 then { e with cursor_x := e.cursor_x - 1 } else e

/-- Source function `move_cursor_right` -/
def move_cursor_right (e : Editor) : Editor :=
  if e.cursor_x < (line_at e.lines e.cursor_y).length then
    { e with cursor_x := e.cursor_x + 1 }
  else e

/-- Source function `move_cursor_up` -/
def move_cursor_up (e : Editor) : Editor :=
  if e.cursor_y > 0 then
    let len := (line_at e.lines (e.cursor_y - 1)).length
    { e with cursor_y := e.cursor_y - 1,
             cursor_x := if e.cursor_x < len then e.cursor_x else len }
  else e

/-- Source function `move_cursor_down` -/
def move_cursor_down (e : Editor) : Editor :=
  if e.cursor_y + 1 < num_lines e then
    let len := (line_at e.lines (e.cursor_y + 1)).length
    { e with cursor_y := e.cursor_y + 1,
             cursor_x := if e.cursor_x < len then e.cursor_x else len }
  else e

/-- Source function `move_cursor_beginning_of_line` -/
def move_cursor_beginning_of_line (e : Editor) : Editor :=
  { e with cursor_x := 0 }

/-- Source function `move_cursor_end_of_line` -/
def move_cursor_end_of_line (e : Editor) : Editor :=
  { e with cursor_x := (line_at e.lines e.cursor_y).length }

/-- Source function `switch_buffer`: the other buffer becomes the active one,
cursor at the origin.  Undo stack, kill-ring and mark are left as they are. -/
def switch_buffer (e : Editor) : Editor :=
  { e with
    current_buffer := 1 - e.current_buffer
    lines := e.other_lines
    other_lines := e.lines
    cursor_x := 0
    cursor_y := 0
    message := "Switched to buffer " ++ toString (1 - e.current_buffer + 1) }

/-- The cursor invariant: `0 ≤ cursor_y < num_lines` and
`0 ≤ cursor_x ≤ STRLEN(lines[cursor_y])`. -/
def cursor_ok (e : Editor) : Prop :=
  e.cursor_y < num_lines e ∧ e.cursor_x ≤ (line_at e.lines e.cursor_y).length

instance (e : Editor) : Decidable (cursor_ok e) :=
  inferInstanceAs (Decidable (_ ∧ _))

/-- The mark lies inside the buffer. -/
def mark_ok (e : Editor) : Prop :=
  e.mark_y < num_lines e ∧ e.mark_x ≤ (line_at e.lines e.mark_y).length

instance (e : Editor) : Decidable (mark_ok e) :=
  inferInstanceAs (Decidable (_ ∧ _))

/-- A valid editor state: between 1 and `MAX_LINES` lines, every line fits a
`MAX_LINE_LEN` buffer with its terminator, and the cursor is inside the
buffer. -/
def Valid (e : Editor) : Prop :=
  1 ≤ num_lines e ∧ num_lines e ≤ MAX_LINES ∧
  (∀ l ∈ e.lines, l.length < MAX_LINE_LEN) ∧ cursor_ok e

instance (e : Editor) : Decidable (Valid e) :=
  inferInstanceAs (Decidable (_ ∧ _ ∧ _ ∧ _))

/-- The undo log has room for `k` more entries. -/
def undo_room (e : Editor) (k : Nat) : Prop := undo_count e + k ≤ e.undo_size

instance (e : Editor) (k : Nat) : Decidable (undo_room e k) :=
  inferInstanceAs (Decidable (_ ≤ _))

/-- Source function `move_cursor_forward_word`: skips alphanumerics, then
punctuation, then whitespace; at the end of a line that is not the last the
cursor goes to the start of the next line. -/
def move_cursor_forward_word (e : Editor) : Editor :=
  let line := line_at e.lines e.cursor_y
  let x3 := skip_right ISSPACE line
    (skip_right ISPUNCT line (skip_right ISALNUM line e.cursor_x))
  if char_at line x3 = NUL ∧ e.cursor_y + 1 < num_lines e then
    { e with cursor_y := e.cursor_y + 1, cursor_x := 0 }
  else { e with cursor_x := x3 }

/-- The ncurses key code `KEY_BACKSPACE` (octal 0407). -/
def KEY_BACKSPACE : Int := 263

/-- The C library test `isprint` on a key code. -/
def isprint_key (c : Int) : Bool := decide (32 ≤ c) && decide (c ≤ 126)

/-- The C library function `strstr(hay, needle)`, as the offset of the first
occurrence of `needle` in `hay`. -/
def strstr : Line → Line → Option Nat
  | [], needle => if needle = [] then some 0 else none
  | c :: cs, needle =>
      if (c :: cs).take needle.length = needle then some 0
      else (strstr cs needle).map (· + 1)

/-- The `for` loop of `update_search` over the rows from `y` on: each row is
copied into `buffer` (`snprintf` keeps at most `MAX_LINE_LEN - 1` characters)
and searched from column `off`, which is `cursor_x` on the cursor row and 0 on
the later rows; the first match ends the loop with the new `(x, y)`. -/
def search_loop (query : Line) : List Line → Nat → Nat → Option (Nat × Nat)
  | [], _, _ => none
  | l :: rest, y, off =>
      match strstr ((l.take (MAX_LINE_LEN - 1)).drop off) query with
      | some k => some (off + k, y)
      | none => search_loop query rest (y + 1) 0

/-- The query after the key `c`: backspace removes the last character, a
printable key is appended while the query has fewer than 255 characters. -/
def search_query_after (query : Line) (c : Int) : Line :=
  if c = 127 ∨ c = KEY_BACKSPACE then
    if query.length > 0 then query.take (query.length - 1) else query
  else if isprint_key c = true ∧ query.length < 255 then query ++ [Char.ofNat c.toNat]
  else query

/-- Source function `update_search`. -/
def update_search (e : Editor) (c : Int) : Editor :=
  if !e.searching then e
  else if c = 27 ∨ c = 10 then
    { e with searching := false, search_query := [], message := "Search ended" }
  else
    let query := search_query_after e.search_query c
    match search_loop query (e.lines.drop e.cursor_y) e.cursor_y e.cursor_x with
    | some p =>
        { e with search_query := query, cursor_y := p.2, cursor_x := p.1,
                 message := "Search: " ++ String.mk query }
    | none => { e with search_query := query, message := "Search: " ++ String.mk query }

/-- Source function `start_search`. -/
def start_search (e : Editor) : Editor :=
  { e with searching := true, search_query := [], message := "Search: " }

/-- Source function `move_cursor_backward_word`: skips whitespace, then
punctuation, then alphanumerics to the left; when that ends at column 0 of a
row after the first, the cursor goes to the end of the previous row and skips
whitespace and punctuation there. -/
def move_cursor_backward_word (e : Editor) : Editor :=
  if e.cursor_x = 0 ∧ e.cursor_y = 0 then e
  else
    let line := line_at e.lines e.cursor_y
    let x3 := skip_left ISALNUM line
      (skip_left ISPUNCT line (skip_left ISSPACE line e.cursor_x))
    if x3 = 0 ∧ e.cursor_y > 0 then
      let prev_line := line_at e.lines (e.cursor_y - 1)
      { e with
        cursor_y := e.cursor_y - 1
        cursor_x := skip_left ISPUNCT prev_line
          (skip_left ISSPACE prev_line prev_line.length) }
    else { e with cursor_x := x3 }

/-- The row loop of `move_cursor_backward_paragraph`:
`while (cursor_y > 0) { cursor_y--; if (STRLEN(lines[cursor_y]) == 0) break; }` -/
def backward_paragraph_row (L : List Line) : Nat → Nat
  | 0 => 0
  | y + 1 => if (line_at L y).length = 0 then y else backward_paragraph_row L y

/-- Source function `move_cursor_backward_paragraph`. -/
def move_cursor_backward_paragraph (e : Editor) : Editor :=
  { e with cursor_y := backward_paragraph_row e.lines e.cursor_y, cursor_x := 0 }

/-- The row loop of `move_cursor_forward_paragraph`,
`while (cursor_y < num_lines - 1) { cursor_y++; if (STRLEN(lines[cursor_y]) == 0) break; }`,
run for at most `fuel` iterations. -/
def forward_paragraph_row (L : List Line) : Nat → Nat → Nat
  | 0, y => y
  | fuel + 1, y =>
      if y + 1 < L.length then
        if (line_at L (y + 1)).length = 0 then y + 1
        else forward_paragraph_row L fuel (y + 1)
      else y

/-- Source function `move_cursor_forward_paragraph`; the loop stops at the last
row, so `num_lines - cursor_y` iterations are all it can make. -/
def move_cursor_forward_paragraph (e : Editor) : Editor :=
  { e with
    cursor_y := forward_paragraph_row e.lines (num_lines e - e.cursor_y) e.cursor_y
    cursor_x := 0 }

/-- Source function `show_info`. -/
def show_info (e : Editor) : Editor :=
  { e with message := "Micrn Editor, Version 1.0, Created by Genius, 2025" }

/-- Source function `save_file`, as far as the engine sees it: it leaves a
message that depends on the file system, given here as `io_message`. -/
def save_file (e : Editor) (io_message : String) : Editor :=
  { e with message := io_message }

/-- The operations a key press can start. -/
inductive Op where
  | insert_char (c : Char)
  | delete_char
  | delete_char_right
  | delete_word_left
  | delete_word_right
  | insert_newline
  | yank
  | kill_line
  | set_mark
  | delete_region
  | undo
  | switch_buffer
  | move_cursor_left
  | move_cursor_right
  | move_cursor_up
  | move_cursor_down
  | move_cursor_beginning_of_line
  | move_cursor_end_of_line
  | move_cursor_backward_word
  | move_cursor_forward_word
  | move_cursor_backward_paragraph
  | move_cursor_forward_paragraph
  | start_search
  | update_search (c : Int)
  | show_info
  | save_file (io_message : String)
deriving DecidableEq, Repr

/-- Runs one operation. -/
def step (e : Editor) : Op → Editor
  | Op.insert_char c => insert_char e c
  | Op.delete_char => delete_char e
  | Op.delete_char_right => delete_char_right e
  | Op.delete_word_left => delete_word_left e
  | Op.delete_word_right => delete_word_right e
  | Op.insert_newline => insert_newline e
  | Op.yank => yank e
  | Op.kill_line => kill_line e
  | Op.set_mark => set_mark e
  | Op.delete_region => delete_region e
  | Op.undo => undo e
  | Op.switch_buffer => switch_buffer e
  | Op.move_cursor_left => move_cursor_left e
  | Op.move_cursor_right => move_cursor_right e
  | Op.move_cursor_up => move_cursor_up e
  | Op.move_cursor_down => move_cursor_down e
  | Op.move_cursor_beginning_of_line => move_cursor_beginning_of_line e
  | Op.move_cursor_end_of_line => move_cursor_end_of_line e
  | Op.move_cursor_backward_word => move_cursor_backward_word e
  | Op.move_cursor_forward_word => move_cursor_forward_word e
  | Op.move_cursor_backward_paragraph => move_cursor_backward_paragraph e
  | Op.move_cursor_forward_paragraph => move_cursor_forward_paragraph e
  | Op.start_search => start_search e
  | Op.update_search c => update_search e c
  | Op.show_info => show_info e
  | Op.save_file io_message => save_file e io_message

/-- Runs a sequence of operations, first to last. -/
def run (e : Editor) (ops : List Op) : Editor := ops.foldl step e

/-- A state reachable from the initial editor state. -/
def Reachable (e : Editor) : Prop := ∃ ops : List Op, run init_editor ops = e

/-- The character edits: `insert_char`, `delete_char`, `delete_char_right`. -/
inductive CharEdit where
  | ins (c : Char)
  | del
  | del_right
deriving DecidableEq, Repr

/-- Runs one character edit at the cursor. -/
def apply_edit (e : Editor) : CharEdit → Editor
  | CharEdit.ins c => insert_char e c
  | CharEdit.del => delete_char e
  | CharEdit.del_right => delete_char_right e

/-- Runs a sequence of character edits, first to last. -/
def apply_edits (e : Editor) : List CharEdit → Editor
  | [] => e
  | ed :: rest => apply_edits (apply_edit e ed) rest

/-- Invokes `undo` `n` times. -/
def undo_n : Nat → Editor → Editor
  | 0, e => e
  | n + 1, e => undo_n n (undo e)

/-- The edit joins two lines: `delete_char` at column 0 of a row after the
first, or `delete_char_right` at the end of a line that is not the last. -/
def joins (e : Editor) : CharEdit → Bool
  | CharEdit.ins _ => false
  | CharEdit.del => decide (e.cursor_x = 0 ∧ e.cursor_y > 0)
  | CharEdit.del_right =>
      decide (e.cursor_x ≥ (line_at e.lines e.cursor_y).length ∧ e.cursor_y + 1 < num_lines e)

/-- No edit of the sequence, run from `e`, joins two lines. -/
def no_join (e : Editor) : List CharEdit → Bool
  | [] => true
  | ed :: rest => !joins e ed && no_join (apply_edit e ed) rest

/-- The step from `e` to `t` is undoable: `t` is valid with the capacity of `e`,
and either one entry was pushed whose branch of `undo` restores the lines of
`e`, or neither the lines nor the log changed. -/
def UndoableStep (e t : Editor) : Prop :=
  Valid t ∧ t.undo_size = e.undo_size ∧
    ((∃ u, t.undo_stack = u :: e.undo_stack ∧ undo_lines t.lines u = e.lines) ∨
      (t.undo_stack = e.undo_stack ∧ t.lines = e.lines))

/-- Lines joined with a line break between consecutive lines. -/
def join_lines : List Line → Line
  | [] => []
  | [l] => l
  | l :: m :: rest => l ++ NEWLINE ++ join_lines (m :: rest)

/-- The text between two positions `(x, y)` of the buffer, in the words of the
specification: the substring of the line when both are on one row, otherwise
the tail of the start line, the lines in between and the head of the end line,
joined with line breaks. -/
def region_text (L : List Line) (start stop : Nat × Nat) : Line :=
  if start.2 = stop.2 then
    ((line_at L start.2).drop start.1).take (stop.1 - start.1)
  else
    join_lines ([(line_at L start.2).drop start.1] ++
      (L.drop (start.2 + 1)).take (stop.2 - (start.2 + 1)) ++
      [(line_at L stop.2).take stop.1])

/-- An editor state with the given lines and cursor, everything else as at
start-up. -/
def mk_editor (lines : List Line) (cursor_x cursor_y : Nat) : Editor :=
  { init_editor with lines := lines, cursor_x := cursor_x, cursor_y := cursor_y }

/-- Typing the characters of `l` at the cursor, one `insert_char` each. -/
def type_chars (e : Editor) (l : Line) : Editor := l.foldl insert_char e

/-- Typing a multi-line paste at the cursor, in the words of the
specification: the first line, a newline, the second line, and so on, with
`insert_char` and `insert_newline`. -/
def type_lines (e : Editor) : List Line → Editor
  | [] => e
  | [l] => type_chars e l
  | l :: m :: rest => type_lines (insert_newline (type_chars e l)) (m :: rest)

/-- The line `"hello world"` with the mark at `(2, 0)` and the cursor at
`(5, 0)`: the region is `"llo"`. -/
def region_state : Editor :=
  { mk_editor ["hello world".toList] 5 0 with mark_x := 2, mark_y := 0, mark_active := true }

/-- The line `"ab"` with the cursor at `(1, 0)` and `"X"` in the kill-ring. -/
def yank_state : Editor :=
  { mk_editor ["ab".toList] 1 0 with kill_ring := some "X".toList }

/-- Two lines `["a", ""]` with the cursor at the start of the second, reached
by typing `a` and a newline. -/
def joined_state : Editor := run init_editor [Op.insert_char 'a', Op.insert_newline]

/-- The text `q` stands in the line `l` at column `x`. -/
def match_at (l q : Line) (x : Nat) : Prop :=
  x + q.length ≤ l.length ∧ (l.drop x).take q.length = q

instance (l q : Line) (x : Nat) : Decidable (match_at l q x) :=
  inferInstanceAs (Decidable (_ ∧ _))

/-- The query `q` occurs in row `y` of `L` at column `x`. -/
def occurs_at (L : List Line) (q : Line) (x y : Nat) : Prop :=
  y < L.length ∧ match_at (line_at L y) q x

instance (L : List Line) (q : Line) (x y : Nat) : Decidable (occurs_at L q x y) :=
  inferInstanceAs (Decidable (_ ∧ _))

/-- Position `(x, y)` is at or after position `(cx, cy)` in (row, column)
order. -/
def at_or_after (cx cy x y : Nat) : Prop := cy < y ∨ (y = cy ∧ cx ≤ x)

instance (cx cy x y : Nat) : Decidable (at_or_after cx cy x y) :=
  inferInstanceAs (Decidable (_ ∨ _))

/-- A state whose undo log is full: the line `"ab"` with the cursor at
`(1, 0)` and 1000 entries in a log of capacity 1000. -/
def full_log_state : Editor :=
  { mk_editor ["ab".toList] 1 0 with
    undo_stack := List.replicate 1000
      { action := Action.insert, x := 0, y := 0, data := 'a', bulk_data := none,
        line_count := 0 } }

/-- Typing 512 times `a`, a newline, 512 times `a`, then moving to the start of
the line and pressing backspace. -/
def long_join_ops : List Op :=
  List.replicate 512 (Op.insert_char 'a') ++ [Op.insert_newline] ++
    List.replicate 512 (Op.insert_char 'a') ++
    [Op.move_cursor_beginning_of_line, Op.delete_char]

/-- The three rows of the search scenario, cursor at the origin, search mode
on. -/
def search_state : Editor :=
  { mk_editor ["one".toList, "two three".toList, "four two".toList] 0 0 with
    searching := true }

/-- The ncurses key code `KEY_DC` (octal 0512). -/
def KEY_DC : Int := 330

/-- The ncurses key code `KEY_DOWN` (octal 0402). -/
def KEY_DOWN : Int := 258

/-- The ncurses key code `KEY_UP` (octal 0403). -/
def KEY_UP : Int := 259

/-- The ncurses key code `KEY_LEFT` (octal 0404). -/
def KEY_LEFT : Int := 260

/-- The ncurses key code `KEY_RIGHT` (octal 0405). -/
def KEY_RIGHT : Int := 261

/-- The ncurses value `ERR`. -/
def ERR : Int := -1

/-- Constant `#define CTRL_X_TIMEOUT 1` -/
def CTRL_X_TIMEOUT : Int := 1

/-- The three `static` variables of `handle_input`. -/
structure Dispatcher where
  expecting_alt : Bool
  ctrl_x_time : Int
  expecting_ctrl_x : Bool
deriving DecidableEq, Repr

/-- The dispatcher at program start: `Normal`. -/
def init_dispatcher : Dispatcher :=
  { expecting_alt := false, ctrl_x_time := 0, expecting_ctrl_x := false }

/-- The table `commands` as filled in `main`; `CTRL_KEY(k)` is `k & 0x1f`. -/
def commands (ch : Int) : Option (Editor → Editor) :=
  if ch = 21 then some undo
  else if ch = 11 then some kill_line
  else if ch = 25 then some yank
  else if ch = 0 then some set_mark
  else if ch = 23 then some delete_region
  else if ch = 19 then some start_search
  else if ch = 1 then some move_cursor_beginning_of_line
  else if ch = 5 then some move_cursor_end_of_line
  else if ch = 9 then some show_info
  else none

/-- The part of `handle_input` after the prefix tests: the key in `Normal`. -/
def handle_normal_key (e : Editor) (ch : Int) : Editor :=
  match commands ch with
  | some f => f e
  | none =>
      if isprint_key ch then insert_char e (Char.ofNat ch.toNat)
      else if ch = 10 then insert_newline e
      else if ch = KEY_BACKSPACE ∨ ch = 127 then delete_char e
      else if ch = KEY_DC then delete_char_right e
      else if ch = KEY_UP ∨ ch = 16 then move_cursor_up e
      else if ch = KEY_DOWN ∨ ch = 14 then move_cursor_down e
      else if ch = KEY_LEFT ∨ ch = 2 then move_cursor_left e
      else if ch = KEY_RIGHT ∨ ch = 6 then move_cursor_right e
      else if ch = 4 then delete_char e
      else if ch ≠ ERR then { e with message := "Unknown key: " ++ toString ch }
      else e

/-- Source function `handle_input`.  `now` is the value of `time(NULL)`,
`io_message` the outcome of `save_file`; the result is `none` where the source
calls `exit(0)`. -/
def handle_input (d : Dispatcher) (e : Editor) (ch : Int) (now : Int)
    (io_message : String) : Option (Dispatcher × Editor) :=
  let e0 := { e with message := "" }
  if e0.searching then some (d, update_search e0 ch)
  else if d.expecting_alt then
    let d1 := { d with expecting_alt := false }
    if ch = 98 then some (d1, move_cursor_backward_word e0)
    else if ch = 102 then some (d1, move_cursor_forward_word e0)
    else if ch = 123 then some (d1, move_cursor_backward_paragraph e0)
    else if ch = 125 then some (d1, move_cursor_forward_paragraph e0)
    else if ch = KEY_BACKSPACE ∨ ch = 127 then some (d1, delete_word_left e0)
    else if ch = KEY_DC then some (d1, delete_word_right e0)
    else some (d1, { e0 with message := "Unknown Alt sequence: " ++ toString ch })
  else if d.expecting_ctrl_x then
    let d1 := { d with expecting_ctrl_x := false }
    if now - d.ctrl_x_time > CTRL_X_TIMEOUT then
      some (d1, { e0 with message := "Ctrl+X timeout" })
    else if ch = 19 then some (d1, save_file e0 io_message)
    else if ch = 3 then none
    else if ch = 24 then some (d1, switch_buffer e0)
    else some (d1, { e0 with message := "Unknown Ctrl+X sequence: " ++ toString ch })
  else if ch = 27 then some ({ d with expecting_alt := true }, e0)
  else if ch = 24 then some ({ d with expecting_ctrl_x := true, ctrl_x_time := now }, e0)
  else some (d, handle_normal_key e0 ch)

/-- The type `Language` of the source. -/
inductive Language where
  | LANG_NONE
  | LANG_HTML
  | LANG_CSS
  | LANG_C
  | LANG_PYTHON
deriving DecidableEq, Repr

/-- The colour a character is drawn in: no colour pair (`TOKEN_NORMAL`) or one
of `COLOR_KEYWORD`, `COLOR_STRING`, `COLOR_COMMENT`, `COLOR_NUMBER`,
`COLOR_PREPROC`. -/
inductive TokenType where
  | TOKEN_NORMAL
  | TOKEN_KEYWORD
  | TOKEN_STRING
  | TOKEN_COMMENT
  | TOKEN_NUMBER
  | TOKEN_PREPROC
deriving DecidableEq, Repr

/-- One call `mvaddch(y, col + 6, ch)` made while the colour `tok` is on. -/
structure Cell where
  col : Nat
  ch : Char
  tok : TokenType
deriving DecidableEq, Repr

/-- The C library test `isdigit`. -/
def ISDIGIT (c : Char) : Bool := decide (48 ≤ c.toNat) && decide (c.toNat ≤ 57)

/-- The C library test `isalpha` in the C locale. -/
def ISALPHA (c : Char) : Bool :=
  (decide (65 ≤ c.toNat) && decide (c.toNat ≤ 90)) ||
  (decide (97 ≤ c.toNat) && decide (c.toNat ≤ 122))

/-- The table `html_keywords`. -/
def html_keywords : List String :=
  ["html", "head", "body", "div", "span", "a", "img", "p", "h1", "h2", "h3",
   "h4", "h5", "h6", "ul", "li", "ol", "table", "tr", "td", "th", "form",
   "input", "button", "script", "style", "link", "meta"]

/-- The table `css_keywords`. -/
def css_keywords : List String :=
  ["color", "background", "margin", "padding", "border", "width", "height",
   "display", "position", "float", "clear", "font", "text-align", "overflow",
   "transition", "transform", "animation"]

/-- The table `c_keywords`. -/
def c_keywords : List String :=
  ["auto", "break", "case", "char", "const", "continue", "default", "do",
   "double", "else", "enum", "extern", "float", "for", "goto", "if", "int",
   "long", "register", "return", "short", "signed", "sizeof", "static",
   "struct", "switch", "typedef", "union", "unsigned", "void", "volatile",
   "while"]

/-- The table `python_keywords`. -/
def python_keywords : List String :=
  ["and", "as", "assert", "break", "class", "continue", "def", "del", "elif",
   "else", "except", "False", "finally", "for", "from", "global", "if", "import",
   "in", "is", "lambda", "None", "nonlocal", "not", "or", "pass",
   "raise", "return", "True", "try", "while", "with", "yield"]

/-- The keyword table `highlight_line` selects for a language. -/
def keywords_of : Language → List String
  | Language.LANG_NONE => []
  | Language.LANG_HTML => html_keywords
  | Language.LANG_CSS => css_keywords
  | Language.LANG_C => c_keywords
  | Language.LANG_PYTHON => python_keywords

/-- The local variables of `highlight_line` during its loop, with the colour
that is on (`attron` with a colour pair replaces the pair, `attroff` clears it)
and the cells drawn so far, in drawing order. -/
structure Lex where
  i : Nat
  in_string : Bool
  string_delim : Char
  in_comment : Bool
  in_line_comment : Bool
  in_preproc : Bool
  attr : TokenType
  out : List Cell
deriving DecidableEq, Repr

/-- The inner loop of the carried-comment branch: every character is drawn; at
`*` followed by `/` the index moves on by two and the loop ends with the
comment closed.  Returns the index, whether the comment was closed, and the
cells. -/
def comment_scan (line : Line) : Nat → Nat → List Cell → Nat × Bool × List Cell
  | 0, i, out => (i, false, out)
  | fuel + 1, i, out =>
      if i < line.length then
        let out1 := out ++ [{ col := i, ch := char_at line i, tok := TokenType.TOKEN_COMMENT }]
        if i + 1 < line.length ∧ char_at line i = '*' ∧ char_at line (i + 1) = '/' then
          (i + 2, true, out1)
        else comment_scan line fuel (i + 1) out1
      else (i, false, out)

/-- The loops of the form `while (i < len && P(line[i])) { mvaddch(...); i++; }`
with the colour `tok` on. -/
def emit_while (p : Char → Bool) (tok : TokenType) (line : Line) :
    Nat → Nat → List Cell → Nat × List Cell
  | 0, i, out => (i, out)
  | fuel + 1, i, out =>
      if i < line.length ∧ p (char_at line i) = true then
        emit_while p tok line fuel (i + 1)
          (out ++ [{ col := i, ch := char_at line i, tok := tok }])
      else (i, out)

/-- The loop that copies an identifier into `word`:
`while (i < len && (isalnum(line[i]) || line[i] == '_') && j < MAX_LINE_LEN - 1)`.
Returns the index after the word and the word. -/
def word_scan (line : Line) : Nat → Nat → Line → Nat × Line
  | 0, i, word => (i, word)
  | fuel + 1, i, word =>
      if i < line.length ∧ (ISALNUM (char_at line i) || char_at line i == '_') = true ∧
          word.length < MAX_LINE_LEN - 1 then
        word_scan line fuel (i + 1) (word ++ [char_at line i])
      else (i, word)

/-- The cells of `word`, which ends before index `i`, drawn in colour `tok`:
`mvaddch(y, i - j + k + 6, word[k])` for `k < j`. -/
def word_cells (word : Line) (i : Nat) (tok : TokenType) : List Cell :=
  (List.range word.length).map
    (fun k => { col := i - word.length + k, ch := char_at word k, tok := tok })

/-- One cell for `line[i]` in colour `tok`. -/
def cell_at (line : Line) (i : Nat) (tok : TokenType) : Cell :=
  { col := i, ch := char_at line i, tok := tok }

/-- One pass through the body of the outer `while (i < len)` loop of
`highlight_line`, entered with `i < len`.  The flag of the result tells whether
the pass ended in `break`. -/
def lex_step (lang : Language) (line : Line) (s : Lex) : Lex × Bool :=
  let len := line.length
  let c := char_at line s.i
  if s.in_comment then
    let r := comment_scan line (len - s.i) s.i s.out
    ({ s with i := r.1, in_comment := !r.2.1, attr := TokenType.TOKEN_NORMAL, out := r.2.2 },
      false)
  else if s.in_line_comment then
    let r := emit_while (fun _ => true) TokenType.TOKEN_COMMENT line (len - s.i) s.i s.out
    ({ s with i := r.1, attr := TokenType.TOKEN_NORMAL, out := r.2 }, true)
  else if s.in_string then
    let out1 := s.out ++ [cell_at line s.i TokenType.TOKEN_STRING]
    if c = s.string_delim ∧ (s.i = 0 ∨ char_at line (s.i - 1) ≠ '\\') then
      ({ s with i := s.i + 1, in_string := false, attr := TokenType.TOKEN_NORMAL,
                out := out1 }, false)
    else ({ s with i := s.i + 1, attr := TokenType.TOKEN_STRING, out := out1 }, false)
  else if s.in_preproc then
    let r := emit_while (fun a => !ISSPACE a) TokenType.TOKEN_PREPROC line (len - s.i)
      s.i s.out
    ({ s with i := r.1, in_preproc := false, attr := TokenType.TOKEN_NORMAL, out := r.2 },
      false)
  else if lang = Language.LANG_HTML ∧ c = '<' ∧ s.i + 1 < len ∧
      (ISALPHA (char_at line (s.i + 1)) = true ∨ char_at line (s.i + 1) = '!') then
    let r := emit_while (fun a => a != '>') TokenType.TOKEN_KEYWORD line (len - s.i)
      s.i s.out
    if r.1 < len then
      ({ s with i := r.1 + 1, attr := TokenType.TOKEN_NORMAL,
                out := r.2 ++ [cell_at line r.1 TokenType.TOKEN_KEYWORD] }, false)
    else ({ s with i := r.1, attr := TokenType.TOKEN_NORMAL, out := r.2 }, false)
  else if lang = Language.LANG_C ∧ s.i = 0 ∧ c = '#' then
    ({ s with i := s.i + 1, in_preproc := true, attr := TokenType.TOKEN_PREPROC,
              out := s.out ++ [cell_at line s.i TokenType.TOKEN_PREPROC] }, false)
  else if (lang = Language.LANG_C ∨ lang = Language.LANG_HTML) ∧ s.i + 1 < len ∧
      c = '/' ∧ char_at line (s.i + 1) = '*' then
    ({ s with i := s.i + 2, in_comment := true, attr := TokenType.TOKEN_COMMENT,
              out := s.out ++ [cell_at line s.i TokenType.TOKEN_COMMENT,
                cell_at line (s.i + 1) TokenType.TOKEN_COMMENT] }, false)
  else if lang = Language.LANG_C ∧ s.i + 1 < len ∧ c = '/' ∧
      char_at line (s.i + 1) = '/' then
    ({ s with i := s.i + 2, in_line_comment := true, attr := TokenType.TOKEN_COMMENT,
              out := s.out ++ [cell_at line s.i TokenType.TOKEN_COMMENT,
                cell_at line (s.i + 1) TokenType.TOKEN_COMMENT] }, false)
  else if lang = Language.LANG_PYTHON ∧ c = '#' then
    ({ s with i := s.i + 1, in_line_comment := true, attr := TokenType.TOKEN_COMMENT,
              out := s.out ++ [cell_at line s.i TokenType.TOKEN_COMMENT] }, false)
  else if lang = Language.LANG_HTML ∧ s.i + 3 < len ∧ c = '<' ∧
      char_at line (s.i + 1) = '!' ∧ char_at line (s.i + 2) = '-' ∧
      char_at line (s.i + 3) = '-' then
    ({ s with i := s.i + 4, in_line_comment := true, attr := TokenType.TOKEN_COMMENT,
              out := s.out ++ [cell_at line s.i TokenType.TOKEN_COMMENT,
                cell_at line (s.i + 1) TokenType.TOKEN_COMMENT,
                cell_at line (s.i + 2) TokenType.TOKEN_COMMENT,
                cell_at line (s.i + 3) TokenType.TOKEN_COMMENT] }, false)
  else if (lang = Language.LANG_C ∨ lang = Language.LANG_PYTHON ∨
      lang = Language.LANG_CSS ∨ lang = Language.LANG_HTML) ∧ (c = '"' ∨ c = '\'') then
    ({ s with i := s.i + 1, in_string := true, string_delim := c,
              attr := TokenType.TOKEN_STRING,
              out := s.out ++ [cell_at line s.i TokenType.TOKEN_STRING] }, false)
  else if ISDIGIT c then
    let r := emit_while (fun a => ISDIGIT a || a == '.') TokenType.TOKEN_NUMBER line
      (len - s.i) s.i s.out
    ({ s with i := r.1, attr := TokenType.TOKEN_NORMAL, out := r.2 }, false)
  else if ISALPHA c = true ∨ c = '_' then
    let r := word_scan line (len - s.i) s.i []
    if (keywords_of lang).contains (String.mk r.2) then
      ({ s with i := r.1, attr := TokenType.TOKEN_NORMAL,
                out := s.out ++ word_cells r.2 r.1 TokenType.TOKEN_KEYWORD }, false)
    else ({ s with i := r.1, out := s.out ++ word_cells r.2 r.1 s.attr }, false)
  else ({ s with i := s.i + 1, out := s.out ++ [cell_at line s.i s.attr] }, false)

/-- The outer loop `while (i < len)` of `highlight_line`, for at most `fuel`
passes; `none` when the passes run out before the loop ends. -/
def lex_loop (lang : Language) (line : Line) : Nat → Lex → Option Lex
  | 0, _ => none
  | fuel + 1, s =>
      if s.i < line.length then
        let r := lex_step lang line s
        if r.2 then some r.1 else lex_loop lang line fuel r.1
      else some s

/-- Source function `highlight_line` for language `lang` (`e->language`) and
carried flag `carry` (`e->in_multiline_comment`), entered with no colour on:
the cells it draws and the flag it stores.  Every pass but the one that ends a
preprocessor word moves the index on, so `2 * len + 2` passes are enough. -/
def highlight_line (lang : Language) (line : Line) (carry : Bool) :
    Option (List Cell × Bool) :=
  (lex_loop lang line (2 * line.length + 2)
    { i := 0, in_string := false, string_delim := NUL, in_comment := carry,
      in_line_comment := false, in_preproc := false, attr := TokenType.TOKEN_NORMAL,
      out := [] }).map (fun s => (s.out, s.in_comment))

/-- The characters of the cells, in drawing order. -/
def cell_chars (cells : List Cell) : Line := cells.map (fun c => c.ch)

/-- The colours of the cells, in drawing order. -/
def cell_toks (cells : List Cell) : List TokenType := cells.map (fun c => c.tok)

/-- The cursor-movement operations. -/
inductive Move where
  | left
  | right
  | up
  | down
  | beginning_of_line
  | end_of_line
  | forward_word
  | backward_word
  | forward_paragraph
  | backward_paragraph
deriving DecidableEq, Repr

/-- Runs one cursor movement. -/
def apply_move (e : Editor) : Move → Editor
  | Move.left => move_cursor_left e
  | Move.right => move_cursor_right e
  | Move.up => move_cursor_up e
  | Move.down => move_cursor_down e
  | Move.beginning_of_line => move_cursor_beginning_of_line e
  | Move.end_of_line => move_cursor_end_of_line e
  | Move.forward_word => move_cursor_forward_word e
  | Move.backward_word => move_cursor_backward_word e
  | Move.forward_paragraph => move_cursor_forward_paragraph e
  | Move.backward_paragraph => move_cursor_backward_paragraph e

/-- A character edit or a cursor movement. -/
inductive EditStep where
  | edit (ed : CharEdit)
  | move (m : Move)
deriving DecidableEq, Repr

/-- Runs one edit or movement. -/
def apply_step (e : Editor) : EditStep → Editor
  | EditStep.edit ed => apply_edit e ed
  | EditStep.move m => apply_move e m

/-- Runs a sequence of edits and movements, first to last. -/
def apply_steps (e : Editor) : List EditStep → Editor
  | [] => e
  | st :: rest => apply_steps (apply_step e st) rest

/-- The edit stays inside its line: `insert_char` of a printable character on a
line shorter than `MAX_LINE_LEN - 1`, `delete_char` with `cursor_x > 0`, or
`delete_char_right` with `cursor_x` before the end of the line. -/
def in_line (e : Editor) : CharEdit → Bool
  | CharEdit.ins c =>
      ISPRINT c && decide ((line_at e.lines e.cursor_y).length < MAX_LINE_LEN - 1)
  | CharEdit.del => decide (0 < e.cursor_x)
  | CharEdit.del_right => decide (e.cursor_x < (line_at e.lines e.cursor_y).length)

/-- Every edit of the sequence, run from `e`, stays inside its line. -/
def all_in_line (e : Editor) : List EditStep → Bool
  | [] => true
  | EditStep.edit ed :: rest => in_line e ed && all_in_line (apply_edit e ed) rest
  | EditStep.move m :: rest => all_in_line (apply_move e m) rest

/-- The number of edits in a sequence of edits and movements. -/
def count_edits : List EditStep → Nat
  | [] => 0
  | EditStep.edit _ :: rest => count_edits rest + 1
  | EditStep.move _ :: rest => count_edits rest

/-- The state `t` is valid and has the lines, the undo log and the capacity of
`e`. -/
def Keeps (e t : Editor) : Prop :=
  Valid t ∧ t.lines = e.lines ∧ t.undo_stack = e.undo_stack ∧ t.undo_size = e.undo_size

/-- The dispatcher in `MetaPrefix`: the key before was the escape key. -/
def meta_dispatcher : Dispatcher :=
  { expecting_alt := true, ctrl_x_time := 0, expecting_ctrl_x := false }

/-- The dispatcher in `CtrlXPrefix`, entered at time 0. -/
def ctrl_x_dispatcher : Dispatcher :=
  { expecting_alt := false, ctrl_x_time := 0, expecting_ctrl_x := true }

/-- The step from `e` to `t` of a character edit is undoable: the cursor of `t`
is inside the buffer, the capacity of the log is that of `e`, and either one
entry was pushed whose branch of `undo` restores the lines of `e`, or neither
the lines nor the log changed. -/
def UndoableEdit (e t : Editor) : Prop :=
  cursor_ok t ∧ t.undo_size = e.undo_size ∧
    ((∃ u, t.undo_stack = u :: e.undo_stack ∧ undo_lines t.lines u = e.lines) ∨
      (t.undo_stack = e.undo_stack ∧ t.lines = e.lines))

/-- The popped entry lies inside the buffer `L`, so that every row and
character its branch of `undo` reads exists: the character to remove for
`insert` (`x < STRLEN(lines[y])`), the column to insert at for `delete` and
`delete_right` (`x ≤ STRLEN(lines[y])`), the rows `y` and `y + 1` for
`newline`, and the rows `y .. y + line_count` for `bulk_insert` and
`delete_word`, with a row left over for `draw`. -/
def entry_inside (L : List Line) (u : UndoEntry) : Bool :=
  match u.action with
  | Action.insert => decide (u.y < L.length ∧ u.x < (line_at L u.y).length)
  | Action.delete | Action.delete_right =>
      decide (u.y < L.length ∧ u.x ≤ (line_at L u.y).length)
  | Action.newline => decide (u.y + 1 < L.length)
  | Action.bulk_insert | Action.delete_word =>
      decide (u.y + u.line_count ≤ L.length ∧ u.line_count < L.length)

/-- The size the multi-line branch of `delete_region` passes to `malloc` for
`new_line`: `STRLEN(e->lines[start_y]) - start_x + end_x + 1`. -/
def delete_region_block (e : Editor) : Int :=
  ((line_at e.lines (region_start e).2).length : Int) - (region_start e).1
    + (region_end e).1 + 1

/-- The number of bytes the multi-line branch of `delete_region` writes to
`new_line`: `start_x` characters by `STRNCPY`, then, by `STRCAT` after
`new_line[start_x] = 0`, the characters of `e->lines[end_y] + end_x` and the
terminator. -/
def delete_region_bytes (e : Editor) : Nat :=
  (region_start e).1 + ((line_at e.lines (region_end e).2).length - (region_end e).1) + 1

/-- The block `delete_region` allocates for `new_line` holds what is written to
it; the other branches (no mark, region on one row) allocate no such block. -/
def delete_region_fits (e : Editor) : Bool :=
  !e.mark_active || decide ((region_start e).2 = (region_end e).2) ||
    decide ((delete_region_bytes e : Int) ≤ delete_region_block e)

/-- The rows `"hello"` and a line of 43 characters, the mark at the end of the
first row, `(5, 0)`, and the cursor at the start of the second, `(0, 1)`: the
region is the line break between them. -/
def line_break_region : Editor :=
  { mk_editor ["hello".toList, "the quick brown fox jumps over the lazy dog".toList] 0 1 with
    mark_x := 5, mark_y := 0, mark_active := true }

/-- Where `delete_word_left` stays inside the block it allocates for `deleted`.
On one row it uses `STRNDUP` and fits.  When the target is on the previous row
the block has `STRLEN(lines[new_y]) - new_x + 1 + orig_x + 1` bytes and
receives `STRLEN(lines[new_y] + new_x) + 1 + STRLEN(lines[orig_y]) + 1`, so it
fits when the cursor row has at most `orig_x` characters. -/
def delete_word_left_fits (e : Editor) : Bool :=
  let line := line_at e.lines e.cursor_y
  if e.cursor_x = 0 ∧ e.cursor_y = 0 then true
  else
    let x3 := skip_left ISALNUM line (skip_left ISPUNCT line (skip_left ISSPACE line e.cursor_x))
    if x3 = 0 ∧ e.cursor_y > 0 then decide (line.length ≤ e.cursor_x) else true

/-- Where `delete_word_right` stays inside the rows it reads and the block it
allocates for `deleted`.  On one row it uses `STRNDUP` and fits.  When the
target is on the next row, `line` is that row: `line + orig_x` lies inside it
when `orig_x ≤ STRLEN(line)`, and then the block of
`STRLEN(line) - orig_x + 1 + STRLEN(lines[new_y]) + 1` bytes receives exactly
that many. -/
def delete_word_right_fits (e : Editor) : Bool :=
  let line := line_at e.lines e.cursor_y
  if e.cursor_y + 1 = num_lines e ∧ e.cursor_x = line.length then true
  else
    let x3 := skip_right ISSPACE line
      (skip_right ISPUNCT line (skip_right ISALNUM line e.cursor_x))
    if char_at line x3 = NUL ∧ e.cursor_y + 1 < num_lines e then
      decide (e.cursor_x ≤ (line_at e.lines (e.cursor_y + 1)).length)
    else true

/-- The line counters of the source, C `int`s: `num_lines`, and the entry of
`num_lines_buf` for the buffer that is not active.  Every function that assigns
`num_lines` stores it to `num_lines_buf[current_buffer]` before it returns, and
`switch_buffer` loads `num_lines` from the entry of the buffer it switches to,
so between two keys `num_lines_buf[current_buffer]` is `num_lines`. -/
structure LineCounts where
  num_lines : Int
  other : Int
deriving DecidableEq, Repr

/-- The functions a key can start, as far as `num_lines` goes: each function
that assigns `num_lines`, with the values the assignment takes from the rest of
the state, and `keep` for every function that never assigns it (`insert_char`,
`kill_line` without a mark, `set_mark`, the cursor, word and paragraph
motions, `start_search`, `update_search`, `show_info`, `save_file`). -/
inductive CountOp where
  | keep
  | insert_newline
  | yank (line_count : Option Nat)
  | delete_char (join : Bool)
  | delete_char_right (join : Bool)
  | delete_word_left (wrap : Bool)
  | delete_word_right (wrap : Bool)
  | delete_region (mark_active : Bool) (mark_y cursor_y : Nat)
  | undo (entry : Option UndoEntry)
  | switch_buffer
deriving DecidableEq, Repr

/-- The counters after `init_editor` and, when a file name is given, `load_file`:
its loop reads lines only while `num_lines_buf[buf] < MAX_LINES`, and an empty
file gives one line.  `file_lines` is the number of lines `fgets` can deliver. -/
def start_counts (file_lines : Option Nat) : LineCounts :=
  match file_lines with
  | none => { num_lines := 1, other := 1 }
  | some n =>
      { num_lines := if min n MAX_LINES = 0 then 1 else (min n MAX_LINES : Nat), other := 1 }

/-- What each function does to `num_lines`:
`insert_newline` returns at once if `num_lines >= MAX_LINES`, else `num_lines++`;
`yank` returns at once with an empty kill-ring, else calls `insert_lines`, which
returns at once if `num_lines + line_count > MAX_LINES`, else
`num_lines += line_count`;
the joins of `delete_char` and `delete_char_right` do `num_lines--`;
`delete_word_left` does `num_lines -= (orig_y - new_y)` and `delete_word_right`
`num_lines -= (new_y - orig_y)` in the branch where `new_y` is the neighbouring
row; `delete_region` (also when called by `kill_line`) does
`num_lines -= (end_y - start_y)` with the rows of mark and cursor in order;
`undo` does `num_lines--` for a `newline` entry and `num_lines -= line_count`
for a `bulk_insert` or `delete_word` entry;
`switch_buffer` exchanges the two counters. -/
def count_step (c : LineCounts) : CountOp → LineCounts
  | CountOp.keep => c
  | CountOp.insert_newline =>
      if c.num_lines ≥ MAX_LINES then c else { c with num_lines := c.num_lines + 1 }
  | CountOp.yank none => c
  | CountOp.yank (some line_count) =>
      if c.num_lines + line_count > MAX_LINES then c
      else { c with num_lines := c.num_lines + line_count }
  | CountOp.delete_char join =>
      if join then { c with num_lines := c.num_lines - 1 } else c
  | CountOp.delete_char_right join =>
      if join then { c with num_lines := c.num_lines - 1 } else c
  | CountOp.delete_word_left wrap =>
      if wrap then { c with num_lines := c.num_lines - 1 } else c
  | CountOp.delete_word_right wrap =>
      if wrap then { c with num_lines := c.num_lines - 1 } else c
  | CountOp.delete_region mark_active mark_y cursor_y =>
      if mark_active then
        if mark_y ≤ cursor_y then
          { c with num_lines := c.num_lines - ((cursor_y : Int) - mark_y) }
        else { c with num_lines := c.num_lines - ((mark_y : Int) - cursor_y) }
      else c
  | CountOp.undo none => c
  | CountOp.undo (some u) =>
      match u.action with
      | Action.newline => { c with num_lines := c.num_lines - 1 }
      | Action.bulk_insert | Action.delete_word =>
          { c with num_lines := c.num_lines - u.line_count }
      | _ => c
  | CountOp.switch_buffer => { num_lines := c.other, other := c.num_lines }

/-- The counters after a sequence of functions, first to last. -/
def count_run (c : LineCounts) (ops : List CountOp) : LineCounts := ops.foldl count_step c

/-- The counters of a state of the list model. -/
def counts (e : Editor) : LineCounts :=
  { num_lines := (num_lines e : Nat), other := (e.other_lines.length : Nat) }

/-- The entry of `CountOp` for an operation started in the state `e`, with the
values the function takes from `e`. -/
def count_of (e : Editor) : Op → CountOp
  | Op.insert_newline => CountOp.insert_newline
  | Op.yank => CountOp.yank (e.kill_ring.map (fun text => (yank_lines text).length))
  | Op.delete_char => CountOp.delete_char (decide (e.cursor_x = 0 ∧ e.cursor_y > 0))
  | Op.delete_char_right =>
      CountOp.delete_char_right
        (decide (¬ e.cursor_x < (line_at e.lines e.cursor_y).length ∧
          e.cursor_y + 1 < num_lines e))
  | Op.delete_word_left =>
      let line := line_at e.lines e.cursor_y
      CountOp.delete_word_left
        (decide (¬ (e.cursor_x = 0 ∧ e.cursor_y = 0) ∧
          skip_left ISALNUM line (skip_left ISPUNCT line (skip_left ISSPACE line e.cursor_x)) = 0
          ∧ e.cursor_y > 0))
  | Op.delete_word_right =>
      let line := line_at e.lines e.cursor_y
      CountOp.delete_word_right
        (decide (¬ (e.cursor_y + 1 = num_lines e ∧ e.cursor_x = line.length) ∧
          char_at line (skip_right ISSPACE line
            (skip_right ISPUNCT line (skip_right ISALNUM line e.cursor_x))) = NUL
          ∧ e.cursor_y + 1 < num_lines e))
  | Op.kill_line =>
      if e.mark_active then CountOp.delete_region true e.mark_y e.cursor_y else CountOp.keep
  | Op.delete_region => CountOp.delete_region e.mark_active e.mark_y e.cursor_y
  | Op.undo => CountOp.undo e.undo_stack.head?
  | Op.switch_buffer => CountOp.switch_buffer
  | _ => CountOp.keep

/-- The rows the operation indexes exist in `e`: the cursor row, for
`delete_region` (also through `kill_line`) the rows of mark and cursor, for
`undo` the rows and columns of the popped entry, for `move_cursor_up` the row
above the cursor; `set_mark`, `switch_buffer`, `move_cursor_left`,
`move_cursor_beginning_of_line`, `yank` with an empty kill-ring and
`move_cursor_down` (which tests `cursor_y < num_lines - 1` first) index no row
that could be missing, and neither do `move_cursor_forward_paragraph` (same
test), `update_search` (its loop runs over the rows from `cursor_y` below
`num_lines`), `start_search`, `show_info` and `save_file`;
`move_cursor_backward_paragraph` goes through the rows above the cursor. -/
def step_inside (e : Editor) : Op → Bool
  | Op.set_mark => true
  | Op.switch_buffer => true
  | Op.move_cursor_left => true
  | Op.move_cursor_beginning_of_line => true
  | Op.move_cursor_down => true
  | Op.move_cursor_up => decide (e.cursor_y = 0 ∨ e.cursor_y - 1 < num_lines e)
  | Op.move_cursor_backward_paragraph =>
      decide (e.cursor_y = 0 ∨ e.cursor_y - 1 < num_lines e)
  | Op.move_cursor_forward_paragraph => true
  | Op.start_search => true
  | Op.update_search _ => true
  | Op.show_info => true
  | Op.save_file _ => true
  | Op.yank => e.kill_ring.isNone || decide (e.cursor_y < num_lines e)
  | Op.undo =>
      match e.undo_stack.head? with
      | none => true
      | some u => entry_inside e.lines u
  | Op.delete_region =>
      !e.mark_active || (decide (e.cursor_y < num_lines e) && decide (e.mark_y < num_lines e))
  | Op.kill_line =>
      decide (e.cursor_y < num_lines e) && (!e.mark_active || decide (e.mark_y < num_lines e))
  | _ => decide (e.cursor_y < num_lines e)

/-- Every operation of the run finds the rows it indexes. -/
def run_inside : Editor → List Op → Bool
  | _, [] => true
  | e, op :: rest => step_inside e op && run_inside (step e op) rest

/-- The entries of `CountOp` for the operations of a run from `e`. -/
def count_trace : Editor → List Op → List CountOp
  | _, [] => []
  | e, op :: rest => count_of e op :: count_trace (step e op) rest

/-! ## List facts used for rows and columns -/

theorem split_at_row (L : List Line) (y : Nat) (h : y < L.length) :
    ∃ A l B, L = A ++ l :: B ∧ A.length = y := by
  refine ⟨L.take y, L[y], L.drop (y + 1), ?_, ?_⟩
  · simp
  · simp [List.length_take]; omega

theorem set_at {α : Type} (A B : List α) (l x : α) (n : Nat) (h : A.length = n) :
    (A ++ l :: B).set n x = A ++ x :: B := by
  subst h
  induction A with
  | nil => rfl
  | cons a A ih => simp [ih]

theorem take_at {α : Type} (A B : List α) (n : Nat) (h : A.length = n) :
    (A ++ B).take n = A := by
  subst h; simp

theorem take_succ_at {α : Type} (A B : List α) (l : α) (n : Nat) (h : A.length = n) :
    (A ++ l :: B).take (n + 1) = A ++ [l] := by
  subst h
  induction A with
  | nil => simp
  | cons a A ih => simpa using ih

theorem drop_at {α : Type} (A B : List α) (n : Nat) (h : A.length = n) :
    (A ++ B).drop n = B := by
  subst h; simp

theorem drop_succ_at {α : Type} (A B : List α) (l : α) (n : Nat) (h : A.length = n) :
    (A ++ l :: B).drop (n + 1) = B := by
  subst h
  induction A with
  | nil => simp
  | cons a A ih => simp

theorem drop_succ_succ_at {α : Type} (A B : List α) (l m : α) (n : Nat)
    (h : A.length = n) : (A ++ l :: m :: B).drop (n + 2) = B := by
  subst h
  induction A with
  | nil => simp
  | cons a A ih => simp

theorem line_at_at (A B : List Line) (l : Line) (n : Nat) (h : A.length = n) :
    line_at (A ++ l :: B) n = l := by
  subst h
  induction A with
  | nil => rfl
  | cons a A ih => simp [line_at] at ih ⊢; exact ih

theorem line_at_succ_at (A B : List Line) (l m : Line) (n : Nat) (h : A.length = n) :
    line_at (A ++ l :: m :: B) (n + 1) = m := by
  subst h
  induction A with
  | nil => rfl
  | cons a A ih => simp [line_at] at ih ⊢; exact ih

/-! ## `add_undo` -/

theorem add_undo_lines (e : Editor) (a : Action) (x y : Nat) (d : Char)
    (b : Option Line) (n : Nat) : (add_undo e a x y d b n).lines = e.lines := by
  unfold add_undo; split <;> rfl

theorem add_undo_cursor_x (e : Editor) (a : Action) (x y : Nat) (d : Char)
    (b : Option Line) (n : Nat) : (add_undo e a x y d b n).cursor_x = e.cursor_x := by
  unfold add_undo; split <;> rfl

theorem add_undo_cursor_y (e : Editor) (a : Action) (x y : Nat) (d : Char)
    (b : Option Line) (n : Nat) : (add_undo e a x y d b n).cursor_y = e.cursor_y := by
  unfold add_undo; split <;> rfl

theorem add_undo_size (e : Editor) (a : Action) (x y : Nat) (d : Char)
    (b : Option Line) (n : Nat) : (add_undo e a x y d b n).undo_size = e.undo_size := by
  unfold add_undo; split <;> rfl

theorem add_undo_stack (e : Editor) (a : Action) (x y : Nat) (d : Char)
    (b : Option Line) (n : Nat) (h : undo_room e 1) :
    (add_undo e a x y d b n).undo_stack =
      { action := a, x := x, y := y, data := d, bulk_data := b, line_count := n }
        :: e.undo_stack := by
  unfold undo_room at h
  unfold add_undo
  rw [if_neg (by omega)]

/-! ## `insert_newline` -/

theorem insert_newline_lines (e : Editor) (hy : e.cursor_y < num_lines e)
    (hn : num_lines e < MAX_LINES) :
    (insert_newline e).lines =
      e.lines.take e.cursor_y ++
        [(line_at e.lines e.cursor_y).take e.cursor_x,
         (line_at e.lines e.cursor_y).drop e.cursor_x] ++
        e.lines.drop (e.cursor_y + 1) := by
  obtain ⟨A, l, B, hL, hA⟩ := split_at_row e.lines e.cursor_y hy
  unfold insert_newline
  rw [if_neg (by omega)]
  simp only [hL, line_at_at A B l _ hA, set_at A B l _ _ hA, take_succ_at A B _ _ hA,
    drop_succ_at A B _ _ hA, take_at A _ _ hA]
  simp

theorem insert_newline_cursor (e : Editor) (hn : num_lines e < MAX_LINES) :
    (insert_newline e).cursor_x = 0 ∧ (insert_newline e).cursor_y = e.cursor_y + 1 := by
  unfold insert_newline
  rw [if_neg (by omega)]
  exact ⟨rfl, rfl⟩

theorem insert_newline_stack (e : Editor) (hn : num_lines e < MAX_LINES)
    (hroom : undo_room e 1) :
    (insert_newline e).undo_stack =
      { action := Action.newline, x := e.cursor_x, y := e.cursor_y, data := NUL,
        bulk_data := none, line_count := 0 } :: e.undo_stack := by
  unfold insert_newline
  rw [if_neg (by omega)]
  exact add_undo_stack e _ _ _ _ _ _ hroom

/-- The `newline` branch of `undo` joins the two halves of a split line. -/
theorem undo_lines_newline (A B : List Line) (a b : Line) (u : UndoEntry)
    (hu : u.action = Action.newline) (hy : A.length = u.y) :
    undo_lines (A ++ a :: b :: B) u = A ++ (a ++ b) :: B := by
  unfold undo_lines
  simp only [hu, line_at_at A (b :: B) a _ hy, line_at_succ_at A B a b _ hy,
    set_at A (b :: B) a _ _ hy, take_succ_at A (b :: B) _ _ hy,
    drop_succ_succ_at A B a b _ hy]
  simp

/-- C3. Newline then undo is the identity: in a valid state with fewer than
`MAX_LINES` lines and room in the undo log, `insert_newline` at cursor
`(c, r)` cuts line `r` to its first `c` characters, puts the former tail on a new
line `r + 1` and moves the cursor to `(0, r + 1)`; an immediately following `undo`
restores the original lines and the cursor `(c, r)`. -/
theorem insert_newline_then_undo (e : Editor) (hv : Valid e)
    (hn : num_lines e < MAX_LINES) (hroom : undo_room e 1) :
    (insert_newline e).lines =
        e.lines.take e.cursor_y ++
          [(line_at e.lines e.cursor_y).take e.cursor_x,
           (line_at e.lines e.cursor_y).drop e.cursor_x] ++
          e.lines.drop (e.cursor_y + 1) ∧
      (insert_newline e).cursor_x = 0 ∧
      (insert_newline e).cursor_y = e.cursor_y + 1 ∧
      (undo (insert_newline e)).lines = e.lines ∧
      (undo (insert_newline e)).cursor_x = e.cursor_x ∧
      (undo (insert_newline e)).cursor_y = e.cursor_y := by
  have hy : e.cursor_y < num_lines e := hv.2.2.2.1
  have hl := insert_newline_lines e hy hn
  have hs := insert_newline_stack e hn hroom
  have hc := insert_newline_cursor e hn
  refine ⟨hl, hc.1, hc.2, ?_, ?_, ?_⟩
  · unfold undo
    rw [hs]
    simp only [hl]
    obtain ⟨A, l, B, hL, hA⟩ := split_at_row e.lines e.cursor_y hy
    have h1 : List.take e.cursor_y e.lines = A := by rw [hL]; exact take_at A _ _ hA
    have h2 : List.drop (e.cursor_y + 1) e.lines = B := by
      rw [hL]; exact drop_succ_at A B l _ hA
    have h3 : line_at e.lines e.cursor_y = l := by rw [hL]; exact line_at_at A B l _ hA
    rw [h1, h2, h3]
    have := undo_lines_newline A B (l.take e.cursor_x) (l.drop e.cursor_x)
      { action := Action.newline, x := e.cursor_x, y := e.cursor_y, data := NUL,
        bulk_data := none, line_count := 0 } rfl hA
    simp only [List.append_assoc, List.cons_append, List.nil_append] at this ⊢
    rw [this, List.take_append_drop, hL]
  · unfold undo; rw [hs]
  · unfold undo; rw [hs]

/-- C3, at the scenario of the specification: `["abc"]` with the cursor at
`(3, 0)` becomes `["abc", ""]` with the cursor at `(0, 1)`, and `undo` gives
`["abc"]` with the cursor at `(3, 0)` again. -/
theorem insert_newline_then_undo_witness :
    (insert_newline (mk_editor ["abc".toList] 3 0)).lines = ["abc".toList, []] ∧
      (insert_newline (mk_editor ["abc".toList] 3 0)).cursor_x = 0 ∧
      (insert_newline (mk_editor ["abc".toList] 3 0)).cursor_y = 1 ∧
      (undo (insert_newline (mk_editor ["abc".toList] 3 0))).lines = ["abc".toList] ∧
      (undo (insert_newline (mk_editor ["abc".toList] 3 0))).cursor_x = 3 ∧
      (undo (insert_newline (mk_editor ["abc".toList] 3 0))).cursor_y = 0 := by
  have h := insert_newline_then_undo (mk_editor ["abc".toList] 3 0)
    (by decide) (by decide) (by decide)
  exact ⟨by decide, h.2.1, h.2.2.1, h.2.2.2.1, h.2.2.2.2.1, h.2.2.2.2.2⟩

/-! ## `delete_char` -/

/-- The join branch of `delete_char`: at column 0 of row `r + 1` the row is
appended to row `r` and removed, and the cursor goes to the join point. -/
theorem delete_char_join (t : Editor) (A B : List Line) (a b : Line) (r : Nat)
    (hx : t.cursor_x = 0) (hy : t.cursor_y = r + 1)
    (hL : t.lines = A ++ a :: b :: B) (hA : A.length = r) :
    (delete_char t).lines = A ++ (a ++ b) :: B ∧
      (delete_char t).cursor_x = a.length ∧ (delete_char t).cursor_y = r := by
  unfold delete_char
  rw [if_neg (by omega), if_neg (by omega), if_pos (by omega)]
  simp only [hy, hL, Nat.add_sub_cancel, line_at_at A (b :: B) a _ hA,
    line_at_succ_at A B a b _ hA, set_at A (b :: B) a _ _ hA,
    take_succ_at A (b :: B) _ _ hA, drop_succ_succ_at A B a b _ hA]
  simp

/-- C4. Split and join are exact inverses: in a valid state with fewer than
`MAX_LINES` lines and cursor `(c, r)`, `insert_newline` followed immediately by
`delete_char` (backspace at column 0 of row `r + 1`) gives exactly the original
lines and the cursor `(c, r)`. -/
theorem split_then_join (e : Editor) (hv : Valid e) (hn : num_lines e < MAX_LINES) :
    (delete_char (insert_newline e)).lines = e.lines ∧
      (delete_char (insert_newline e)).cursor_x = e.cursor_x ∧
      (delete_char (insert_newline e)).cursor_y = e.cursor_y := by
  have hy : e.cursor_y < num_lines e := hv.2.2.2.1
  have hx : e.cursor_x ≤ (line_at e.lines e.cursor_y).length := hv.2.2.2.2
  obtain ⟨A, l, B, hL, hA⟩ := split_at_row e.lines e.cursor_y hy
  have h3 : line_at e.lines e.cursor_y = l := by rw [hL]; exact line_at_at A B l _ hA
  have hl : (insert_newline e).lines =
      A ++ l.take e.cursor_x :: l.drop e.cursor_x :: B := by
    rw [insert_newline_lines e hy hn, h3]
    have h1 : List.take e.cursor_y e.lines = A := by rw [hL]; exact take_at A _ _ hA
    have h2 : List.drop (e.cursor_y + 1) e.lines = B := by
      rw [hL]; exact drop_succ_at A B l _ hA
    rw [h1, h2]; simp
  have hc := insert_newline_cursor e hn
  have hj := delete_char_join (insert_newline e) A B _ _ e.cursor_y hc.1 hc.2 hl hA
  rw [h3] at hx
  refine ⟨?_, ?_, hj.2.2⟩
  · rw [hj.1, List.take_append_drop, hL]
  · rw [hj.2.1, List.length_take]; omega

/-- C4 at a concrete state: splitting `"hello"` at column 2 of the second of
three rows and joining again gives back the three rows and the cursor. -/
theorem split_then_join_witness :
    (delete_char (insert_newline
        (mk_editor ["ab".toList, "hello".toList, "z".toList] 2 1))).lines =
        ["ab".toList, "hello".toList, "z".toList] ∧
      (delete_char (insert_newline
        (mk_editor ["ab".toList, "hello".toList, "z".toList] 2 1))).cursor_x = 2 ∧
      (delete_char (insert_newline
        (mk_editor ["ab".toList, "hello".toList, "z".toList] 2 1))).cursor_y = 1 :=
  split_then_join (mk_editor ["ab".toList, "hello".toList, "z".toList] 2 1)
    (by decide) (by decide)

/-! ## Character edits and their undo entries -/

theorem undo_n_succ (n : Nat) (e : Editor) : undo_n (n + 1) e = undo (undo_n n e) := by
  induction n generalizing e with
  | zero => rfl
  | succ n ih =>
      show undo_n (n + 1) (undo e) = undo (undo_n (n + 1) e)
      rw [ih (undo e)]
      rfl

/-- What `undo` does to lines and log is fixed by the lines and the log. -/
theorem undo_of_cons (t : Editor) (u : UndoEntry) (rest : List UndoEntry)
    (h : t.undo_stack = u :: rest) :
    (undo t).lines = undo_lines t.lines u ∧ (undo t).undo_stack = rest := by
  unfold undo
  rw [h]
  exact ⟨rfl, rfl⟩

theorem valid_of_row (e : Editor) (A B : List Line) (l : Line)
    (hL : e.lines = A ++ l :: B) (hA : A.length = e.cursor_y)
    (hA1 : A.length + (B.length + 1) ≤ MAX_LINES)
    (hAl : ∀ a ∈ A, a.length < MAX_LINE_LEN) (hBl : ∀ b ∈ B, b.length < MAX_LINE_LEN)
    (hl : l.length < MAX_LINE_LEN) (hx : e.cursor_x ≤ l.length) : Valid e := by
  have h3 : line_at e.lines e.cursor_y = l := by rw [hL]; exact line_at_at A B l _ hA
  refine ⟨?_, ?_, ?_, ?_, ?_⟩
  · simp [num_lines, hL]; omega
  · simpa [num_lines, hL] using hA1
  · intro a ha
    rw [hL] at ha
    rcases List.mem_append.mp ha with h | h
    · exact hAl a h
    · rcases List.mem_cons.mp h with h | h
      · rw [h]; exact hl
      · exact hBl a h
  · simp [num_lines, hL]; omega
  · rw [h3]; exact hx

theorem valid_row_facts (e : Editor) (hv : Valid e) :
    ∃ A l B, e.lines = A ++ l :: B ∧ A.length = e.cursor_y ∧
      A.length + (B.length + 1) ≤ MAX_LINES ∧
      (∀ a ∈ A, a.length < MAX_LINE_LEN) ∧ (∀ b ∈ B, b.length < MAX_LINE_LEN) ∧
      l.length < MAX_LINE_LEN ∧ e.cursor_x ≤ l.length ∧
      line_at e.lines e.cursor_y = l := by
  obtain ⟨_, h2, h3, hy, hx⟩ := hv
  obtain ⟨A, l, B, hL, hA⟩ := split_at_row e.lines e.cursor_y hy
  have hl : line_at e.lines e.cursor_y = l := by rw [hL]; exact line_at_at A B l _ hA
  refine ⟨A, l, B, hL, hA, ?_, ?_, ?_, ?_, ?_, hl⟩
  · simpa [num_lines, hL] using h2
  · intro a ha; exact h3 a (by rw [hL]; simp [ha])
  · intro b hb; exact h3 b (by rw [hL]; simp [hb])
  · exact h3 l (by rw [hL]; simp)
  · rw [hl] at hx; exact hx

theorem char_split (l : Line) (k : Nat) (hk : k < l.length) :
    ∃ P S, l = P ++ char_at l k :: S ∧ P.length = k := by
  refine ⟨l.take k, l.drop (k + 1), ?_, ?_⟩
  · have : char_at l k = l[k] := by
      unfold char_at
      simp [List.getD_eq_getElem?_getD, List.getElem?_eq_getElem hk]
    rw [this]; simp
  · simp [List.length_take]; omega

/-- Putting the removed character back at its column restores the line. -/
theorem remove_then_insert (l : Line) (k : Nat) (hk : k < l.length) :
    (l.take k ++ l.drop (k + 1)).take k ++ [char_at l k] ++
      (l.take k ++ l.drop (k + 1)).drop k = l := by
  obtain ⟨P, S, hl, hP⟩ := char_split l k hk
  have h1 : l.take k = P := by rw [hl]; exact take_at P _ _ hP
  have h2 : l.drop (k + 1) = S := by rw [hl]; exact drop_succ_at P S _ _ hP
  rw [h1, h2, take_at P S k hP, drop_at P S k hP]
  have h3 : P ++ [char_at l k] ++ S = P ++ char_at l k :: S := by simp
  rw [h3]
  exact hl.symm

/-- Removing the inserted character at its column restores the line. -/
theorem insert_then_remove (l : Line) (k : Nat) (c : Char) (hk : k ≤ l.length) :
    (l.take k ++ [c] ++ l.drop k).take k ++ (l.take k ++ [c] ++ l.drop k).drop (k + 1)
      = l := by
  have hP : (l.take k).length = k := by simp [List.length_take]; omega
  rw [List.append_assoc, List.singleton_append, take_at _ _ k hP, drop_succ_at _ _ c k hP]
  exact List.take_append_drop k l

theorem insert_char_undoable (e : Editor) (c : Char) (hv : Valid e)
    (hroom : undo_room e 1) : UndoableStep e (insert_char e c) := by
  obtain ⟨A, l, B, hL, hA, hcap, hAl, hBl, hl, hx, hline⟩ := valid_row_facts e hv
  unfold insert_char UndoableStep
  by_cases hp : ISPRINT c = true
  · by_cases hlen : (line_at e.lines e.cursor_y).length ≥ MAX_LINE_LEN - 1
    · simp only [hp, hlen, if_true]
      exact ⟨hv, rfl, Or.inr ⟨rfl, rfl⟩⟩
    · simp only [hp, hlen, if_false, Bool.not_true, Bool.false_eq_true]
      rw [hline] at hlen
      have hset : e.lines.set e.cursor_y (l.take e.cursor_x ++ [c] ++ l.drop e.cursor_x)
          = A ++ (l.take e.cursor_x ++ [c] ++ l.drop e.cursor_x) :: B := by
        rw [hL]; exact set_at A B l _ _ hA
      rw [hline, hset]
      refine ⟨?_, add_undo_size _ _ _ _ _ _ _,
        Or.inl ⟨_, add_undo_stack e _ _ _ _ _ _ hroom, ?_⟩⟩
      · refine valid_of_row _ A B _ rfl ?_ hcap hAl hBl ?_ ?_
        · simpa [add_undo_cursor_y] using hA
        · simp [List.length_take, MAX_LINE_LEN] at hlen ⊢; omega
        · simp [List.length_take]; omega
      · show undo_lines (A ++ _ :: B) _ = e.lines
        unfold undo_lines
        simp only [line_at_at A B _ _ hA, set_at A B _ _ _ hA]
        rw [insert_then_remove l e.cursor_x c hx, hL]
  · rw [if_pos (by simp [hp])]
    exact ⟨hv, rfl, Or.inr ⟨rfl, rfl⟩⟩

theorem delete_char_undoable (e : Editor) (hv : Valid e) (hroom : undo_room e 1)
    (hj : e.cursor_x = 0 → e.cursor_y = 0) : UndoableStep e (delete_char e) := by
  obtain ⟨A, l, B, hL, hA, hcap, hAl, hBl, hl, hx, hline⟩ := valid_row_facts e hv
  unfold delete_char UndoableStep
  by_cases h0 : e.cursor_x = 0
  · have hy0 : e.cursor_y = 0 := hj h0
    rw [if_pos ⟨h0, hy0⟩]
    exact ⟨hv, rfl, Or.inr ⟨rfl, rfl⟩⟩
  · rw [if_neg (by omega), if_pos (by omega)]
    have hset : e.lines.set e.cursor_y (l.take (e.cursor_x - 1) ++ l.drop e.cursor_x)
        = A ++ (l.take (e.cursor_x - 1) ++ l.drop e.cursor_x) :: B := by
      rw [hL]; exact set_at A B l _ _ hA
    simp only [hline, hset]
    refine ⟨?_, add_undo_size _ _ _ _ _ _ _,
        Or.inl ⟨_, add_undo_stack e _ _ _ _ _ _ hroom, ?_⟩⟩
    · refine valid_of_row _ A B _ rfl ?_ hcap hAl hBl ?_ ?_
      · simpa [add_undo_cursor_y] using hA
      · simp [List.length_take]; omega
      · simp [List.length_take]; omega
    · show undo_lines (A ++ _ :: B) _ = e.lines
      unfold undo_lines
      simp only [line_at_at A B _ _ hA, set_at A B _ _ _ hA]
      have hk : e.cursor_x - 1 < l.length := by omega
      have := remove_then_insert l (e.cursor_x - 1) hk
      rw [Nat.sub_add_cancel (by omega)] at this
      rw [this, hL]

theorem delete_char_right_undoable (e : Editor) (hv : Valid e) (hroom : undo_room e 1)
    (hj : e.cursor_x ≥ (line_at e.lines e.cursor_y).length → num_lines e ≤ e.cursor_y + 1) :
    UndoableStep e (delete_char_right e) := by
  obtain ⟨A, l, B, hL, hA, hcap, hAl, hBl, hl, hx, hline⟩ := valid_row_facts e hv
  unfold delete_char_right UndoableStep
  by_cases hlt : e.cursor_x < (line_at e.lines e.cursor_y).length
  · rw [if_pos hlt]
    rw [hline] at hlt
    have hset : e.lines.set e.cursor_y (l.take e.cursor_x ++ l.drop (e.cursor_x + 1))
        = A ++ (l.take e.cursor_x ++ l.drop (e.cursor_x + 1)) :: B := by
      rw [hL]; exact set_at A B l _ _ hA
    simp only [hline, hset]
    refine ⟨?_, add_undo_size _ _ _ _ _ _ _,
        Or.inl ⟨_, add_undo_stack e _ _ _ _ _ _ hroom, ?_⟩⟩
    · refine valid_of_row _ A B _ rfl ?_ hcap hAl hBl ?_ ?_
      · simpa [add_undo_cursor_y] using hA
      · simp [List.length_take]; omega
      · simp [add_undo_cursor_x, List.length_take]; omega
    · show undo_lines (A ++ _ :: B) _ = e.lines
      unfold undo_lines
      simp only [line_at_at A B _ _ hA, set_at A B _ _ _ hA]
      rw [remove_then_insert l e.cursor_x hlt, hL]
  · have hge := hj (by omega)
    rw [if_neg hlt, if_neg (by omega)]
    exact ⟨hv, rfl, Or.inr ⟨rfl, rfl⟩⟩

/-- One character edit that does not join two lines, run in a valid state with
room in the log, is an undoable step. -/
theorem apply_edit_undoable (e : Editor) (ed : CharEdit) (hv : Valid e)
    (hroom : undo_room e 1) (hj : joins e ed = false) :
    UndoableStep e (apply_edit e ed) := by
  cases ed with
  | ins c => exact insert_char_undoable e c hv hroom
  | del =>
      simp only [joins, decide_eq_false_iff_not, not_and, not_lt, Nat.le_zero] at hj
      exact delete_char_undoable e hv hroom (by intro h; have := hj h; omega)
  | del_right =>
      simp only [joins, decide_eq_false_iff_not, not_and, not_lt] at hj
      exact delete_char_right_undoable e hv hroom hj

theorem no_join_cons (e : Editor) (ed : CharEdit) (rest : List CharEdit)
    (h : no_join e (ed :: rest) = true) :
    joins e ed = false ∧ no_join (apply_edit e ed) rest = true := by
  simpa [no_join] using h

theorem cursor_ok_of_row (e : Editor) (A B : List Line) (l : Line)
    (hL : e.lines = A ++ l :: B) (hA : A.length = e.cursor_y)
    (hx : e.cursor_x ≤ l.length) : cursor_ok e := by
  have h3 : line_at e.lines e.cursor_y = l := by rw [hL]; exact line_at_at A B l _ hA
  refine ⟨?_, ?_⟩
  · simp [num_lines, hL]; omega
  · rw [h3]; exact hx

theorem cursor_row_facts (e : Editor) (hc : cursor_ok e) :
    ∃ A l B, e.lines = A ++ l :: B ∧ A.length = e.cursor_y ∧ e.cursor_x ≤ l.length ∧
      line_at e.lines e.cursor_y = l := by
  obtain ⟨hy, hx⟩ := hc
  obtain ⟨A, l, B, hL, hA⟩ := split_at_row e.lines e.cursor_y hy
  have hl : line_at e.lines e.cursor_y = l := by rw [hL]; exact line_at_at A B l _ hA
  refine ⟨A, l, B, hL, hA, ?_, hl⟩
  rw [hl] at hx; exact hx

theorem insert_char_edit (e : Editor) (c : Char) (hc : cursor_ok e)
    (hroom : undo_room e 1) : UndoableEdit e (insert_char e c) := by
  obtain ⟨A, l, B, hL, hA, hx, hline⟩ := cursor_row_facts e hc
  unfold insert_char UndoableEdit
  by_cases hp : ISPRINT c = true
  · by_cases hlen : (line_at e.lines e.cursor_y).length ≥ MAX_LINE_LEN - 1
    · simp only [hp, hlen, if_true]
      exact ⟨hc, rfl, Or.inr ⟨rfl, rfl⟩⟩
    · simp only [hp, hlen, if_false, Bool.not_true, Bool.false_eq_true]
      have hset : e.lines.set e.cursor_y (l.take e.cursor_x ++ [c] ++ l.drop e.cursor_x)
          = A ++ (l.take e.cursor_x ++ [c] ++ l.drop e.cursor_x) :: B := by
        rw [hL]; exact set_at A B l _ _ hA
      rw [hline, hset]
      refine ⟨?_, add_undo_size _ _ _ _ _ _ _,
        Or.inl ⟨_, add_undo_stack e _ _ _ _ _ _ hroom, ?_⟩⟩
      · refine cursor_ok_of_row _ A B _ rfl ?_ ?_
        · simpa [add_undo_cursor_y] using hA
        · simp [List.length_take]; omega
      · show undo_lines (A ++ _ :: B) _ = e.lines
        unfold undo_lines
        simp only [line_at_at A B _ _ hA, set_at A B _ _ _ hA]
        rw [insert_then_remove l e.cursor_x c hx, hL]
  · rw [if_pos (by simp [hp])]
    exact ⟨hc, rfl, Or.inr ⟨rfl, rfl⟩⟩

theorem delete_char_edit (e : Editor) (hc : cursor_ok e) (hroom : undo_room e 1)
    (hj : e.cursor_x = 0 → e.cursor_y = 0) : UndoableEdit e (delete_char e) := by
  obtain ⟨A, l, B, hL, hA, hx, hline⟩ := cursor_row_facts e hc
  unfold delete_char UndoableEdit
  by_cases h0 : e.cursor_x = 0
  · have hy0 : e.cursor_y = 0 := hj h0
    rw [if_pos ⟨h0, hy0⟩]
    exact ⟨hc, rfl, Or.inr ⟨rfl, rfl⟩⟩
  · rw [if_neg (by omega), if_pos (by omega)]
    have hset : e.lines.set e.cursor_y (l.take (e.cursor_x - 1) ++ l.drop e.cursor_x)
        = A ++ (l.take (e.cursor_x - 1) ++ l.drop e.cursor_x) :: B := by
      rw [hL]; exact set_at A B l _ _ hA
    simp only [hline, hset]
    refine ⟨?_, add_undo_size _ _ _ _ _ _ _,
        Or.inl ⟨_, add_undo_stack e _ _ _ _ _ _ hroom, ?_⟩⟩
    · refine cursor_ok_of_row _ A B _ rfl ?_ ?_
      · simpa [add_undo_cursor_y] using hA
      · simp [List.length_take]; omega
    · show undo_lines (A ++ _ :: B) _ = e.lines
      unfold undo_lines
      simp only [line_at_at A B _ _ hA, set_at A B _ _ _ hA]
      have hk : e.cursor_x - 1 < l.length := by omega
      have := remove_then_insert l (e.cursor_x - 1) hk
      rw [Nat.sub_add_cancel (by omega)] at this
      rw [this, hL]

theorem delete_char_right_edit (e : Editor) (hc : cursor_ok e) (hroom : undo_room e 1)
    (hj : e.cursor_x ≥ (line_at e.lines e.cursor_y).length → num_lines e ≤ e.cursor_y + 1) :
    UndoableEdit e (delete_char_right e) := by
  obtain ⟨A, l, B, hL, hA, hx, hline⟩ := cursor_row_facts e hc
  unfold delete_char_right UndoableEdit
  by_cases hlt : e.cursor_x < (line_at e.lines e.cursor_y).length
  · rw [if_pos hlt]
    rw [hline] at hlt
    have hset : e.lines.set e.cursor_y (l.take e.cursor_x ++ l.drop (e.cursor_x + 1))
        = A ++ (l.take e.cursor_x ++ l.drop (e.cursor_x + 1)) :: B := by
      rw [hL]; exact set_at A B l _ _ hA
    simp only [hline, hset]
    refine ⟨?_, add_undo_size _ _ _ _ _ _ _,
        Or.inl ⟨_, add_undo_stack e _ _ _ _ _ _ hroom, ?_⟩⟩
    · refine cursor_ok_of_row _ A B _ rfl ?_ ?_
      · simpa [add_undo_cursor_y] using hA
      · simp [add_undo_cursor_x, List.length_take]; omega
    · show undo_lines (A ++ _ :: B) _ = e.lines
      unfold undo_lines
      simp only [line_at_at A B _ _ hA, set_at A B _ _ _ hA]
      rw [remove_then_insert l e.cursor_x hlt, hL]
  · have hge := hj (by omega)
    rw [if_neg hlt, if_neg (by omega)]
    exact ⟨hc, rfl, Or.inr ⟨rfl, rfl⟩⟩

/-- One character edit that does not join two lines, run with the cursor inside
the buffer and room in the log, is an undoable edit; the lines may have any
length. -/
theorem apply_edit_edit (e : Editor) (ed : CharEdit) (hc : cursor_ok e)
    (hroom : undo_room e 1) (hj : joins e ed = false) :
    UndoableEdit e (apply_edit e ed) := by
  cases ed with
  | ins c => exact insert_char_edit e c hc hroom
  | del =>
      simp only [joins, decide_eq_false_iff_not, not_and, not_lt, Nat.le_zero] at hj
      exact delete_char_edit e hc hroom (by intro h; have := hj h; omega)
  | del_right =>
      simp only [joins, decide_eq_false_iff_not, not_and, not_lt] at hj
      exact delete_char_right_edit e hc hroom hj

/-- After a sequence of non-joining character edits run with the cursor inside
the buffer, `k` invocations of `undo`, with `k` the number of entries the
sequence pushed, restore lines and log. -/
theorem apply_edits_round_trip (edits : List CharEdit) :
    ∀ e : Editor, cursor_ok e → undo_room e edits.length → no_join e edits = true →
      ∃ k, undo_count (apply_edits e edits) = undo_count e + k ∧
        ∀ t : Editor, t.lines = (apply_edits e edits).lines →
          t.undo_stack = (apply_edits e edits).undo_stack →
          (undo_n k t).lines = e.lines ∧ (undo_n k t).undo_stack = e.undo_stack := by
  induction edits with
  | nil =>
      intro e _ _ _
      exact ⟨0, rfl, fun t h1 h2 => ⟨h1, h2⟩⟩
  | cons ed rest ih =>
      intro e hc hroom hj
      obtain ⟨hj1, hj2⟩ := no_join_cons e ed rest hj
      have hroom1 : undo_room e 1 := by
        unfold undo_room at hroom ⊢
        simp only [List.length_cons] at hroom
        omega
      obtain ⟨hc1, hsz, hcase⟩ := apply_edit_edit e ed hc hroom1 hj1
      have hcount : undo_count (apply_edit e ed) ≤ undo_count e + 1 := by
        unfold undo_count
        rcases hcase with ⟨u, hu, _⟩ | ⟨hs, _⟩
        · rw [hu]; simp
        · rw [hs]; omega
      have hroom2 : undo_room (apply_edit e ed) rest.length := by
        unfold undo_room at hroom ⊢
        simp only [List.length_cons] at hroom
        rw [hsz]; omega
      obtain ⟨k1, hk1, hrest⟩ := ih (apply_edit e ed) hc1 hroom2 hj2
      rcases hcase with ⟨u, hu, hul⟩ | ⟨hs, hl⟩
      · refine ⟨k1 + 1, ?_, ?_⟩
        · show undo_count (apply_edits (apply_edit e ed) rest) = _
          rw [hk1]; unfold undo_count; rw [hu]; simp; omega
        · intro t ht1 ht2
          obtain ⟨h1, h2⟩ := hrest t ht1 ht2
          rw [undo_n_succ]
          obtain ⟨h3, h4⟩ := undo_of_cons (undo_n k1 t) u e.undo_stack (by rw [h2, hu])
          exact ⟨by rw [h3, h1, hul], h4⟩
      · refine ⟨k1, ?_, ?_⟩
        · show undo_count (apply_edits (apply_edit e ed) rest) = _
          rw [hk1]; unfold undo_count; rw [hs]
        · intro t ht1 ht2
          obtain ⟨h1, h2⟩ := hrest t ht1 ht2
          exact ⟨by rw [h1, hl], by rw [h2, hs]⟩

/-- C1, amended. Undo round trip for character edits that stay inside a line:
for every editor state with the cursor inside the buffer (so there is at least
one line; the lines may have any length and number) and room in the undo log
for the whole sequence, and every sequence of `insert_char`, `delete_char` and
`delete_char_right` at the cursor in which no deletion joins two lines,
invoking `undo` once for every entry the sequence pushed restores exactly the
lines (and the undo count) that existed before the sequence began. -/
theorem undo_round_trip_without_join (e : Editor) (edits : List CharEdit)
    (hc : cursor_ok e) (hroom : undo_room e edits.length) (hj : no_join e edits = true) :
    (undo_n (undo_count (apply_edits e edits) - undo_count e)
        (apply_edits e edits)).lines = e.lines ∧
      undo_count (undo_n (undo_count (apply_edits e edits) - undo_count e)
        (apply_edits e edits)) = undo_count e := by
  obtain ⟨k, hk, h⟩ := apply_edits_round_trip edits e hc hroom hj
  have hk2 : undo_count (apply_edits e edits) - undo_count e = k := by omega
  rw [hk2]
  obtain ⟨h1, h2⟩ := h (apply_edits e edits) rfl rfl
  exact ⟨h1, by unfold undo_count; rw [h2]⟩

/-- C1 amended, at a concrete state: in `["ab", "cd"]` with the cursor at
`(1, 0)`, typing `x`, backspacing twice and deleting to the right pushes four
entries, and four undos give back `["ab", "cd"]`. -/
theorem undo_round_trip_without_join_witness :
    (undo_n 4 (apply_edits (mk_editor ["ab".toList, "cd".toList] 1 0)
        [CharEdit.ins 'x', CharEdit.del, CharEdit.del, CharEdit.del_right])).lines =
      ["ab".toList, "cd".toList] :=
  (undo_round_trip_without_join (mk_editor ["ab".toList, "cd".toList] 1 0)
    [CharEdit.ins 'x', CharEdit.del, CharEdit.del, CharEdit.del_right]
    (by decide) (by decide) (by decide)).1

/-- C1 as stated fails where a deletion joins two lines: from the reachable
valid state `["a", ""]` with the cursor at `(0, 1)`, `delete_char` joins the
rows without pushing an entry, `insert_char 'b'` pushes one, and the one
matching `undo` leaves `["a"]`, not `["a", ""]`. -/
theorem undo_round_trip_fails_on_join :
    Reachable joined_state ∧ Valid joined_state ∧ undo_room joined_state 2 ∧
      joined_state.lines = ["a".toList, []] ∧
      undo_count (apply_edits joined_state [CharEdit.del, CharEdit.ins 'b'])
        - undo_count joined_state = 1 ∧
      (undo_n 1 (apply_edits joined_state [CharEdit.del, CharEdit.ins 'b'])).lines
        = ["a".toList] ∧
      (undo_n (undo_count (apply_edits joined_state [CharEdit.del, CharEdit.ins 'b'])
          - undo_count joined_state)
        (apply_edits joined_state [CharEdit.del, CharEdit.ins 'b'])).lines
        ≠ joined_state.lines :=
  ⟨⟨[Op.insert_char 'a', Op.insert_newline], rfl⟩, by decide, by decide, by decide,
    by decide, by decide, by decide⟩

/-! ## `delete_region` -/

theorem join_lines_cons_cons (a m : Line) (R : List Line) :
    join_lines ((a ++ NEWLINE ++ m) :: R) = a ++ NEWLINE ++ join_lines (m :: R) := by
  cases R with
  | nil => rfl
  | cons r R => simp [join_lines, List.append_assoc]

/-- The `STRCAT` loop of `delete_region` builds the lines joined with breaks. -/
theorem kill_loop_eq (M : List Line) (last : Line) :
    ∀ first : Line,
      M.foldl (fun k l => k ++ l ++ NEWLINE) (first ++ NEWLINE) ++ last
        = join_lines ([first] ++ M ++ [last]) := by
  induction M with
  | nil => intro first; rfl
  | cons m M ih =>
      intro first
      have h := ih (first ++ NEWLINE ++ m)
      simp only [List.foldl_cons]
      rw [h]
      exact join_lines_cons_cons first m (M ++ [last])

theorem rows_between (L : List Line) (k n : Nat) (h : k + n ≤ L.length) :
    (List.range n).map (fun i => line_at L (k + i)) = (L.drop k).take n := by
  apply List.ext_getElem
  · simp [List.length_take]; omega
  · intro i h1 h2
    simp only [List.length_map, List.length_range] at h1
    have h3 : k + i < L.length := by omega
    simp [line_at, List.getD_eq_getElem?_getD, List.getElem?_eq_getElem h3]

theorem set_take_succ (L : List Line) (y : Nat) (x : Line) (h : y < L.length) :
    (L.set y x).take (y + 1) = L.take y ++ [x] := by
  obtain ⟨A, l, B, hL, hA⟩ := split_at_row L y h
  rw [hL, set_at A B l x y hA, take_succ_at A B x y hA, take_at A _ y hA]

theorem set_eq_take_drop (L : List Line) (y : Nat) (x : Line) (h : y < L.length) :
    L.set y x = L.take y ++ [x] ++ L.drop (y + 1) := by
  obtain ⟨A, l, B, hL, hA⟩ := split_at_row L y h
  rw [hL, set_at A B l x y hA, take_at A _ y hA, drop_succ_at A B l y hA]
  simp

/-- The ordered region ends lie inside the buffer, start before end. -/
theorem region_ordered (e : Editor) (hv : Valid e) (hmark : mark_ok e) :
    (region_start e).2 ≤ (region_end e).2 ∧ (region_end e).2 < num_lines e ∧
      ((region_start e).2 = (region_end e).2 → (region_start e).1 ≤ (region_end e).1) := by
  obtain ⟨_, _, _, hy, _⟩ := hv
  obtain ⟨hmy, _⟩ := hmark
  unfold region_start region_end
  by_cases hc : e.mark_y < e.cursor_y ∨ (e.mark_y = e.cursor_y ∧ e.mark_x ≤ e.cursor_x)
  · simp only [hc, if_true]
    refine ⟨by omega, hy, ?_⟩
    intro h; rcases hc with h1 | h1 <;> omega
  · simp only [hc, if_false]
    refine ⟨by omega, hmy, ?_⟩
    intro h
    by_contra h2
    exact hc (Or.inr ⟨h.symm, by omega⟩)

/-- The postcondition of `delete_region` where the block allocated for the
joined line suffices: in a valid state with an active mark inside the buffer,
with `(start, end)` the mark and the cursor ordered by row then column, the
kill-ring holds exactly the text between start and end (joined with line
breaks when the region spans lines); the buffer is the original with the start
line replaced by its head before start followed by the tail of the end line
after end, the rows after the start row up to the end row removed and every
other line unchanged, so `num_lines` has dropped by `end_row - start_row`; the
cursor is at start and the mark is cleared. -/
theorem delete_region_post (e : Editor) (hv : Valid e) (hm : e.mark_active = true)
    (hmark : mark_ok e) (_hfit : delete_region_fits e = true) :
    (delete_region e).kill_ring =
        some (region_text e.lines (region_start e) (region_end e)) ∧
      (delete_region e).lines =
        e.lines.take (region_start e).2 ++
          [(line_at e.lines (region_start e).2).take (region_start e).1 ++
            (line_at e.lines (region_end e).2).drop (region_end e).1] ++
          e.lines.drop ((region_end e).2 + 1) ∧
      num_lines (delete_region e) + ((region_end e).2 - (region_start e).2) = num_lines e ∧
      (delete_region e).cursor_x = (region_start e).1 ∧
      (delete_region e).cursor_y = (region_start e).2 ∧
      (delete_region e).mark_active = false := by
  obtain ⟨hle, hlt, hcol⟩ := region_ordered e hv hmark
  have hsy : (region_start e).2 < e.lines.length := by unfold num_lines at hlt; omega
  unfold delete_region
  rw [hm, if_neg (by simp)]
  by_cases hrow : (region_start e).2 = (region_end e).2
  · rw [if_pos hrow]
    refine ⟨?_, ?_, ?_, rfl, rfl, rfl⟩
    · simp [region_text, hrow]
    · show e.lines.set _ _ = _
      rw [← hrow]
      exact set_eq_take_drop e.lines _ _ hsy
    · simp [num_lines, hrow]
  · rw [if_neg hrow]
    refine ⟨?_, ?_, ?_, rfl, rfl, rfl⟩
    · show some _ = _
      rw [kill_loop_eq, rows_between e.lines _ _ (by unfold num_lines at hlt; omega)]
      simp [region_text, hrow]
    · show (e.lines.set _ _).take _ ++ _ = _
      rw [set_take_succ e.lines _ _ hsy]
    · unfold num_lines at hlt ⊢
      simp [List.length_take]
      omega

/-- The postcondition at a region over three rows where the block suffices: in
`["hello", "big", "world"]` with the mark at `(2, 0)` and the cursor at
`(3, 2)`, the kill-ring receives `"llo\nbig\nwor"`, the buffer becomes
`["held"]`, and the cursor is at `(2, 0)`. -/
theorem delete_region_post_witness :
    (delete_region { mk_editor ["hello".toList, "big".toList, "world".toList] 3 2 with
        mark_x := 2, mark_y := 0, mark_active := true }).kill_ring
        = some "llo\nbig\nwor".toList ∧
      (delete_region { mk_editor ["hello".toList, "big".toList, "world".toList] 3 2 with
        mark_x := 2, mark_y := 0, mark_active := true }).lines = ["held".toList] ∧
      (delete_region { mk_editor ["hello".toList, "big".toList, "world".toList] 3 2 with
        mark_x := 2, mark_y := 0, mark_active := true }).cursor_x = 2 := by
  have h := delete_region_post
    { mk_editor ["hello".toList, "big".toList, "world".toList] 3 2 with
      mark_x := 2, mark_y := 0, mark_active := true } (by decide) rfl (by decide) (by decide)
  exact ⟨h.1.trans (by decide), h.2.1.trans (by decide), h.2.2.2.1.trans (by decide)⟩

/-- C10. At `line_break_region`, a valid state with an active mark inside the
buffer whose region is the line break after `"hello"`, the postcondition asks
for the kill-ring `"\n"` and the single line of 48 characters
`"hellothe quick ... dog"`.  The multi-line branch of `delete_region` sizes the
block for that line from the wrong ends of the two rows,
`STRLEN(lines[start_y]) - start_x + end_x + 1 = 5 - 5 + 0 + 1 = 1` byte, and
writes `start_x + STRLEN(lines[end_y] + end_x) + 1 = 5 + 43 + 1 = 49` bytes to
it: 48 bytes go behind the block. -/
theorem delete_region_overruns_new_line :
    Valid line_break_region ∧ mark_ok line_break_region ∧
      line_break_region.mark_active = true ∧
      region_start line_break_region = (5, 0) ∧ region_end line_break_region = (0, 1) ∧
      region_text line_break_region.lines (region_start line_break_region)
        (region_end line_break_region) = NEWLINE ∧
      ((line_at line_break_region.lines 0).take 5 ++
        (line_at line_break_region.lines 1).drop 0).length = 48 ∧
      delete_region_block line_break_region = 1 ∧
      delete_region_bytes line_break_region = 49 ∧
      delete_region_fits line_break_region = false := by
  decide

/-! ## Where the code departs from the specification -/

/-- C2. At `region_state` (line `"hello world"`, region `"llo"`, cursor at
`(5, 0)`), `delete_region` followed by `yank` gives the two lines
`["llo", " world"]` with the cursor at `(3, 0)`: the text before the cursor is
gone and the tail is on a line of its own, so neither the lines nor the cursor
are the original ones. -/
theorem delete_region_yank_at_region_state :
    Valid region_state ∧ mark_ok region_state ∧
      (delete_region region_state).lines = ["he world".toList] ∧
      (delete_region region_state).kill_ring = some "llo".toList ∧
      (yank (delete_region region_state)).lines = ["llo".toList, " world".toList] ∧
      (yank (delete_region region_state)).lines ≠ region_state.lines ∧
      (yank (delete_region region_state)).cursor_x = 3 ∧
      (yank (delete_region region_state)).cursor_y = 0 := by
  decide

/-- C5. From the initial state, typing `a`, then `delete_word_left`, then
`undo` leaves the active buffer with no line at all: the `delete_word` entry
is undone by removing `line_count` rows instead of putting the text back. -/
theorem no_line_after_undo_of_delete_word :
    (run init_editor [Op.insert_char 'a', Op.delete_word_left]).lines = [[]] ∧
      num_lines (run init_editor [Op.insert_char 'a', Op.delete_word_left, Op.undo]) = 0 := by
  decide

/-- C6. From the initial state, typing `ab`, moving left, `kill_line`, `yank`
and `undo` ends in the single empty line with the cursor at column 1, beyond
the end of its line. -/
theorem cursor_beyond_line_after_undo_of_yank :
    (run init_editor [Op.insert_char 'a', Op.insert_char 'b', Op.move_cursor_left,
        Op.kill_line, Op.yank, Op.undo]).lines = [[]] ∧
      (run init_editor [Op.insert_char 'a', Op.insert_char 'b', Op.move_cursor_left,
        Op.kill_line, Op.yank, Op.undo]).cursor_x = 1 ∧
      (run init_editor [Op.insert_char 'a', Op.insert_char 'b', Op.move_cursor_left,
        Op.kill_line, Op.yank, Op.undo]).cursor_y = 0 ∧
      ¬ cursor_ok (run init_editor [Op.insert_char 'a', Op.insert_char 'b',
        Op.move_cursor_left, Op.kill_line, Op.yank, Op.undo]) := by
  decide

/-- C7. In `["one two", "end"]` with the cursor at `(0, 0)`, `delete_word_right`
removes `"one "` and records it, and the following `undo` removes the row
instead of restoring the text: the buffer ends as `["end"]`.  The same happens
after `delete_word_left` at `(4, 0)`. -/
theorem delete_word_undo_removes_row :
    (delete_word_right (mk_editor ["one two".toList, "end".toList] 0 0)).lines
        = ["two".toList, "end".toList] ∧
      ((delete_word_right (mk_editor ["one two".toList, "end".toList] 0 0)).undo_stack.map
        (fun u => u.bulk_data)) = [some "one ".toList] ∧
      (undo (delete_word_right (mk_editor ["one two".toList, "end".toList] 0 0))).lines
        = ["end".toList] ∧
      (delete_word_left (mk_editor ["one two".toList, "end".toList] 4 0)).lines
        = ["two".toList, "end".toList] ∧
      (undo (delete_word_left (mk_editor ["one two".toList, "end".toList] 4 0))).lines
        = ["end".toList] := by
  decide

/-- C8. At `yank_state` (line `"ab"`, cursor at column 1, kill-ring `"X"`),
`yank` followed by `undo` leaves `["b"]` with the cursor at `(1, 0)`: the
character before the cursor is not restored. -/
theorem yank_undo_at_yank_state :
    Valid yank_state ∧ undo_room yank_state 1 ∧
      (yank yank_state).lines = ["X".toList, "b".toList] ∧
      (undo (yank yank_state)).lines = ["b".toList] ∧
      (undo (yank yank_state)).lines ≠ yank_state.lines ∧
      (undo (yank yank_state)).cursor_x = 1 ∧
      (undo (yank yank_state)).cursor_y = 0 := by
  decide

/-- C9. In `["ab"]` with the cursor at `(1, 0)`, `insert_lines` of `["X", "Y"]`
gives `["X", "Y", "b"]`, while typing `X`, newline, `Y` there gives
`["aX", "Yb"]`. -/
theorem insert_lines_differs_from_typing :
    (insert_lines (mk_editor ["ab".toList] 1 0) ["X".toList, "Y".toList]).lines
        = ["X".toList, "Y".toList, "b".toList] ∧
      (type_lines (mk_editor ["ab".toList] 1 0) ["X".toList, "Y".toList]).lines
        = ["aX".toList, "Yb".toList] ∧
      (insert_lines (mk_editor ["ab".toList] 1 0) ["X".toList, "Y".toList]).lines ≠
        (type_lines (mk_editor ["ab".toList] 1 0) ["X".toList, "Y".toList]).lines := by
  decide

/-! ## Contracts of the primitive operations -/

theorem add_undo_full (e : Editor) (a : Action) (x y : Nat) (d : Char)
    (b : Option Line) (n : Nat) (h : ¬ undo_room e 1) : add_undo e a x y d b n = e := by
  unfold undo_room at h
  unfold add_undo
  rw [if_pos (by omega)]

/-- C11. `insert_char` contract: in a valid state, if `c` is not printable or
the current line already has `MAX_LINE_LEN - 1` characters, `insert_char`
changes nothing; otherwise the current line becomes its first `cursor_x`
characters, then `c`, then the rest, every other line is unchanged, `cursor_x`
grows by one, and, if the log has room, one `insert` entry carrying the
character and its position `(cursor_x, cursor_y)` is pushed (none if it has
no room). -/
theorem insert_char_contract (e : Editor) (c : Char) (hv : Valid e) :
    ((ISPRINT c = false ∨ (line_at e.lines e.cursor_y).length = MAX_LINE_LEN - 1) →
        insert_char e c = e) ∧
      (ISPRINT c = true → (line_at e.lines e.cursor_y).length ≠ MAX_LINE_LEN - 1 →
        (insert_char e c).lines =
            e.lines.take e.cursor_y ++
              [(line_at e.lines e.cursor_y).take e.cursor_x ++ [c] ++
                (line_at e.lines e.cursor_y).drop e.cursor_x] ++
              e.lines.drop (e.cursor_y + 1) ∧
          (insert_char e c).cursor_x = e.cursor_x + 1 ∧
          (insert_char e c).cursor_y = e.cursor_y ∧
          (undo_room e 1 →
            (insert_char e c).undo_stack =
              { action := Action.insert, x := e.cursor_x, y := e.cursor_y, data := c,
                bulk_data := none, line_count := 0 } :: e.undo_stack) ∧
          (¬ undo_room e 1 → (insert_char e c).undo_stack = e.undo_stack)) := by
  obtain ⟨A, l, B, hL, hA, hcap, hAl, hBl, hl, hx, hline⟩ := valid_row_facts e hv
  have hy : e.cursor_y < e.lines.length := hv.2.2.2.1
  constructor
  · intro h
    unfold insert_char
    rcases h with h | h
    · rw [if_pos (by simp [h])]
    · by_cases hp : ISPRINT c = true
      · rw [if_neg (by simp [hp]), if_pos (by omega)]
      · rw [if_pos (by simp [hp])]
  · intro hp hlen
    have hlt : ¬ (line_at e.lines e.cursor_y).length ≥ MAX_LINE_LEN - 1 := by
      rw [hline] at hlen ⊢
      unfold MAX_LINE_LEN at hl hlen ⊢
      omega
    unfold insert_char
    rw [if_neg (by simp [hp]), if_neg hlt]
    refine ⟨?_, rfl, ?_, ?_, ?_⟩
    · exact set_eq_take_drop e.lines _ _ hy
    · exact add_undo_cursor_y _ _ _ _ _ _ _
    · intro hroom; exact add_undo_stack e _ _ _ _ _ _ hroom
    · intro hroom
      show (add_undo e _ _ _ _ _ _).undo_stack = _
      rw [add_undo_full e _ _ _ _ _ _ hroom]

/-- C11 at a concrete state: typing `X` at `(1, 0)` of `["ab", "cd"]` gives
`["aXb", "cd"]`, the cursor at `(2, 0)` and one `insert` entry for `(1, 0)`. -/
theorem insert_char_contract_witness :
    (insert_char (mk_editor ["ab".toList, "cd".toList] 1 0) 'X').lines
        = ["aXb".toList, "cd".toList] ∧
      (insert_char (mk_editor ["ab".toList, "cd".toList] 1 0) 'X').cursor_x = 2 ∧
      (insert_char (mk_editor ["ab".toList, "cd".toList] 1 0) 'X').undo_stack =
        [{ action := Action.insert, x := 1, y := 0, data := 'X', bulk_data := none,
           line_count := 0 }] := by
  have h := (insert_char_contract (mk_editor ["ab".toList, "cd".toList] 1 0) 'X'
    (by decide)).2 (by decide) (by decide)
  exact ⟨h.1.trans (by decide), h.2.1, h.2.2.2.1 (by decide)⟩

/-- C12, amended. `delete_char` contract: in a valid state, at `(0, 0)` it
changes nothing; at column 0 of a row `r > 0` it replaces line `r - 1` by line
`r - 1` followed by line `r`, removes row `r` (one line fewer, the later lines
move up unchanged) and puts the cursor at (old length of line `r - 1`,
`r - 1`); at a column `x > 0` it removes exactly the character at `x - 1` of the
current line, moves the cursor to `x - 1`, and, if the undo log has room,
records a `delete` entry carrying the removed character; when the log is full
the character is removed and nothing is recorded. -/
theorem delete_char_contract (e : Editor) (hv : Valid e) :
    (e.cursor_x = 0 → e.cursor_y = 0 → delete_char e = e) ∧
      (e.cursor_x = 0 → 0 < e.cursor_y →
        (delete_char e).lines =
            e.lines.take (e.cursor_y - 1) ++
              [line_at e.lines (e.cursor_y - 1) ++ line_at e.lines e.cursor_y] ++
              e.lines.drop (e.cursor_y + 1) ∧
          num_lines (delete_char e) + 1 = num_lines e ∧
          (delete_char e).cursor_x = (line_at e.lines (e.cursor_y - 1)).length ∧
          (delete_char e).cursor_y = e.cursor_y - 1) ∧
      (0 < e.cursor_x →
        (delete_char e).lines =
            e.lines.take e.cursor_y ++
              [(line_at e.lines e.cursor_y).take (e.cursor_x - 1) ++
                (line_at e.lines e.cursor_y).drop e.cursor_x] ++
              e.lines.drop (e.cursor_y + 1) ∧
          (delete_char e).cursor_x = e.cursor_x - 1 ∧
          (delete_char e).cursor_y = e.cursor_y ∧
          (undo_room e 1 →
            (delete_char e).undo_stack =
              { action := Action.delete, x := e.cursor_x - 1, y := e.cursor_y,
                data := char_at (line_at e.lines e.cursor_y) (e.cursor_x - 1),
                bulk_data := none, line_count := 0 } :: e.undo_stack) ∧
          (¬ undo_room e 1 → (delete_char e).undo_stack = e.undo_stack)) := by
  have hy : e.cursor_y < e.lines.length := hv.2.2.2.1
  refine ⟨?_, ?_, ?_⟩
  · intro hx h0
    unfold delete_char
    rw [if_pos ⟨hx, h0⟩]
  · intro hx hpos
    obtain ⟨r, hr⟩ : ∃ r, e.cursor_y = r + 1 := ⟨e.cursor_y - 1, by omega⟩
    obtain ⟨A, a, B1, hL, hA⟩ := split_at_row e.lines r (by omega)
    have hB1 : 0 < B1.length := by
      have := congrArg List.length hL
      simp at this; omega
    obtain ⟨b, B, hB⟩ : ∃ b B, B1 = b :: B := by
      cases B1 with
      | nil => simp at hB1
      | cons b B => exact ⟨b, B, rfl⟩
    subst hB
    obtain ⟨h1, h2, h3⟩ := delete_char_join e A B a b r hx hr hL hA
    have ha : line_at e.lines r = a := by rw [hL]; exact line_at_at A _ a r hA
    have hb : line_at e.lines (r + 1) = b := by rw [hL]; exact line_at_succ_at A B a b r hA
    have ht : e.lines.take r = A := by rw [hL]; exact take_at A _ r hA
    have hd : e.lines.drop (r + 1 + 1) = B := by
      rw [hL]; exact drop_succ_succ_at A B a b r hA
    rw [hr, Nat.add_sub_cancel, ha, hb, ht, hd, h1, h2, h3]
    refine ⟨by simp, ?_, rfl, rfl⟩
    unfold num_lines
    rw [h1, hL]
    simp
    omega
  · intro hpos
    unfold delete_char
    rw [if_neg (by omega), if_pos hpos]
    refine ⟨?_, rfl, ?_, ?_, ?_⟩
    · exact set_eq_take_drop e.lines _ _ hy
    · exact add_undo_cursor_y _ _ _ _ _ _ _
    · intro hroom; exact add_undo_stack e _ _ _ _ _ _ hroom
    · intro hroom
      show (add_undo e _ _ _ _ _ _).undo_stack = _
      rw [add_undo_full e _ _ _ _ _ _ hroom]

/-- C12 amended, at a concrete state: backspace at `(2, 0)` of `["abc"]` gives
`["ac"]`, the cursor at `(1, 0)` and a `delete` entry carrying `b`. -/
theorem delete_char_contract_witness :
    (delete_char (mk_editor ["abc".toList] 2 0)).lines = ["ac".toList] ∧
      (delete_char (mk_editor ["abc".toList] 2 0)).cursor_x = 1 ∧
      (delete_char (mk_editor ["abc".toList] 2 0)).undo_stack =
        [{ action := Action.delete, x := 1, y := 0, data := 'b', bulk_data := none,
           line_count := 0 }] := by
  have h := (delete_char_contract (mk_editor ["abc".toList] 2 0) (by decide)).2.2
    (by decide)
  exact ⟨h.1.trans (by decide), h.2.1, (h.2.2.2.1 (by decide)).trans (by decide)⟩

set_option maxRecDepth 100000 in
/-- C12 as stated fails when the undo log is full: at `full_log_state`, a valid
state with the cursor at column 1, `delete_char` removes the character but
records no entry; the log is unchanged and its newest entry is no `delete`
entry. -/
theorem delete_char_records_nothing_when_full :
    Valid full_log_state ∧ 0 < full_log_state.cursor_x ∧
      (delete_char full_log_state).lines = ["b".toList] ∧
      (delete_char full_log_state).undo_stack = full_log_state.undo_stack ∧
      ((delete_char full_log_state).undo_stack.head?.map (fun u => u.action))
        ≠ some Action.delete := by
  decide

/-- C14. `kill_line` contract: in a valid state with no active mark, `kill_line`
cuts the current line to its first `cursor_x` characters and stores exactly the
removed tail in the kill-ring slot, whatever the slot held; every other line,
`num_lines` and the cursor are unchanged, and the new line followed by the
kill-ring is the old line.  With an active mark it gives exactly the state of
`delete_region`. -/
theorem kill_line_contract (e : Editor) (hv : Valid e) :
    (e.mark_active = false →
        (kill_line e).lines =
            e.lines.take e.cursor_y ++ [(line_at e.lines e.cursor_y).take e.cursor_x] ++
              e.lines.drop (e.cursor_y + 1) ∧
          (kill_line e).kill_ring = some ((line_at e.lines e.cursor_y).drop e.cursor_x) ∧
          num_lines (kill_line e) = num_lines e ∧
          (kill_line e).cursor_x = e.cursor_x ∧
          (kill_line e).cursor_y = e.cursor_y ∧
          (∀ k, (kill_line e).kill_ring = some k →
            line_at (kill_line e).lines e.cursor_y ++ k = line_at e.lines e.cursor_y)) ∧
      (e.mark_active = true → kill_line e = delete_region e) := by
  have hy : e.cursor_y < e.lines.length := hv.2.2.2.1
  constructor
  · intro hm
    unfold kill_line
    rw [if_neg (by simp [hm])]
    refine ⟨set_eq_take_drop e.lines _ _ hy, rfl, ?_, rfl, rfl, ?_⟩
    · simp [num_lines]
    · intro k hk
      have hk2 : (line_at e.lines e.cursor_y).drop e.cursor_x = k := by
        simpa using hk
      obtain ⟨A, l, B, hL, hA⟩ := split_at_row e.lines e.cursor_y hy
      show line_at (e.lines.set _ _) _ ++ k = _
      rw [← hk2, hL, line_at_at A B l _ hA, set_at A B l _ _ hA, line_at_at A B _ _ hA]
      exact List.take_append_drop _ _
  · intro hm
    unfold kill_line
    rw [if_pos hm]

/-- C14 at a concrete state: `kill_line` at `(2, 0)` of `["hello", "x"]` with
`"old"` in the kill-ring leaves `["he", "x"]` and the kill-ring `"llo"`. -/
theorem kill_line_contract_witness :
    (kill_line { mk_editor ["hello".toList, "x".toList] 2 0 with
        kill_ring := some "old".toList }).lines = ["he".toList, "x".toList] ∧
      (kill_line { mk_editor ["hello".toList, "x".toList] 2 0 with
        kill_ring := some "old".toList }).kill_ring = some "llo".toList := by
  have h := (kill_line_contract { mk_editor ["hello".toList, "x".toList] 2 0 with
    kill_ring := some "old".toList } (by decide)).1 rfl
  exact ⟨h.1.trans (by decide), h.2.1.trans (by decide)⟩

/-- C15. Yank with an empty kill-ring: when nothing has been killed yet, `yank`
sets the message `Nothing to yank` and leaves lines, `num_lines`, cursor, mark
and undo log unchanged. -/
theorem yank_nothing (e : Editor) (h : e.kill_ring = none) :
    (yank e).message = "Nothing to yank" ∧
      (yank e).lines = e.lines ∧ num_lines (yank e) = num_lines e ∧
      (yank e).cursor_x = e.cursor_x ∧ (yank e).cursor_y = e.cursor_y ∧
      (yank e).mark_x = e.mark_x ∧ (yank e).mark_y = e.mark_y ∧
      (yank e).mark_active = e.mark_active ∧
      (yank e).undo_stack = e.undo_stack ∧ (yank e).kill_ring = none := by
  unfold yank
  rw [h]
  exact ⟨rfl, rfl, rfl, rfl, rfl, rfl, rfl, rfl, rfl, rfl⟩

/-- C15 at the initial state, whose kill-ring is empty. -/
theorem yank_nothing_witness :
    (yank init_editor).message = "Nothing to yank" ∧ (yank init_editor).lines = [[]] := by
  have h := yank_nothing init_editor rfl
  exact ⟨h.1, h.2.1⟩

/-- C16. Undo log discipline: on an empty log `undo` only sets the message
`Nothing to undo` (lines, cursor and log unchanged); on a non-empty log it
removes exactly the most recent entry and pushes none, so `undo_count` drops
by exactly one. -/
theorem undo_log_discipline (e : Editor) :
    (e.undo_stack = [] →
        (undo e).message = "Nothing to undo" ∧ (undo e).lines = e.lines ∧
          (undo e).cursor_x = e.cursor_x ∧ (undo e).cursor_y = e.cursor_y ∧
          (undo e).undo_stack = []) ∧
      (∀ u rest, e.undo_stack = u :: rest →
        (undo e).undo_stack = rest ∧ undo_count (undo e) + 1 = undo_count e) := by
  constructor
  · intro h
    unfold undo
    rw [h]
    exact ⟨rfl, rfl, rfl, rfl, rfl⟩
  · intro u rest h
    unfold undo undo_count
    rw [h]
    exact ⟨rfl, rfl⟩

/-- C16 at concrete states: `undo` at start-up only reports, and after typing
two characters it leaves exactly the older entry. -/
theorem undo_log_discipline_witness :
    (undo init_editor).message = "Nothing to undo" ∧
      undo_count (undo (run init_editor [Op.insert_char 'a', Op.insert_char 'b'])) = 1 := by
  refine ⟨((undo_log_discipline init_editor).1 rfl).1, ?_⟩
  have h := (undo_log_discipline
    (run init_editor [Op.insert_char 'a', Op.insert_char 'b'])).2 _ _ rfl
  exact Nat.succ.inj h.2

/-! ## The line-count ceiling -/

theorem add_undo_other_lines (e : Editor) (a : Action) (x y : Nat) (d : Char)
    (b : Option Line) (n : Nat) : (add_undo e a x y d b n).other_lines = e.other_lines := by
  unfold add_undo; split <;> rfl

theorem start_counts_ceiling (file_lines : Option Nat) :
    (start_counts file_lines).num_lines ≤ MAX_LINES ∧
      (start_counts file_lines).other ≤ MAX_LINES := by
  cases file_lines with
  | none => simp [start_counts, MAX_LINES]
  | some n =>
      simp only [start_counts]
      refine ⟨?_, by simp [MAX_LINES]⟩
      split_ifs
      · simp [MAX_LINES]
      · exact_mod_cast Nat.min_le_right n MAX_LINES

theorem count_step_ceiling (c : LineCounts) (op : CountOp)
    (h1 : c.num_lines ≤ MAX_LINES) (h2 : c.other ≤ MAX_LINES) :
    (count_step c op).num_lines ≤ MAX_LINES ∧ (count_step c op).other ≤ MAX_LINES := by
  cases op with
  | keep => exact ⟨h1, h2⟩
  | insert_newline =>
      simp only [count_step]
      split_ifs with h
      · exact ⟨h1, h2⟩
      · exact ⟨by show c.num_lines + 1 ≤ _; omega, h2⟩
  | yank line_count =>
      cases line_count with
      | none => exact ⟨h1, h2⟩
      | some k =>
          simp only [count_step]
          split_ifs with h
          · exact ⟨h1, h2⟩
          · exact ⟨by show c.num_lines + k ≤ _; omega, h2⟩
  | delete_char join =>
      simp only [count_step]
      split_ifs
      · exact ⟨by show c.num_lines - 1 ≤ _; omega, h2⟩
      · exact ⟨h1, h2⟩
  | delete_char_right join =>
      simp only [count_step]
      split_ifs
      · exact ⟨by show c.num_lines - 1 ≤ _; omega, h2⟩
      · exact ⟨h1, h2⟩
  | delete_word_left wrap =>
      simp only [count_step]
      split_ifs
      · exact ⟨by show c.num_lines - 1 ≤ _; omega, h2⟩
      · exact ⟨h1, h2⟩
  | delete_word_right wrap =>
      simp only [count_step]
      split_ifs
      · exact ⟨by show c.num_lines - 1 ≤ _; omega, h2⟩
      · exact ⟨h1, h2⟩
  | delete_region mark_active mark_y cursor_y =>
      simp only [count_step]
      split_ifs
      · exact ⟨by show c.num_lines - ((cursor_y : Int) - mark_y) ≤ _; omega, h2⟩
      · exact ⟨by show c.num_lines - ((mark_y : Int) - cursor_y) ≤ _; omega, h2⟩
      · exact ⟨h1, h2⟩
  | undo entry =>
      cases entry with
      | none => exact ⟨h1, h2⟩
      | some u =>
          simp only [count_step]
          split
          · exact ⟨by show c.num_lines - 1 ≤ _; omega, h2⟩
          · exact ⟨by show c.num_lines - (u.line_count : Int) ≤ _; omega, h2⟩
          · exact ⟨by show c.num_lines - (u.line_count : Int) ≤ _; omega, h2⟩
          · exact ⟨h1, h2⟩
  | switch_buffer => exact ⟨h2, h1⟩

theorem count_run_ceiling (ops : List CountOp) :
    ∀ c : LineCounts, c.num_lines ≤ MAX_LINES → c.other ≤ MAX_LINES →
      (count_run c ops).num_lines ≤ MAX_LINES ∧ (count_run c ops).other ≤ MAX_LINES := by
  induction ops with
  | nil => intro c h1 h2; exact ⟨h1, h2⟩
  | cons op rest ih =>
      intro c h1 h2
      obtain ⟨h3, h4⟩ := count_step_ceiling c op h1 h2
      exact ih (count_step c op) h3 h4

theorem counts_eq (a b : LineCounts) (h1 : a.num_lines = b.num_lines)
    (h2 : a.other = b.other) : a = b := by
  cases a; cases b; simp_all

/-- One operation that finds the rows it indexes changes the list model's line
counts as `count_step` says. -/
theorem step_counts (e : Editor) (op : Op) (h : step_inside e op = true) :
    counts (step e op) = count_step (counts e) (count_of e op) := by
  apply counts_eq
  · cases op with
    | insert_char c =>
        simp only [step, count_of, count_step, counts, insert_char, num_lines]
        split_ifs <;> simp
    | delete_char =>
        simp only [step_inside, decide_eq_true_eq, num_lines] at h
        simp only [step, count_of, count_step, counts, delete_char, num_lines,
          decide_eq_true_eq]
        split_ifs
        all_goals simp only [add_undo_lines, List.length_set, List.length_append, List.length_take,
          List.length_drop, List.length_cons, List.length_nil]
        all_goals omega
    | delete_char_right =>
        simp only [step_inside, decide_eq_true_eq, num_lines] at h
        simp only [step, count_of, count_step, counts, delete_char_right, num_lines,
          decide_eq_true_eq]
        split_ifs
        all_goals simp only [add_undo_lines, List.length_set, List.length_append, List.length_take,
          List.length_drop, List.length_cons, List.length_nil]
        all_goals omega
    | delete_word_left =>
        simp only [step_inside, decide_eq_true_eq, num_lines] at h
        simp only [step, count_of, count_step, counts, delete_word_left, num_lines,
          decide_eq_true_eq]
        split_ifs
        all_goals simp only [add_undo_lines, List.length_set, List.length_append, List.length_take,
          List.length_drop, List.length_cons, List.length_nil]
        all_goals omega
    | delete_word_right =>
        simp only [step_inside, decide_eq_true_eq, num_lines] at h
        simp only [step, count_of, count_step, counts, delete_word_right, num_lines,
          decide_eq_true_eq]
        split_ifs
        all_goals simp only [add_undo_lines, List.length_set, List.length_append, List.length_take,
          List.length_drop, List.length_cons, List.length_nil]
        all_goals first | omega | tauto
    | insert_newline =>
        simp only [step_inside, decide_eq_true_eq, num_lines] at h
        simp only [step, count_of, count_step, counts, insert_newline, num_lines,
          decide_eq_true_eq]
        split_ifs
        all_goals simp only [add_undo_lines, List.length_set, List.length_append, List.length_take,
          List.length_drop, List.length_cons, List.length_nil]
        all_goals omega
    | yank =>
        simp only [step, count_of, counts, yank, num_lines]
        cases hk : e.kill_ring with
        | none => simp [count_step]
        | some text =>
            simp [step_inside, hk, num_lines] at h
            simp only [Option.map_some', count_step, insert_lines, num_lines]
            split_ifs
            all_goals simp only [add_undo_lines, List.length_set, List.length_append, List.length_take,
              List.length_drop, List.length_cons, List.length_nil]
            all_goals omega
    | kill_line =>
        cases hm : e.mark_active
        all_goals simp [step_inside, num_lines, hm] at h
        all_goals simp only [step, count_of, count_step, counts, kill_line, delete_region,
          region_start, region_end, num_lines, hm,
          Bool.not_true, Bool.not_false, Bool.false_eq_true, if_true, if_false]
        all_goals (try split_ifs)
        all_goals simp only [add_undo_lines, List.length_set, List.length_append, List.length_take,
          List.length_drop, List.length_cons, List.length_nil]
        all_goals omega
    | set_mark => rfl
    | delete_region =>
        cases hm : e.mark_active
        all_goals simp [step_inside, num_lines, hm] at h
        all_goals simp only [step, count_of, count_step, counts, delete_region, region_start,
          region_end, num_lines, hm,
          Bool.not_true, Bool.not_false, Bool.false_eq_true, if_true, if_false]
        all_goals (try split_ifs)
        all_goals simp only [add_undo_lines, List.length_set, List.length_append, List.length_take,
          List.length_drop, List.length_cons, List.length_nil]
        all_goals omega
    | undo =>
        simp only [step_inside] at h
        simp only [step, count_of, counts, undo, num_lines]
        cases hs : e.undo_stack with
        | nil => simp [count_step]
        | cons u rest =>
            rw [hs] at h
            cases hact : u.action
            all_goals simp only [List.head?_cons, entry_inside, hact, decide_eq_true_eq] at h
            all_goals simp only [List.head?_cons, count_step, undo_lines, hact, List.length_set,
              List.length_append, List.length_take, List.length_drop]
            all_goals omega
    | switch_buffer => rfl
    | move_cursor_left =>
        simp only [step, count_of, count_step, counts, move_cursor_left, num_lines]
        split_ifs <;> rfl
    | move_cursor_right =>
        simp only [step, count_of, count_step, counts, move_cursor_right, num_lines]
        split_ifs <;> rfl
    | move_cursor_up =>
        simp only [step, count_of, count_step, counts, move_cursor_up, num_lines]
        split_ifs <;> rfl
    | move_cursor_down =>
        simp only [step, count_of, count_step, counts, move_cursor_down, num_lines]
        split_ifs <;> rfl
    | move_cursor_beginning_of_line => rfl
    | move_cursor_end_of_line => rfl
    | move_cursor_backward_word =>
        simp only [step, count_of, count_step, counts, move_cursor_backward_word, num_lines]
        split_ifs <;> rfl
    | move_cursor_forward_word =>
        simp only [step, count_of, count_step, counts, move_cursor_forward_word, num_lines]
        split_ifs <;> rfl
    | move_cursor_backward_paragraph => rfl
    | move_cursor_forward_paragraph => rfl
    | start_search => rfl
    | update_search c =>
        simp only [step, count_of, count_step, counts, update_search, num_lines]
        split_ifs
        · rfl
        · rfl
        · split <;> rfl
    | show_info => rfl
    | save_file io_message => rfl
  · cases op with
    | insert_char c =>
        simp only [step, count_of, count_step, counts, insert_char]
        split_ifs <;> simp [add_undo_other_lines]
    | delete_char =>
        simp only [step, count_of, count_step, counts, delete_char]
        split_ifs <;> simp [add_undo_other_lines]
    | delete_char_right =>
        simp only [step, count_of, count_step, counts, delete_char_right]
        split_ifs <;> simp [add_undo_other_lines]
    | delete_word_left =>
        simp only [step, count_of, count_step, counts, delete_word_left]
        split_ifs <;> simp [add_undo_other_lines]
    | delete_word_right =>
        simp only [step, count_of, count_step, counts, delete_word_right]
        split_ifs <;> simp [add_undo_other_lines]
    | insert_newline =>
        simp only [step, count_of, count_step, counts, insert_newline]
        split_ifs <;> simp [add_undo_other_lines]
    | yank =>
        simp only [step, count_of, counts, yank]
        cases hk : e.kill_ring with
        | none => simp [count_step]
        | some text =>
            simp only [Option.map_some', count_step, insert_lines]
            split_ifs <;> simp [add_undo_other_lines]
    | kill_line =>
        cases hm : e.mark_active
        all_goals simp only [step, count_of, count_step, counts, kill_line, delete_region, hm,
          Bool.not_true, Bool.not_false, Bool.false_eq_true, if_true, if_false]
        all_goals (try split_ifs)
        all_goals rfl
    | set_mark => rfl
    | delete_region =>
        cases hm : e.mark_active
        all_goals simp only [step, count_of, count_step, counts, delete_region, hm,
          Bool.not_true, Bool.not_false, Bool.false_eq_true, if_true, if_false]
        all_goals (try split_ifs)
        all_goals rfl
    | undo =>
        simp only [step, count_of, counts, undo]
        cases hs : e.undo_stack with
        | nil => simp [count_step]
        | cons u rest =>
            simp only [List.head?_cons, count_step]
            cases hact : u.action <;> rfl
    | switch_buffer => rfl
    | move_cursor_left =>
        simp only [step, count_of, count_step, counts, move_cursor_left]
        split_ifs <;> rfl
    | move_cursor_right =>
        simp only [step, count_of, count_step, counts, move_cursor_right]
        split_ifs <;> rfl
    | move_cursor_up =>
        simp only [step, count_of, count_step, counts, move_cursor_up]
        split_ifs <;> rfl
    | move_cursor_down =>
        simp only [step, count_of, count_step, counts, move_cursor_down]
        split_ifs <;> rfl
    | move_cursor_beginning_of_line => rfl
    | move_cursor_end_of_line => rfl
    | move_cursor_backward_word =>
        simp only [step, count_of, count_step, counts, move_cursor_backward_word]
        split_ifs <;> rfl
    | move_cursor_forward_word =>
        simp only [step, count_of, count_step, counts, move_cursor_forward_word]
        split_ifs <;> rfl
    | move_cursor_backward_paragraph => rfl
    | move_cursor_forward_paragraph => rfl
    | start_search => rfl
    | update_search c =>
        simp only [step, count_of, count_step, counts, update_search]
        split_ifs
        · rfl
        · rfl
        · split <;> rfl
    | show_info => rfl
    | save_file io_message => rfl

/-- Along a run whose operations find the rows they index, the line counts of
the list model are those of the counters run on the trace of the operations. -/
theorem run_counts (ops : List Op) :
    ∀ e : Editor, run_inside e ops = true →
      counts (run e ops) = count_run (counts e) (count_trace e ops) := by
  induction ops with
  | nil => intro e _; rfl
  | cons op rest ih =>
      intro e h
      simp only [run_inside, Bool.and_eq_true] at h
      show counts (run (step e op) rest) =
        count_run (count_step (counts e) (count_of e op)) (count_trace (step e op) rest)
      rw [ih (step e op) h.2, step_counts e op h.1]

/-- C17. Line-count ceiling: after `init_editor`, an optional `load_file`, and
any sequence of the functions a key can start, whatever values they take from
the state, `num_lines` (and the counter of the other buffer) never exceeds
`MAX_LINES`; the line counts of the list model are these counters along every
run from the initial state whose operations find the rows they index, so
there too `num_lines` never exceeds `MAX_LINES`; and in every state a
line-creating operation that would exceed the ceiling (`insert_newline` with
`num_lines` at `MAX_LINES`, `insert_lines` with `num_lines + n > MAX_LINES`)
returns the state unchanged: lines, `num_lines`, cursor and undo log are as
before. -/
theorem line_count_ceiling (file_lines : Option Nat) (cops : List CountOp)
    (ops : List Op) (e : Editor) (new_lines : List Line) :
    (count_run (start_counts file_lines) cops).num_lines ≤ MAX_LINES ∧
      (count_run (start_counts file_lines) cops).other ≤ MAX_LINES ∧
      (run_inside init_editor ops = true →
        counts (run init_editor ops) =
            count_run (start_counts none) (count_trace init_editor ops) ∧
          num_lines (run init_editor ops) ≤ MAX_LINES) ∧
      (num_lines e ≥ MAX_LINES → insert_newline e = e) ∧
      (num_lines e + new_lines.length > MAX_LINES → insert_lines e new_lines = e) := by
  obtain ⟨h1, h2⟩ := start_counts_ceiling file_lines
  obtain ⟨h3, h4⟩ := count_run_ceiling cops (start_counts file_lines) h1 h2
  refine ⟨h3, h4, ?_, ?_, ?_⟩
  · intro hin
    have hc : counts (run init_editor ops) =
        count_run (start_counts none) (count_trace init_editor ops) :=
      run_counts ops init_editor hin
    obtain ⟨h5, h6⟩ := start_counts_ceiling none
    have h7 := (count_run_ceiling (count_trace init_editor ops) (start_counts none) h5 h6).1
    rw [← hc] at h7
    have h8 : ((num_lines (run init_editor ops) : Nat) : Int) ≤ (MAX_LINES : Nat) := h7
    exact ⟨hc, by exact_mod_cast h8⟩
  · intro h
    unfold insert_newline
    rw [if_pos h]
  · intro h
    unfold insert_lines
    rw [if_pos h]

/-- C17 at concrete inputs: 10001 times `insert_newline` from the start leave
`num_lines` at the ceiling; the run `x`, newline, space, `a`,
`delete_word_left`, `undo`, `switch_buffer` finds every row it indexes and ends
with one line; and in a buffer of `MAX_LINES` empty lines neither
`insert_newline` nor `insert_lines` changes the state. -/
theorem line_count_ceiling_witness :
    (count_run (start_counts none)
        (List.replicate 10001 CountOp.insert_newline)).num_lines ≤ MAX_LINES ∧
      num_lines (run init_editor [Op.insert_char 'x', Op.insert_newline, Op.insert_char ' ',
        Op.insert_char 'a', Op.delete_word_left, Op.undo, Op.switch_buffer]) ≤ MAX_LINES ∧
      insert_newline (mk_editor (List.replicate MAX_LINES []) 0 0) =
        mk_editor (List.replicate MAX_LINES []) 0 0 ∧
      insert_lines (mk_editor (List.replicate MAX_LINES []) 0 0) [[]] =
        mk_editor (List.replicate MAX_LINES []) 0 0 := by
  have h := line_count_ceiling none (List.replicate 10001 CountOp.insert_newline)
    [Op.insert_char 'x', Op.insert_newline, Op.insert_char ' ', Op.insert_char 'a',
      Op.delete_word_left, Op.undo, Op.switch_buffer]
    (mk_editor (List.replicate MAX_LINES []) 0 0) [[]]
  have hn : num_lines (mk_editor (List.replicate MAX_LINES []) 0 0) = MAX_LINES := by
    show (List.replicate MAX_LINES ([] : Line)).length = MAX_LINES
    simp
  exact ⟨h.1, (h.2.2.1 (by decide)).2, h.2.2.2.1 (by omega), h.2.2.2.2 (by simp [hn])⟩

/-! ## The line-length ceiling -/

theorem run_append (e : Editor) (xs ys : List Op) :
    run e (xs ++ ys) = run (run e xs) ys := by
  unfold run
  exact List.foldl_append _ _ _ _

theorem insert_char_at_end (e : Editor) (c : Char) (A B : List Line) (l : Line)
    (hL : e.lines = A ++ l :: B) (hA : A.length = e.cursor_y)
    (hx : e.cursor_x = l.length) (hp : ISPRINT c = true)
    (hlen : l.length < MAX_LINE_LEN - 1) :
    (insert_char e c).lines = A ++ (l ++ [c]) :: B ∧
      (insert_char e c).cursor_y = e.cursor_y ∧
      (insert_char e c).cursor_x = l.length + 1 := by
  have hline : line_at e.lines e.cursor_y = l := by rw [hL]; exact line_at_at A B l _ hA
  unfold insert_char
  rw [if_neg (by simp [hp]), hline, if_neg (by omega)]
  refine ⟨?_, add_undo_cursor_y _ _ _ _ _ _ _, by rw [← hx]⟩
  show e.lines.set _ _ = _
  rw [hL, set_at A B l _ _ hA, hx]
  simp

/-- Typing `k` times the printable character `c` at the end of a line with
room for them appends them to the line. -/
theorem type_at_end (c : Char) (hp : ISPRINT c = true) (A B : List Line) (k : Nat) :
    ∀ (e : Editor) (l : Line), e.lines = A ++ l :: B → A.length = e.cursor_y →
      e.cursor_x = l.length → l.length + k ≤ MAX_LINE_LEN - 1 →
      (run e (List.replicate k (Op.insert_char c))).lines =
          A ++ (l ++ List.replicate k c) :: B ∧
        (run e (List.replicate k (Op.insert_char c))).cursor_y = e.cursor_y ∧
        (run e (List.replicate k (Op.insert_char c))).cursor_x = l.length + k := by
  induction k with
  | zero =>
      intro e l hL _ hx _
      refine ⟨?_, rfl, hx⟩
      show e.lines = _
      rw [hL]; simp
  | succ k ih =>
      intro e l hL hA hx hlen
      obtain ⟨h1, h2, h3⟩ := insert_char_at_end e c A B l hL hA hx hp (by omega)
      have hi := ih (insert_char e c) (l ++ [c]) h1 (by rw [h2]; exact hA)
        (by rw [h3]; simp) (by simp; omega)
      have hrun : run e (List.replicate (k + 1) (Op.insert_char c)) =
          run (insert_char e c) (List.replicate k (Op.insert_char c)) := rfl
      rw [hrun]
      obtain ⟨i1, i2, i3⟩ := hi
      refine ⟨?_, by rw [i2, h2], by rw [i3]; simp; omega⟩
      rw [i1]
      simp [List.replicate_succ]

/-- Typing `k` characters, a newline and `k` characters again, then a
backspace at column 0 of the second row, leaves one line of `2 * k`
characters. -/
theorem join_after_typing (k : Nat) (hk : k ≤ MAX_LINE_LEN - 1) :
    (run init_editor
      (List.replicate k (Op.insert_char 'a') ++ [Op.insert_newline] ++
        List.replicate k (Op.insert_char 'a') ++
        [Op.move_cursor_beginning_of_line, Op.delete_char])).lines =
      [List.replicate k 'a' ++ List.replicate k 'a'] := by
  have hp : ISPRINT 'a' = true := by decide
  generalize hs1 : run init_editor (List.replicate k (Op.insert_char 'a')) = s1
  have a := type_at_end 'a' hp [] [] k init_editor [] rfl rfl rfl (by simpa using hk)
  rw [hs1] at a
  obtain ⟨a1, a2, a3⟩ := a
  simp only [List.nil_append, List.length_nil, Nat.zero_add] at a1 a3
  have a2' : s1.cursor_y = 0 := a2
  have hn1 : num_lines s1 = 1 := by unfold num_lines; rw [a1]; rfl
  have b1 := insert_newline_lines s1 (by rw [hn1, a2']; omega)
    (by rw [hn1]; unfold MAX_LINES; omega)
  obtain ⟨b2, b3⟩ := insert_newline_cursor s1 (by rw [hn1]; unfold MAX_LINES; omega)
  have hl1 : line_at s1.lines 0 = List.replicate k 'a' := by rw [a1]; rfl
  rw [a2', a3, hl1] at b1
  rw [a2'] at b3
  generalize hs2 : insert_newline s1 = s2 at b1 b2 b3
  have b1' : s2.lines = [List.replicate k 'a'] ++ [] :: [] := by
    rw [b1, a1]; simp
  generalize hs3 : run s2 (List.replicate k (Op.insert_char 'a')) = s3
  have c := type_at_end 'a' hp [List.replicate k 'a'] [] k s2 [] b1' (by rw [b3]; rfl) b2
    (by simpa using hk)
  rw [hs3] at c
  obtain ⟨c1, c2, c3⟩ := c
  simp only [List.nil_append, List.length_nil, Nat.zero_add] at c1
  rw [b3] at c2
  have d := delete_char_join (move_cursor_beginning_of_line s3)
    [] [] (List.replicate k 'a') (List.replicate k 'a') 0 rfl c2 c1 rfl
  have hrun : run init_editor
      (List.replicate k (Op.insert_char 'a') ++ [Op.insert_newline] ++
        List.replicate k (Op.insert_char 'a') ++
        [Op.move_cursor_beginning_of_line, Op.delete_char]) =
      delete_char (move_cursor_beginning_of_line s3) := by
    rw [run_append, run_append, run_append, hs1]
    show run (run (insert_newline s1) _) _ = _
    rw [hs2, hs3]
    rfl
  rw [hrun, d.1]
  rfl

/-- C18. The run `long_join_ops` from the initial state (512 characters, a
newline, 512 characters, then backspace at column 0 of the second row) ends
with the single line of 1024 characters: the join of `delete_char` does not
check the length, and the line is longer than `MAX_LINE_LEN - 1`. -/
theorem line_longer_than_ceiling_after_join :
    (run init_editor long_join_ops).lines =
        [List.replicate 512 'a' ++ List.replicate 512 'a'] ∧
      ∃ l ∈ (run init_editor long_join_ops).lines, l.length = 1024 ∧
        ¬ l.length ≤ MAX_LINE_LEN - 1 := by
  have h : (run init_editor long_join_ops).lines =
      [List.replicate 512 'a' ++ List.replicate 512 'a'] :=
    join_after_typing 512 (by unfold MAX_LINE_LEN; omega)
  have hlen : (List.replicate 512 'a' ++ List.replicate 512 'a').length = 1024 := by
    rw [List.length_append, List.length_replicate]
  refine ⟨h, _, by rw [h]; exact List.mem_singleton.mpr rfl, hlen, ?_⟩
  rw [hlen]
  unfold MAX_LINE_LEN
  omega

/-! ## Incremental search -/

theorem strstr_some (q : Line) (h : Line) :
    ∀ k, strstr h q = some k →
      k ≤ h.length ∧ (h.drop k).take q.length = q ∧
        ∀ j, j < k → (h.drop j).take q.length ≠ q := by
  induction h with
  | nil =>
      intro k hk
      unfold strstr at hk
      by_cases hq : q = []
      · rw [if_pos hq] at hk
        have : k = 0 := by simpa using hk.symm
        subst this
        exact ⟨Nat.le_refl _, by simp [hq], fun j hj => absurd hj (Nat.not_lt_zero j)⟩
      · rw [if_neg hq] at hk
        exact absurd hk (by simp)
  | cons c cs ih =>
      intro k hk
      unfold strstr at hk
      by_cases hm : (c :: cs).take q.length = q
      · rw [if_pos hm] at hk
        have : k = 0 := by simpa using hk.symm
        subst this
        exact ⟨Nat.zero_le _, hm, fun j hj => absurd hj (Nat.not_lt_zero j)⟩
      · rw [if_neg hm] at hk
        cases hr : strstr cs q with
        | none => rw [hr] at hk; exact absurd hk (by simp)
        | some k1 =>
            rw [hr] at hk
            have hk1 : k = k1 + 1 := by simpa using hk.symm
            subst hk1
            obtain ⟨i1, i2, i3⟩ := ih k1 hr
            refine ⟨by simp; omega, by simpa using i2, ?_⟩
            intro j hj
            cases j with
            | zero => simpa using hm
            | succ j => simpa using i3 j (by omega)

theorem strstr_none (q : Line) (h : Line) :
    strstr h q = none → ∀ j, (h.drop j).take q.length ≠ q := by
  induction h with
  | nil =>
      intro hk j
      unfold strstr at hk
      by_cases hq : q = []
      · rw [if_pos hq] at hk; exact absurd hk (by simp)
      · simp only [List.drop_nil, List.take_nil]
        exact fun h => hq h.symm
  | cons c cs ih =>
      intro hk j
      unfold strstr at hk
      by_cases hm : (c :: cs).take q.length = q
      · rw [if_pos hm] at hk; exact absurd hk (by simp)
      · rw [if_neg hm] at hk
        have hr : strstr cs q = none := by
          cases hr : strstr cs q with
          | none => rfl
          | some k1 => rw [hr] at hk; exact absurd hk (by simp)
        cases j with
        | zero => simpa using hm
        | succ j => simpa using ih hr j

theorem line_at_cons_succ (l : Line) (rest : List Line) (i : Nat) :
    line_at (l :: rest) (i + 1) = line_at rest i := by
  simp [line_at]

theorem line_at_drop (L : List Line) (n i : Nat) :
    line_at (L.drop n) i = line_at L (n + i) := by
  simp [line_at, List.getD_eq_getElem?_getD, List.getElem?_drop]

/-- A match found by `strstr` in the part of `l` from `off` on is a match of
`l`, and the first one at or after `off`. -/
theorem strstr_row_some (q l : Line) (off k : Nat) (hoff : off ≤ l.length)
    (hk : strstr (l.drop off) q = some k) :
    match_at l q (off + k) ∧ ∀ j, off ≤ j → match_at l q j → off + k ≤ j := by
  obtain ⟨h1, h2, h3⟩ := strstr_some q (l.drop off) k hk
  rw [List.length_drop] at h1
  rw [List.drop_drop] at h2
  refine ⟨⟨?_, h2⟩, ?_⟩
  · have := congrArg List.length h2
    simp only [List.length_take, List.length_drop] at this
    omega
  · intro j hj hm
    by_contra hlt
    have h4 := h3 (j - off) (by omega)
    rw [List.drop_drop] at h4
    have e2 : off + (j - off) = j := by omega
    rw [e2] at h4
    exact h4 hm.2

theorem strstr_row_none (q l : Line) (off : Nat)
    (hk : strstr (l.drop off) q = none) : ∀ j, off ≤ j → ¬ match_at l q j := by
  intro j hj hm
  have h4 := strstr_none q (l.drop off) hk (j - off)
  rw [List.drop_drop] at h4
  have e2 : off + (j - off) = j := by omega
  rw [e2] at h4
  exact h4 hm.2

/-- The row loop of `update_search` returns the first match in (row, column)
order among the rows it scans, the first row counted from column `off`. -/
theorem search_loop_some (q : Line) (rows : List Line) :
    ∀ (y off : Nat) (p : Nat × Nat), (∀ l ∈ rows, l.length < MAX_LINE_LEN) →
      off ≤ (line_at rows 0).length → search_loop q rows y off = some p →
      ∃ i, i < rows.length ∧ p.2 = y + i ∧ match_at (line_at rows i) q p.1 ∧
        (i = 0 → off ≤ p.1) ∧
        ∀ i1 j, i1 < rows.length → match_at (line_at rows i1) q j → (i1 = 0 → off ≤ j) →
          i < i1 ∨ (i1 = i ∧ p.1 ≤ j) := by
  induction rows with
  | nil => intro y off p _ _ h; exact absurd h (by simp [search_loop])
  | cons l rest ih =>
      intro y off p hlen hoff h
      have hl : l.take (MAX_LINE_LEN - 1) = l :=
        List.take_of_length_le (by have := hlen l (List.mem_cons_self _ _); omega)
      have hoff1 : off ≤ l.length := hoff
      unfold search_loop at h
      rw [hl] at h
      cases hr : strstr (l.drop off) q with
      | some k =>
          rw [hr] at h
          have hp : p = (off + k, y) := by simpa using h.symm
          subst hp
          obtain ⟨m1, m2⟩ := strstr_row_some q l off k hoff1 hr
          refine ⟨0, by simp, rfl, m1, fun _ => Nat.le_add_right _ _, ?_⟩
          intro i1 j _ hm hj
          cases i1 with
          | zero => exact Or.inr ⟨rfl, m2 j (hj rfl) hm⟩
          | succ i1 => exact Or.inl (Nat.succ_pos _)
      | none =>
          rw [hr] at h
          have hno := strstr_row_none q l off hr
          obtain ⟨i, h1, h2, h3, _, h5⟩ := ih (y + 1) 0 p
            (fun a ha => hlen a (List.mem_cons_of_mem _ ha)) (Nat.zero_le _) h
          refine ⟨i + 1, by simp; omega, by rw [h2]; omega, ?_, by omega, ?_⟩
          · rw [line_at_cons_succ]; exact h3
          · intro i1 j hi1 hm hj
            cases i1 with
            | zero => exact absurd hm (hno j (hj rfl))
            | succ i1 =>
                rw [line_at_cons_succ] at hm
                have := h5 i1 j (by simp at hi1; omega) hm (fun _ => Nat.zero_le _)
                omega

theorem search_loop_none (q : Line) (rows : List Line) :
    ∀ (y off : Nat), (∀ l ∈ rows, l.length < MAX_LINE_LEN) →
      search_loop q rows y off = none →
      ∀ i1 j, i1 < rows.length → match_at (line_at rows i1) q j → (i1 = 0 → off ≤ j) →
        False := by
  induction rows with
  | nil => intro y off _ _ i1 j hi; exact absurd hi (by simp)
  | cons l rest ih =>
      intro y off hlen h i1 j hi1 hm hj
      have hl : l.take (MAX_LINE_LEN - 1) = l :=
        List.take_of_length_le (by have := hlen l (List.mem_cons_self _ _); omega)
      unfold search_loop at h
      rw [hl] at h
      cases hr : strstr (l.drop off) q with
      | some k => rw [hr] at h; exact absurd h (by simp)
      | none =>
          rw [hr] at h
          cases i1 with
          | zero => exact strstr_row_none q l off hr j (hj rfl) hm
          | succ i1 =>
              rw [line_at_cons_succ] at hm
              exact ih (y + 1) 0 (fun a ha => hlen a (List.mem_cons_of_mem _ ha)) h i1 j
                (by simp at hi1; omega) hm (fun _ => Nat.zero_le _)

theorem search_query_after_printable (q : Line) (c : Int) (hc : isprint_key c = true) :
    search_query_after q c =
      if q.length < 255 then q ++ [Char.ofNat c.toNat] else q := by
  unfold isprint_key at hc
  simp only [Bool.and_eq_true, decide_eq_true_eq] at hc
  unfold search_query_after KEY_BACKSPACE
  rw [if_neg (by omega)]
  by_cases h : q.length < 255
  · rw [if_pos ⟨by simp [isprint_key, hc.1, hc.2], h⟩, if_pos h]
  · rw [if_neg (fun hh => h hh.2), if_neg h]

theorem update_search_printable (e : Editor) (c : Int) (hs : e.searching = true)
    (hc : isprint_key c = true) :
    update_search e c =
      match search_loop (search_query_after e.search_query c)
          (e.lines.drop e.cursor_y) e.cursor_y e.cursor_x with
      | some p =>
          { e with search_query := search_query_after e.search_query c,
                   cursor_y := p.2, cursor_x := p.1,
                   message := "Search: " ++ String.mk (search_query_after e.search_query c) }
      | none =>
          { e with search_query := search_query_after e.search_query c,
                   message := "Search: " ++ String.mk (search_query_after e.search_query c) } := by
  unfold isprint_key at hc
  simp only [Bool.and_eq_true, decide_eq_true_eq] at hc
  unfold update_search
  rw [if_neg (by simp [hs]), if_neg (by omega)]

/-- C19. Incremental search finds the first forward match: in a valid state
in search mode and for a printable key, `update_search` appends the key to the
query (while the query has fewer than 255 characters) and leaves the lines as
they are; if the query then occurs at a position at or after the cursor, the
cursor moves to an occurrence at or after the old cursor that precedes or
equals every such occurrence in (row, column) order; if it occurs nowhere at
or after the cursor, the cursor is unchanged; and the cursor row never
decreases. -/
theorem update_search_first_match (e : Editor) (c : Int) (hv : Valid e)
    (hs : e.searching = true) (hc : isprint_key c = true) :
    (update_search e c).search_query =
        (if e.search_query.length < 255 then e.search_query ++ [Char.ofNat c.toNat]
         else e.search_query) ∧
      (update_search e c).lines = e.lines ∧
      ((∃ x y, at_or_after e.cursor_x e.cursor_y x y ∧
          occurs_at e.lines (update_search e c).search_query x y) →
        at_or_after e.cursor_x e.cursor_y
            (update_search e c).cursor_x (update_search e c).cursor_y ∧
          occurs_at e.lines (update_search e c).search_query
            (update_search e c).cursor_x (update_search e c).cursor_y ∧
          ∀ x y, at_or_after e.cursor_x e.cursor_y x y →
            occurs_at e.lines (update_search e c).search_query x y →
            at_or_after (update_search e c).cursor_x (update_search e c).cursor_y x y) ∧
      ((¬ ∃ x y, at_or_after e.cursor_x e.cursor_y x y ∧
          occurs_at e.lines (update_search e c).search_query x y) →
        (update_search e c).cursor_x = e.cursor_x ∧
          (update_search e c).cursor_y = e.cursor_y) ∧
      e.cursor_y ≤ (update_search e c).cursor_y := by
  obtain ⟨_, _, hlen, hy, hx⟩ := hv
  unfold num_lines at hy
  have hrows : ∀ l ∈ e.lines.drop e.cursor_y, l.length < MAX_LINE_LEN :=
    fun l hl => hlen l (List.mem_of_mem_drop hl)
  have hoff : e.cursor_x ≤ (line_at (e.lines.drop e.cursor_y) 0).length := by
    rw [line_at_drop]; exact hx
  have hrl : (e.lines.drop e.cursor_y).length = e.lines.length - e.cursor_y :=
    List.length_drop _ _
  rw [update_search_printable e c hs hc]
  generalize hq : search_query_after e.search_query c = q
  have hq2 := search_query_after_printable e.search_query c hc
  rw [hq] at hq2
  cases hr : search_loop q (e.lines.drop e.cursor_y) e.cursor_y e.cursor_x with
  | some p =>
      obtain ⟨i, h1, h2, h3, h4, h5⟩ :=
        search_loop_some q _ e.cursor_y e.cursor_x p hrows hoff hr
      rw [line_at_drop] at h3
      rw [hrl] at h1
      have hocc : occurs_at e.lines q p.1 p.2 := by
        refine ⟨by rw [h2]; omega, ?_⟩
        rw [h2]; exact h3
      have hafter : at_or_after e.cursor_x e.cursor_y p.1 p.2 := by
        unfold at_or_after
        by_cases hi : i = 0
        · exact Or.inr ⟨by omega, h4 hi⟩
        · exact Or.inl (by omega)
      have hmin : ∀ x y, at_or_after e.cursor_x e.cursor_y x y →
          occurs_at e.lines q x y → at_or_after p.1 p.2 x y := by
        intro x y ha ho
        unfold at_or_after at ha ⊢
        obtain ⟨ho1, ho2⟩ := ho
        have hyge : e.cursor_y ≤ y := by omega
        have hm : match_at (line_at (e.lines.drop e.cursor_y) (y - e.cursor_y)) q x := by
          rw [line_at_drop]
          have e1 : e.cursor_y + (y - e.cursor_y) = y := by omega
          rw [e1]; exact ho2
        have := h5 (y - e.cursor_y) x (by rw [hrl]; omega) hm (by intro h0; omega)
        omega
      refine ⟨hq2, rfl, fun _ => ⟨hafter, hocc, hmin⟩, ?_, ?_⟩
      · intro hno
        exact absurd ⟨p.1, p.2, hafter, hocc⟩ hno
      · show e.cursor_y ≤ p.2
        omega
  | none =>
      have hnone := search_loop_none q _ e.cursor_y e.cursor_x hrows hr
      refine ⟨hq2, rfl, ?_, fun _ => ⟨rfl, rfl⟩, Nat.le_refl _⟩
      rintro ⟨x, y, ha, ho1, ho2⟩
      unfold at_or_after at ha
      exfalso
      have hm : match_at (line_at (e.lines.drop e.cursor_y) (y - e.cursor_y)) q x := by
        rw [line_at_drop]
        have e1 : e.cursor_y + (y - e.cursor_y) = y := by omega
        rw [e1]; exact ho2
      exact hnone (y - e.cursor_y) x (by rw [hrl]; omega) hm (by intro h0; omega)

/-- C19 at the scenario of the specification: typing `two` (keys 116, 119,
111) in `["one", "two three", "four two"]` from `(0, 0)` ends at `(0, 1)`, an
occurrence of the query that precedes the one at `(5, 2)`; a further key `x`
(120), after which the query occurs nowhere, leaves the cursor at `(0, 1)`. -/
theorem update_search_first_match_witness :
    (update_search (update_search (update_search search_state 116) 119) 111).cursor_x = 0 ∧
      (update_search (update_search (update_search search_state 116) 119) 111).cursor_y = 1 ∧
      (update_search (update_search (update_search search_state 116) 119) 111).search_query
        = "two".toList ∧
      occurs_at search_state.lines "two".toList 0 1 ∧
      occurs_at search_state.lines "two".toList 5 2 ∧
      (update_search
        (update_search (update_search (update_search search_state 116) 119) 111) 120).cursor_x
        = 0 ∧
      (update_search
        (update_search (update_search (update_search search_state 116) 119) 111) 120).cursor_y
        = 1 := by
  have h := (update_search_first_match
    (update_search (update_search search_state 116) 119) 111
    (by decide) (by decide) (by decide)).2.2.1 ⟨5, 2, by decide, by decide⟩
  exact ⟨by decide, by decide, by decide, h.2.1, by decide, by decide, by decide⟩

/-! ## `delete_word_right` across rows -/

/-- C20. In `["ab", "cd"]` with the cursor at `(2, 0)`, forward word motion goes
to `(0, 1)`, so the text up to the target is the line break; `delete_word_right`
leaves `["cdcd"]` instead of `["abcd"]` and records `"\ncd"`: after the move to
the next row, `line` is that row, and both the joined line and the recorded
text are built from it.  On one row the operation is as specified:
`["one two three"]` at `(8, 0)` becomes `["one two "]`, cursor unchanged. -/
theorem delete_word_right_across_rows :
    Valid (mk_editor ["ab".toList, "cd".toList] 2 0) ∧
      (move_cursor_forward_word (mk_editor ["ab".toList, "cd".toList] 2 0)).cursor_x = 0 ∧
      (move_cursor_forward_word (mk_editor ["ab".toList, "cd".toList] 2 0)).cursor_y = 1 ∧
      (delete_word_right (mk_editor ["ab".toList, "cd".toList] 2 0)).lines
        = ["cdcd".toList] ∧
      (delete_word_right (mk_editor ["ab".toList, "cd".toList] 2 0)).lines
        ≠ ["abcd".toList] ∧
      ((delete_word_right (mk_editor ["ab".toList, "cd".toList] 2 0)).undo_stack.map
        (fun u => u.bulk_data)) = [some "\ncd".toList] ∧
      (move_cursor_forward_word (move_cursor_forward_word
        (mk_editor ["one two three".toList] 0 0))).cursor_x = 8 ∧
      (delete_word_right (mk_editor ["one two three".toList] 8 0)).lines
        = ["one two ".toList] ∧
      (delete_word_right (mk_editor ["one two three".toList] 8 0)).cursor_x = 8 := by
  decide

/-! ## The lexer -/

/-- C22. The lines of the specification's scenario, lexed as C with the carry
threaded through: `"/* start"` is all Comment and sets the carry, `"still in
comment"` is all Comment and keeps it, and `"end */ code"` draws `end *` as
Comment, then ` code` as Normal, and clears the carry; but the `/` that closes
the comment (column 5) is not drawn at all, so it carries no Comment tag: after
drawing the `*` the loop moves the index on by two. -/
theorem closing_slash_not_tagged :
    (highlight_line Language.LANG_C "/* start".toList false).map
        (fun r => (cell_chars r.1, r.1.all (fun c => c.tok = TokenType.TOKEN_COMMENT), r.2))
        = some ("/* start".toList, true, true) ∧
      (highlight_line Language.LANG_C "still in comment".toList true).map
        (fun r => (cell_chars r.1, r.1.all (fun c => c.tok = TokenType.TOKEN_COMMENT), r.2))
        = some ("still in comment".toList, true, true) ∧
      (highlight_line Language.LANG_C "end */ code".toList true).map
        (fun r => (r.1.map (fun c => c.col), cell_chars r.1, cell_toks r.1, r.2))
        = some ([0, 1, 2, 3, 4, 6, 7, 8, 9, 10], "end * code".toList,
            [TokenType.TOKEN_COMMENT, TokenType.TOKEN_COMMENT, TokenType.TOKEN_COMMENT,
             TokenType.TOKEN_COMMENT, TokenType.TOKEN_COMMENT, TokenType.TOKEN_NORMAL,
             TokenType.TOKEN_NORMAL, TokenType.TOKEN_NORMAL, TokenType.TOKEN_NORMAL,
             TokenType.TOKEN_NORMAL], false) := by
  decide

/-- C26. The line `"<!-- a --> b"` lexed as HTML: the tag rule is tested before
the comment rule and takes every `<` followed by `!`, so `<!-- a -->` is drawn
as Keyword up to the `>` and the rest as Normal; no character is tagged
Comment.  Without a `>` the whole rest of the line is Keyword. -/
theorem html_comment_lexed_as_tag :
    (highlight_line Language.LANG_HTML "<!-- a --> b".toList false).map
        (fun r => (cell_chars r.1, cell_toks r.1, r.2))
        = some ("<!-- a --> b".toList,
            [TokenType.TOKEN_KEYWORD, TokenType.TOKEN_KEYWORD, TokenType.TOKEN_KEYWORD,
             TokenType.TOKEN_KEYWORD, TokenType.TOKEN_KEYWORD, TokenType.TOKEN_KEYWORD,
             TokenType.TOKEN_KEYWORD, TokenType.TOKEN_KEYWORD, TokenType.TOKEN_KEYWORD,
             TokenType.TOKEN_KEYWORD, TokenType.TOKEN_NORMAL, TokenType.TOKEN_NORMAL],
            false) ∧
      (highlight_line Language.LANG_HTML "<!-- a b".toList false).map
        (fun r => (cell_chars r.1, r.1.all (fun c => c.tok = TokenType.TOKEN_KEYWORD)))
        = some ("<!-- a b".toList, true) := by
  decide

/-- C30. The line `"x */ y"` lexed as C with the carry set: the cells drawn are
those of columns 0, 1, 2, 4, 5 with the characters `x * y`; column 3, the `/`
of the closing `*/`, is skipped, so the characters drawn are not the line. -/
theorem closing_slash_not_drawn :
    (highlight_line Language.LANG_C "x */ y".toList true).map
        (fun r => (r.1.map (fun c => c.col), cell_chars r.1))
        = some ([0, 1, 2, 4, 5], "x * y".toList) ∧
      (highlight_line Language.LANG_C "x */ y".toList true).map (fun r => cell_chars r.1)
        ≠ some "x */ y".toList := by
  decide

/-! ## `delete_word_left` across rows -/

/-- C25. In `["ab", "cd", "ef"]` with the cursor at `(2, 1)`, backward word
motion goes to `(2, 0)`, so the text back to the target is the line break and
`cd`, and the buffer without it is `["ab", "ef"]`.  `delete_word_left` leaves
`["abcd", "cd"]` with the cursor at `(2, 0)`: the joined row keeps the whole
cursor row, the rows are not moved up, and the last row drops out of the
count. -/
theorem delete_word_left_across_rows :
    Valid (mk_editor ["ab".toList, "cd".toList, "ef".toList] 2 1) ∧
      (move_cursor_backward_word
        (mk_editor ["ab".toList, "cd".toList, "ef".toList] 2 1)).cursor_x = 2 ∧
      (move_cursor_backward_word
        (mk_editor ["ab".toList, "cd".toList, "ef".toList] 2 1)).cursor_y = 0 ∧
      (delete_word_left (mk_editor ["ab".toList, "cd".toList, "ef".toList] 2 1)).lines
        = ["abcd".toList, "cd".toList] ∧
      (delete_word_left (mk_editor ["ab".toList, "cd".toList, "ef".toList] 2 1)).lines
        ≠ ["ab".toList, "ef".toList] ∧
      (delete_word_left (mk_editor ["ab".toList, "cd".toList, "ef".toList] 2 1)).cursor_x
        = 2 ∧
      (delete_word_left (mk_editor ["ab".toList, "cd".toList, "ef".toList] 2 1)).cursor_y
        = 0 := by
  decide

/-! ## Undo and the two buffers -/

theorem alnum_not_space (c : Char) (h : ISALNUM c = true) : ISSPACE c = false := by
  unfold ISALNUM at h
  unfold ISSPACE
  simp only [Bool.or_eq_true, Bool.and_eq_true, decide_eq_true_eq] at h
  simp only [Bool.or_eq_false_iff, Bool.and_eq_false_iff, decide_eq_false_iff_not]
  omega

theorem alnum_not_punct (c : Char) (h : ISALNUM c = true) : ISPUNCT c = false := by
  unfold ISPUNCT; rw [h]; rfl

theorem punct_not_space (c : Char) (h : ISPUNCT c = true) : ISSPACE c = false := by
  unfold ISPUNCT at h
  simp only [Bool.and_eq_true, Bool.not_eq_true'] at h
  exact h.2

theorem alnum_ne_nul (c : Char) (h : ISALNUM c = true) : c ≠ NUL := by
  intro hc
  rw [hc] at h
  exact absurd h (by decide)

theorem char_at_length (l : Line) (i : Nat) (h : l.length ≤ i) : char_at l i = NUL := by
  unfold char_at
  simp [List.getD_eq_getElem?_getD, List.getElem?_eq_none h]

theorem skip_left_le (p : Char → Bool) (l : Line) (x : Nat) : skip_left p l x ≤ x := by
  induction x with
  | zero => exact Nat.le_refl _
  | succ x ih =>
      unfold skip_left
      split
      · exact Nat.le_succ_of_le ih
      · exact Nat.le_refl _

theorem skip_left_stop (p : Char → Bool) (l : Line) (a : Nat) (ha : 0 < a)
    (h : p (char_at l (a - 1)) = false) : skip_left p l a = a := by
  cases a with
  | zero => exact absurd ha (Nat.lt_irrefl 0)
  | succ a =>
      unfold skip_left
      rw [Nat.add_sub_cancel] at h
      rw [h]
      rfl

theorem skip_left_run (p : Char → Bool) (l : Line) (a b : Nat) (hab : a ≤ b)
    (h : ∀ j, a ≤ j → j < b → p (char_at l j) = true) :
    skip_left p l b = skip_left p l a := by
  induction b with
  | zero =>
      have : a = 0 := Nat.le_zero.mp hab
      rw [this]
  | succ b ih =>
      by_cases hb : a = b + 1
      · rw [hb]
      · have hle : a ≤ b := by omega
        have hp := h b hle (Nat.lt_succ_self b)
        have : skip_left p l (b + 1) = skip_left p l b := by
          conv_lhs => unfold skip_left
          rw [hp]
          rfl
        rw [this]
        exact ih hle (fun j h1 h2 => h j h1 (Nat.lt_succ_of_lt h2))

/-- The forward loop from `x` with `fuel` passes: it moves right over
characters that are not the terminator and satisfy `p`, and it stops before
the fuel is used up only at a character that is the terminator or fails `p`. -/
theorem skip_right_loop_spec (p : Char → Bool) (l : Line) (fuel : Nat) :
    ∀ x, x ≤ skip_right_loop p l fuel x ∧ skip_right_loop p l fuel x ≤ x + fuel ∧
      (∀ j, x ≤ j → j < skip_right_loop p l fuel x →
        char_at l j ≠ NUL ∧ p (char_at l j) = true) ∧
      (skip_right_loop p l fuel x < x + fuel →
        ¬ (char_at l (skip_right_loop p l fuel x) ≠ NUL ∧
          p (char_at l (skip_right_loop p l fuel x)) = true)) := by
  induction fuel with
  | zero =>
      intro x
      unfold skip_right_loop
      exact ⟨Nat.le_refl _, Nat.le_refl _, fun j h1 h2 => absurd h2 (by omega),
        fun h => absurd h (Nat.lt_irrefl _)⟩
  | succ fuel ih =>
      intro x
      unfold skip_right_loop
      by_cases hc : char_at l x ≠ NUL ∧ p (char_at l x) = true
      · rw [if_pos hc]
        obtain ⟨h1, h2, h3, h4⟩ := ih (x + 1)
        refine ⟨by omega, by omega, ?_, ?_⟩
        · intro j hj1 hj2
          by_cases hjx : j = x
          · rw [hjx]; exact hc
          · exact h3 j (by omega) hj2
        · intro hlt
          exact h4 (by omega)
      · rw [if_neg hc]
        exact ⟨Nat.le_refl _, by omega, fun j h1 h2 => absurd h2 (by omega), fun _ => hc⟩

/-- The forward loop of the word functions from a column inside the line: it
ends inside the line, has passed only characters satisfying `p`, and stands
at the terminator or at a character failing `p`. -/
theorem skip_right_spec (p : Char → Bool) (l : Line) (x : Nat) (hx : x ≤ l.length) :
    x ≤ skip_right p l x ∧ skip_right p l x ≤ l.length ∧
      (∀ j, x ≤ j → j < skip_right p l x → p (char_at l j) = true) ∧
      ¬ (char_at l (skip_right p l x) ≠ NUL ∧ p (char_at l (skip_right p l x)) = true) := by
  unfold skip_right
  obtain ⟨h1, h2, h3, h4⟩ := skip_right_loop_spec p l (l.length - x) x
  refine ⟨h1, by omega, fun j a b => (h3 j a b).2, ?_⟩
  by_cases hlt : skip_right_loop p l (l.length - x) x < x + (l.length - x)
  · exact h4 hlt
  · intro hc
    exact hc.1 (char_at_length l _ (by omega))

/-- An alphanumeric run of `n` characters from column `x` that ends at a
character that is not alphanumeric is skipped as a whole. -/
theorem skip_right_alnum_run (l : Line) (x n : Nat) (hx : x ≤ l.length)
    (hrun : ∀ j, x ≤ j → j < x + n → ISALNUM (char_at l j) = true)
    (hend : ISALNUM (char_at l (x + n)) = false) :
    skip_right ISALNUM l x = x + n ∧ x + n ≤ l.length := by
  have hlen : x + n ≤ l.length := by
    by_contra hlt
    have := hrun l.length hx (by omega)
    rw [char_at_length l _ (Nat.le_refl _)] at this
    exact absurd this (by decide)
  obtain ⟨h1, h2, h3, h4⟩ := skip_right_spec ISALNUM l x hx
  refine ⟨?_, hlen⟩
  by_contra hne
  rcases Nat.lt_or_gt_of_ne hne with hlt | hgt
  · apply h4
    have := hrun (skip_right ISALNUM l x) h1 hlt
    exact ⟨alnum_ne_nul _ this, this⟩
  · have := h3 (x + n) (by omega) hgt
    rw [hend] at this
    exact absurd this (by decide)

/-- Walking left from `x3` over a whitespace run, a punctuation run and the
non-empty end of an alphanumeric run that begins at or before `x` continues as
the walk over alphanumerics from `x`. -/
theorem skip_left_chain (l : Line) (x x1 x2 x3 : Nat) (h0 : x < x1) (h12 : x1 ≤ x2)
    (h23 : x2 ≤ x3)
    (ha : ∀ j, x ≤ j → j < x1 → ISALNUM (char_at l j) = true)
    (hp : ∀ j, x1 ≤ j → j < x2 → ISPUNCT (char_at l j) = true)
    (hs : ∀ j, x2 ≤ j → j < x3 → ISSPACE (char_at l j) = true) :
    skip_left ISALNUM l (skip_left ISPUNCT l (skip_left ISSPACE l x3)) =
      skip_left ISALNUM l x := by
  have hw : ISALNUM (char_at l (x1 - 1)) = true := ha (x1 - 1) (by omega) (by omega)
  have s1 : skip_left ISSPACE l x3 = x2 := by
    rw [skip_left_run ISSPACE l x2 x3 h23 hs]
    apply skip_left_stop ISSPACE l x2 (by omega)
    by_cases h : x1 < x2
    · exact punct_not_space _ (hp (x2 - 1) (by omega) (by omega))
    · have : x2 = x1 := by omega
      rw [this]
      exact alnum_not_space _ hw
  have s2 : skip_left ISPUNCT l x2 = x1 := by
    rw [skip_left_run ISPUNCT l x1 x2 h12 hp]
    exact skip_left_stop ISPUNCT l x1 (by omega) (alnum_not_punct _ hw)
  rw [s1, s2]
  exact skip_left_run ISALNUM l x x1 (by omega) ha

/-- C24, amended. Forward-then-backward does not overshoot on one row: in a
valid buffer with the cursor strictly inside a word (the characters before and
at the cursor are alphanumeric), when `move_cursor_forward_word` stays on the
cursor row, a following `move_cursor_backward_word` leaves the cursor at or
before the starting position in (row, column) order. -/
theorem forward_backward_same_row (e : Editor) (hv : Valid e) (hx0 : 0 < e.cursor_x)
    (hprev : ISALNUM (char_at (line_at e.lines e.cursor_y) (e.cursor_x - 1)) = true)
    (hcur : ISALNUM (char_at (line_at e.lines e.cursor_y) e.cursor_x) = true)
    (hrow : (move_cursor_forward_word e).cursor_y = e.cursor_y) :
    at_or_after
      (move_cursor_backward_word (move_cursor_forward_word e)).cursor_x
      (move_cursor_backward_word (move_cursor_forward_word e)).cursor_y
      e.cursor_x e.cursor_y := by
  have hx : e.cursor_x ≤ (line_at e.lines e.cursor_y).length := hv.2.2.2.2
  generalize hl : line_at e.lines e.cursor_y = l at hx hprev hcur
  obtain ⟨a1, a2, a3, a4⟩ := skip_right_spec ISALNUM l e.cursor_x hx
  obtain ⟨b1, b2, b3, _⟩ := skip_right_spec ISPUNCT l _ a2
  obtain ⟨c1, c2, c3, _⟩ := skip_right_spec ISSPACE l _ b2
  have hlt : e.cursor_x < skip_right ISALNUM l e.cursor_x := by
    rcases Nat.lt_or_ge e.cursor_x (skip_right ISALNUM l e.cursor_x) with h | h
    · exact h
    · have : skip_right ISALNUM l e.cursor_x = e.cursor_x := by omega
      rw [this] at a4
      exact absurd ⟨alnum_ne_nul _ hcur, hcur⟩ a4
  have hchain := skip_left_chain l (e.cursor_x - 1) _ _ _ (by omega) b1 c1
    (fun j h1 h2 => by
      by_cases hj : j = e.cursor_x - 1
      · rw [hj]; exact hprev
      · exact a3 j (by omega) h2) b3 c3
  have hle := skip_left_le ISALNUM l (e.cursor_x - 1)
  -- the forward motion stayed on the row
  have hf : move_cursor_forward_word e =
      { e with cursor_x := (skip_right ISSPACE l
          (skip_right ISPUNCT l (skip_right ISALNUM l e.cursor_x))) } := by
    unfold move_cursor_forward_word at hrow ⊢
    simp only [hl] at hrow ⊢
    split
    · rename_i hw
      rw [if_pos hw] at hrow
      exact absurd hrow (by show e.cursor_y + 1 ≠ e.cursor_y; omega)
    · rfl
  rw [hf]
  unfold move_cursor_backward_word at_or_after
  simp only [hl]
  rw [if_neg (by intro h; omega), hchain]
  split
  · exact Or.inl (by show e.cursor_y - 1 < e.cursor_y; omega)
  · exact Or.inr ⟨rfl, by show skip_left ISALNUM l (e.cursor_x - 1) ≤ e.cursor_x; omega⟩

/-- C24 amended, at a concrete state: from `(5, 0)` inside `two` in
`["one two three"]`, forward goes to `(8, 0)` and backward to `(4, 0)`. -/
theorem forward_backward_same_row_witness :
    at_or_after
      (move_cursor_backward_word
        (move_cursor_forward_word (mk_editor ["one two three".toList] 5 0))).cursor_x
      (move_cursor_backward_word
        (move_cursor_forward_word (mk_editor ["one two three".toList] 5 0))).cursor_y
      5 0 ∧
      (move_cursor_backward_word
        (move_cursor_forward_word (mk_editor ["one two three".toList] 5 0))).cursor_x = 4 :=
  ⟨forward_backward_same_row (mk_editor ["one two three".toList] 5 0)
    (by decide) (by decide) (by decide) (by decide) (by decide), by decide⟩

/-- C24 as stated fails when the forward motion wraps: in `["ab", "cd"]` from
`(1, 0)`, strictly inside `ab`, `move_cursor_forward_word` goes to `(0, 1)` and
`move_cursor_backward_word` then goes to `(2, 0)`, the end of `ab`, which is
after the starting position. -/
theorem forward_backward_overshoots_after_wrap :
    Valid (mk_editor ["ab".toList, "cd".toList] 1 0) ∧
      (move_cursor_forward_word (mk_editor ["ab".toList, "cd".toList] 1 0)).cursor_x = 0 ∧
      (move_cursor_forward_word (mk_editor ["ab".toList, "cd".toList] 1 0)).cursor_y = 1 ∧
      (move_cursor_backward_word
        (move_cursor_forward_word (mk_editor ["ab".toList, "cd".toList] 1 0))).cursor_x = 2 ∧
      (move_cursor_backward_word
        (move_cursor_forward_word (mk_editor ["ab".toList, "cd".toList] 1 0))).cursor_y = 0 ∧
      ¬ at_or_after
        (move_cursor_backward_word
          (move_cursor_forward_word (mk_editor ["ab".toList, "cd".toList] 1 0))).cursor_x
        (move_cursor_backward_word
          (move_cursor_forward_word (mk_editor ["ab".toList, "cd".toList] 1 0))).cursor_y
        1 0 := by
  decide

/-- C21, amended. A word is a maximal run of alphanumeric characters, and the
underscore is punctuation: in a valid state with the cursor at the start of a
maximal run of `n ≥ 1` alphanumeric characters, the alphanumeric loop of the
forward motion skips exactly that run; `move_cursor_forward_word`, when it
stays on the row, ends where the punctuation loop and then the whitespace loop
lead from the end of the run, and `delete_word_right`, when its target stays on
the row, removes exactly the text from the cursor to that column; and
`move_cursor_backward_word` from the end of the run returns to its start
(unless the run starts at column 0 of a row after the first, where the motion
goes on to the previous row). -/
theorem word_is_alnum_run (e : Editor) (n : Nat) (hv : Valid e) (hn : 0 < n)
    (hrun : ∀ j, e.cursor_x ≤ j → j < e.cursor_x + n →
      ISALNUM (char_at (line_at e.lines e.cursor_y) j) = true)
    (hend : ISALNUM (char_at (line_at e.lines e.cursor_y) (e.cursor_x + n)) = false)
    (hstart : e.cursor_x = 0 ∨
      ISALNUM (char_at (line_at e.lines e.cursor_y) (e.cursor_x - 1)) = false) :
    ISALNUM '_' = false ∧ ISPUNCT '_' = true ∧
      skip_right ISALNUM (line_at e.lines e.cursor_y) e.cursor_x = e.cursor_x + n ∧
      e.cursor_x + n ≤
        skip_right ISSPACE (line_at e.lines e.cursor_y)
          (skip_right ISPUNCT (line_at e.lines e.cursor_y) (e.cursor_x + n)) ∧
      ((move_cursor_forward_word e).cursor_y = e.cursor_y →
        (move_cursor_forward_word e).cursor_x =
          skip_right ISSPACE (line_at e.lines e.cursor_y)
            (skip_right ISPUNCT (line_at e.lines e.cursor_y) (e.cursor_x + n))) ∧
      (¬ (char_at (line_at e.lines e.cursor_y)
            (skip_right ISSPACE (line_at e.lines e.cursor_y)
              (skip_right ISPUNCT (line_at e.lines e.cursor_y) (e.cursor_x + n))) = NUL ∧
          e.cursor_y + 1 < num_lines e) →
        (delete_word_right e).lines =
          e.lines.set e.cursor_y
            ((line_at e.lines e.cursor_y).take e.cursor_x ++
              (line_at e.lines e.cursor_y).drop
                (skip_right ISSPACE (line_at e.lines e.cursor_y)
                  (skip_right ISPUNCT (line_at e.lines e.cursor_y) (e.cursor_x + n))))) ∧
      (¬ (e.cursor_x = 0 ∧ 0 < e.cursor_y) →
        (move_cursor_backward_word { e with cursor_x := e.cursor_x + n }).cursor_x
            = e.cursor_x ∧
          (move_cursor_backward_word { e with cursor_x := e.cursor_x + n }).cursor_y
            = e.cursor_y) := by
  have hx : e.cursor_x ≤ (line_at e.lines e.cursor_y).length := hv.2.2.2.2
  generalize hl : line_at e.lines e.cursor_y = l at hx hrun hend hstart
  obtain ⟨hskip, hlen⟩ := skip_right_alnum_run l e.cursor_x n hx hrun hend
  obtain ⟨b1, b2, _, _⟩ := skip_right_spec ISPUNCT l (e.cursor_x + n) hlen
  obtain ⟨c1, _, _, _⟩ := skip_right_spec ISSPACE l _ b2
  refine ⟨by decide, by decide, hskip, by omega, ?_, ?_, ?_⟩
  · intro hrow
    unfold move_cursor_forward_word at hrow ⊢
    simp only [hl, hskip] at hrow ⊢
    split
    · rename_i hw
      rw [if_pos hw] at hrow
      exact absurd hrow (by show e.cursor_y + 1 ≠ e.cursor_y; omega)
    · rfl
  · intro hnw
    have hne : ¬ (e.cursor_y + 1 = num_lines e ∧ e.cursor_x = l.length) := by
      intro h; omega
    unfold delete_word_right
    simp only [hl, hskip]
    rw [if_neg hne]
    have hw : decide (char_at l (skip_right ISSPACE l (skip_right ISPUNCT l
        (e.cursor_x + n))) = NUL ∧ e.cursor_y + 1 < num_lines e) = false :=
      decide_eq_false hnw
    simp only [hw, Bool.false_eq_true, if_false, if_true]
    rw [add_undo_lines]
  · intro hnot
    have hchain := skip_left_chain l e.cursor_x (e.cursor_x + n) (e.cursor_x + n)
      (e.cursor_x + n) (by omega) (Nat.le_refl _) (Nat.le_refl _) hrun
      (fun j h1 h2 => absurd h2 (by omega)) (fun j h1 h2 => absurd h2 (by omega))
    have hstop : skip_left ISALNUM l e.cursor_x = e.cursor_x := by
      rcases hstart with h | h
      · rw [h]; rfl
      · by_cases h0 : e.cursor_x = 0
        · rw [h0]; rfl
        · exact skip_left_stop ISALNUM l e.cursor_x (by omega) h
    unfold move_cursor_backward_word
    simp only [hl]
    rw [if_neg (by intro h; omega), hchain, hstop]
    rw [if_neg hnot]
    exact ⟨rfl, rfl⟩

/-- C21 amended, at the line of the claim: on `"foo_bar baz"` from column 0 the
word is `foo`, and forward word motion lands on column 4, after the
underscore. -/
theorem word_is_alnum_run_witness :
    skip_right ISALNUM "foo_bar baz".toList 0 = 3 ∧
      (move_cursor_forward_word (mk_editor ["foo_bar baz".toList] 0 0)).cursor_x = 4 ∧
      (move_cursor_backward_word (mk_editor ["foo_bar baz".toList] 3 0)).cursor_x = 0 := by
  have h := word_is_alnum_run (mk_editor ["foo_bar baz".toList] 0 0) 3 (by decide)
    (by decide) (by
      intro j _ hj
      have h3 : j < 3 := hj
      interval_cases j <;> decide) (by decide) (Or.inl rfl)
  exact ⟨h.2.2.1, (h.2.2.2.2.1 (by decide)).trans (by decide),
    (h.2.2.2.2.2.2 (by decide)).1⟩

/-- C21 as stated fails: the word tests are `isalnum` alone, so on
`"foo_bar baz"` forward word motion from column 0 stops at column 4, not at
column 8, `delete_word_right` removes only `foo_`, and backward word motion
from column 7 stops at column 4. -/
theorem underscore_ends_word :
    (move_cursor_forward_word (mk_editor ["foo_bar baz".toList] 0 0)).cursor_x = 4 ∧
      (move_cursor_forward_word (mk_editor ["foo_bar baz".toList] 0 0)).cursor_x ≠ 8 ∧
      (delete_word_right (mk_editor ["foo_bar baz".toList] 0 0)).lines
        = ["bar baz".toList] ∧
      (move_cursor_backward_word (mk_editor ["foo_bar baz".toList] 7 0)).cursor_x = 4 := by
  decide

/-! ## Undo of in-line edits with cursor movements in between -/

theorem backward_paragraph_row_le (L : List Line) (y : Nat) :
    backward_paragraph_row L y ≤ y := by
  induction y with
  | zero => exact Nat.le_refl _
  | succ y ih =>
      unfold backward_paragraph_row
      split
      · exact Nat.le_succ _
      · exact Nat.le_succ_of_le ih

theorem forward_paragraph_row_lt (L : List Line) (fuel : Nat) :
    ∀ y, y < L.length → forward_paragraph_row L fuel y < L.length := by
  induction fuel with
  | zero => intro y hy; exact hy
  | succ fuel ih =>
      intro y hy
      unfold forward_paragraph_row
      split
      · rename_i h
        split
        · exact h
        · exact ih (y + 1) h
      · exact hy

/-- A cursor movement keeps lines, undo log and capacity, and keeps the state
valid. -/
theorem apply_move_keeps (e : Editor) (m : Move) (hv : Valid e) :
    Keeps e (apply_move e m) := by
  obtain ⟨h1, h2, h3, hy, hx⟩ := hv
  have hvalid : ∀ x y, y < num_lines e → x ≤ (line_at e.lines y).length →
      Valid { e with cursor_x := x, cursor_y := y } :=
    fun x y hy1 hx1 => ⟨h1, h2, h3, hy1, hx1⟩
  unfold Keeps
  cases m with
  | left =>
      show Valid (move_cursor_left e) ∧ (move_cursor_left e).lines = e.lines ∧
        (move_cursor_left e).undo_stack = e.undo_stack ∧ (move_cursor_left e).undo_size = e.undo_size
      unfold move_cursor_left
      split
      · exact ⟨hvalid _ _ hy (by show e.cursor_x - 1 ≤ _; omega), rfl, rfl, rfl⟩
      · exact ⟨⟨h1, h2, h3, hy, hx⟩, rfl, rfl, rfl⟩
  | right =>
      show Valid (move_cursor_right e) ∧ (move_cursor_right e).lines = e.lines ∧
        (move_cursor_right e).undo_stack = e.undo_stack ∧ (move_cursor_right e).undo_size = e.undo_size
      unfold move_cursor_right
      split
      · rename_i h
        exact ⟨hvalid _ _ hy (by show e.cursor_x + 1 ≤ _; omega), rfl, rfl, rfl⟩
      · exact ⟨⟨h1, h2, h3, hy, hx⟩, rfl, rfl, rfl⟩
  | up =>
      show Valid (move_cursor_up e) ∧ (move_cursor_up e).lines = e.lines ∧
        (move_cursor_up e).undo_stack = e.undo_stack ∧ (move_cursor_up e).undo_size = e.undo_size
      unfold move_cursor_up
      split
      · refine ⟨hvalid _ _ (by show e.cursor_y - 1 < _; omega) ?_, rfl, rfl, rfl⟩
        show (if _ then _ else _) ≤ _
        split <;> omega
      · exact ⟨⟨h1, h2, h3, hy, hx⟩, rfl, rfl, rfl⟩
  | down =>
      show Valid (move_cursor_down e) ∧ (move_cursor_down e).lines = e.lines ∧
        (move_cursor_down e).undo_stack = e.undo_stack ∧ (move_cursor_down e).undo_size = e.undo_size
      unfold move_cursor_down
      split
      · rename_i h
        refine ⟨hvalid _ _ h ?_, rfl, rfl, rfl⟩
        show (if _ then _ else _) ≤ _
        split <;> omega
      · exact ⟨⟨h1, h2, h3, hy, hx⟩, rfl, rfl, rfl⟩
  | beginning_of_line =>
      exact ⟨hvalid 0 _ hy (Nat.zero_le _), rfl, rfl, rfl⟩
  | end_of_line =>
      exact ⟨hvalid _ _ hy (Nat.le_refl _), rfl, rfl, rfl⟩
  | forward_word =>
      show Valid (move_cursor_forward_word e) ∧ (move_cursor_forward_word e).lines = e.lines ∧
        (move_cursor_forward_word e).undo_stack = e.undo_stack ∧ (move_cursor_forward_word e).undo_size = e.undo_size
      obtain ⟨_, a2, _, _⟩ := skip_right_spec ISALNUM (line_at e.lines e.cursor_y) _ hx
      obtain ⟨_, b2, _, _⟩ := skip_right_spec ISPUNCT (line_at e.lines e.cursor_y) _ a2
      obtain ⟨_, c2, _, _⟩ := skip_right_spec ISSPACE (line_at e.lines e.cursor_y) _ b2
      unfold move_cursor_forward_word
      simp only []
      split
      · rename_i h
        exact ⟨hvalid 0 _ h.2 (Nat.zero_le _), rfl, rfl, rfl⟩
      · exact ⟨hvalid _ _ hy c2, rfl, rfl, rfl⟩
  | backward_word =>
      show Valid (move_cursor_backward_word e) ∧ (move_cursor_backward_word e).lines = e.lines ∧
        (move_cursor_backward_word e).undo_stack = e.undo_stack ∧ (move_cursor_backward_word e).undo_size = e.undo_size
      unfold move_cursor_backward_word
      simp only []
      split
      · exact ⟨⟨h1, h2, h3, hy, hx⟩, rfl, rfl, rfl⟩
      · split
        · refine ⟨hvalid _ _ (by show e.cursor_y - 1 < _; omega) ?_, rfl, rfl, rfl⟩
          exact Nat.le_trans (skip_left_le _ _ _) (skip_left_le _ _ _)
        · refine ⟨hvalid _ _ hy ?_, rfl, rfl, rfl⟩
          exact Nat.le_trans (skip_left_le _ _ _)
            (Nat.le_trans (skip_left_le _ _ _) (Nat.le_trans (skip_left_le _ _ _) hx))
  | forward_paragraph =>
      exact ⟨hvalid 0 _ (forward_paragraph_row_lt e.lines _ _ hy) (Nat.zero_le _),
        rfl, rfl, rfl⟩
  | backward_paragraph =>
      exact ⟨hvalid 0 _ (Nat.lt_of_le_of_lt (backward_paragraph_row_le e.lines _) hy)
        (Nat.zero_le _), rfl, rfl, rfl⟩

/-- An in-line edit in a state with room pushes exactly one entry. -/
theorem in_line_pushes (e : Editor) (ed : CharEdit) (hroom : undo_room e 1)
    (hin : in_line e ed = true) :
    (apply_edit e ed).undo_stack.length = e.undo_stack.length + 1 := by
  cases ed with
  | ins c =>
      simp only [in_line, Bool.and_eq_true, decide_eq_true_eq] at hin
      show (insert_char e c).undo_stack.length = _
      unfold insert_char
      rw [if_neg (by simp [hin.1]), if_neg (by omega)]
      show (add_undo e _ _ _ _ _ _).undo_stack.length = _
      rw [add_undo_stack e _ _ _ _ _ _ hroom]
      rfl
  | del =>
      simp only [in_line, decide_eq_true_eq] at hin
      show (delete_char e).undo_stack.length = _
      unfold delete_char
      rw [if_neg (by omega), if_pos hin]
      show (add_undo e _ _ _ _ _ _).undo_stack.length = _
      rw [add_undo_stack e _ _ _ _ _ _ hroom]
      rfl
  | del_right =>
      simp only [in_line, decide_eq_true_eq] at hin
      show (delete_char_right e).undo_stack.length = _
      unfold delete_char_right
      rw [if_pos hin]
      show (add_undo e _ _ _ _ _ _).undo_stack.length = _
      rw [add_undo_stack e _ _ _ _ _ _ hroom]
      rfl

theorem in_line_no_join (e : Editor) (ed : CharEdit) (hin : in_line e ed = true) :
    joins e ed = false := by
  cases ed with
  | ins c => rfl
  | del =>
      simp only [in_line, decide_eq_true_eq] at hin
      simp only [joins, decide_eq_false_iff_not]
      omega
  | del_right =>
      simp only [in_line, decide_eq_true_eq] at hin
      simp only [joins, decide_eq_false_iff_not]
      omega

/-- After a sequence of in-line edits and cursor movements, as many invocations
of `undo` as there were edits restore lines and log; this holds from any state
with the lines and the log the sequence ended in. -/
theorem apply_steps_undo (steps : List EditStep) :
    ∀ e : Editor, Valid e → undo_room e (count_edits steps) →
      all_in_line e steps = true →
      ∀ t : Editor, t.lines = (apply_steps e steps).lines →
        t.undo_stack = (apply_steps e steps).undo_stack →
        (undo_n (count_edits steps) t).lines = e.lines ∧
          (undo_n (count_edits steps) t).undo_stack = e.undo_stack := by
  induction steps with
  | nil => intro e _ _ _ t h1 h2; exact ⟨h1, h2⟩
  | cons st rest ih =>
      intro e hv hroom hall t ht1 ht2
      cases st with
      | move m =>
          obtain ⟨mv, ml, ms, mz⟩ := apply_move_keeps e m hv
          have hroom2 : undo_room (apply_move e m) (count_edits rest) := by
            unfold undo_room undo_count at hroom ⊢
            rw [ms, mz]; exact hroom
          obtain ⟨r1, r2⟩ := ih (apply_move e m) mv hroom2 hall t ht1 ht2
          exact ⟨by rw [← ml]; exact r1, by rw [← ms]; exact r2⟩
      | edit ed =>
          have hall2 : in_line e ed = true ∧ all_in_line (apply_edit e ed) rest = true := by
            simpa [all_in_line] using hall
          have hroom1 : undo_room e 1 := by
            unfold undo_room at hroom ⊢
            simp only [count_edits] at hroom
            omega
          obtain ⟨hv1, hsz, hcase⟩ :=
            apply_edit_undoable e ed hv hroom1 (in_line_no_join e ed hall2.1)
          have hpush := in_line_pushes e ed hroom1 hall2.1
          have hroom2 : undo_room (apply_edit e ed) (count_edits rest) := by
            unfold undo_room undo_count at hroom ⊢
            simp only [count_edits] at hroom
            rw [hpush, hsz]; omega
          obtain ⟨r1, r2⟩ := ih (apply_edit e ed) hv1 hroom2 hall2.2 t ht1 ht2
          rcases hcase with ⟨u, hu, hul⟩ | ⟨hs, _⟩
          · have hn1 : undo_n (count_edits (EditStep.edit ed :: rest)) t =
                undo (undo_n (count_edits rest) t) := undo_n_succ _ _
            rw [hn1]
            obtain ⟨h3, h4⟩ := undo_of_cons (undo_n (count_edits rest) t) u e.undo_stack
              (by rw [r2, hu])
            exact ⟨by rw [h3, r1, hul], h4⟩
          · rw [hs] at hpush
            exact absurd hpush (by omega)

/-- C29. Restricted undo round trip: for every valid state and every sequence
of `k` edits, each an `insert_char` of a printable character on a line shorter
than `MAX_LINE_LEN - 1`, a `delete_char` with `cursor_x > 0` or a
`delete_char_right` with `cursor_x` before the end of the line, interleaved
with arbitrary cursor movements, such that `undo_count + k` does not exceed the
capacity, `k` invocations of `undo` afterwards restore exactly the original
lines and the original `undo_count`. -/
theorem undo_round_trip_in_line (e : Editor) (steps : List EditStep) (hv : Valid e)
    (hroom : undo_room e (count_edits steps)) (hall : all_in_line e steps = true) :
    (undo_n (count_edits steps) (apply_steps e steps)).lines = e.lines ∧
      undo_count (undo_n (count_edits steps) (apply_steps e steps)) = undo_count e := by
  obtain ⟨h1, h2⟩ := apply_steps_undo steps e hv hroom hall (apply_steps e steps) rfl rfl
  exact ⟨h1, by unfold undo_count; rw [h2]⟩

/-- C29 at a concrete state: in `["one two", "x"]` from `(0, 0)`, a forward
word motion, typing `Z`, moving down and up, a backspace, a move to the end of
the line and left, and a delete to the right are three edits; three undos give
back `["one two", "x"]`. -/
theorem undo_round_trip_in_line_witness :
    (apply_steps (mk_editor ["one two".toList, "x".toList] 0 0)
        [EditStep.move Move.forward_word, EditStep.edit (CharEdit.ins 'Z'),
         EditStep.move Move.down, EditStep.move Move.up, EditStep.edit CharEdit.del,
         EditStep.move Move.end_of_line, EditStep.move Move.left,
         EditStep.edit CharEdit.del_right]).lines = ["ne Ztw".toList, "x".toList] ∧
      (undo_n 3 (apply_steps (mk_editor ["one two".toList, "x".toList] 0 0)
        [EditStep.move Move.forward_word, EditStep.edit (CharEdit.ins 'Z'),
         EditStep.move Move.down, EditStep.move Move.up, EditStep.edit CharEdit.del,
         EditStep.move Move.end_of_line, EditStep.move Move.left,
         EditStep.edit CharEdit.del_right])).lines = ["one two".toList, "x".toList] :=
  ⟨by decide,
    (undo_round_trip_in_line (mk_editor ["one two".toList, "x".toList] 0 0)
      [EditStep.move Move.forward_word, EditStep.edit (CharEdit.ins 'Z'),
       EditStep.move Move.down, EditStep.move Move.up, EditStep.edit CharEdit.del,
       EditStep.move Move.end_of_line, EditStep.move Move.left,
       EditStep.edit CharEdit.del_right] (by decide) (by decide) (by decide)).1⟩

/-! ## Which mutations are logged -/

theorem add_undo_count (e : Editor) (a : Action) (x y : Nat) (d : Char)
    (b : Option Line) (n : Nat) (h : undo_room e 1) :
    undo_count (add_undo e a x y d b n) = undo_count e + 1 := by
  unfold undo_count
  rw [add_undo_stack e a x y d b n h]
  rfl

/-- C23, amended. In a valid state with room in the undo log, the operations
that log their mutation push exactly one entry: `insert_char` of a printable
character on a line with room, `delete_char` at a column `> 0`,
`delete_char_right` before the end of the line, `insert_newline` under the line
ceiling, `insert_lines` of at least one line, each shorter than `MAX_LINE_LEN`,
that fit, and `delete_word_left` / `delete_word_right` away from the start /
end of the buffer where they stay inside the block they allocate (always when
the target is on the cursor row).  The line joins of `delete_char` (column 0)
and `delete_char_right` (end of line), `kill_line` and `delete_region` (with a
mark inside the buffer and a block that suffices, or without a mark) push
nothing: `undo_count` is unchanged. -/
theorem logged_mutations (e : Editor) (c : Char) (new_lines : List Line) :
    Valid e → undo_room e 1 →
    (ISPRINT c = true → (line_at e.lines e.cursor_y).length < MAX_LINE_LEN - 1 →
        undo_count (insert_char e c) = undo_count e + 1) ∧
      (0 < e.cursor_x → undo_count (delete_char e) = undo_count e + 1) ∧
      (e.cursor_x = 0 → undo_count (delete_char e) = undo_count e) ∧
      (e.cursor_x < (line_at e.lines e.cursor_y).length →
        undo_count (delete_char_right e) = undo_count e + 1) ∧
      ((line_at e.lines e.cursor_y).length ≤ e.cursor_x →
        undo_count (delete_char_right e) = undo_count e) ∧
      (num_lines e < MAX_LINES → undo_count (insert_newline e) = undo_count e + 1) ∧
      (new_lines ≠ [] → (∀ l ∈ new_lines, l.length < MAX_LINE_LEN) →
        num_lines e + new_lines.length ≤ MAX_LINES →
        undo_count (insert_lines e new_lines) = undo_count e + 1) ∧
      (¬ (e.cursor_x = 0 ∧ e.cursor_y = 0) → delete_word_left_fits e = true →
        undo_count (delete_word_left e) = undo_count e + 1) ∧
      (¬ (e.cursor_y + 1 = num_lines e ∧ e.cursor_x = (line_at e.lines e.cursor_y).length) →
        delete_word_right_fits e = true →
        undo_count (delete_word_right e) = undo_count e + 1) ∧
      (e.mark_active = false →
        undo_count (kill_line e) = undo_count e ∧
          undo_count (delete_region e) = undo_count e) ∧
      (e.mark_active = true → mark_ok e → delete_region_fits e = true →
        undo_count (kill_line e) = undo_count e ∧
          undo_count (delete_region e) = undo_count e) := by
  intro _ hroom
  have hregion : undo_count (delete_region e) = undo_count e := by
    simp only [delete_region]
    split_ifs <;> rfl
  have hkill : undo_count (kill_line e) = undo_count e := by
    unfold kill_line
    split
    · exact hregion
    · rfl
  refine ⟨?_, ?_, ?_, ?_, ?_, ?_, ?_, ?_, ?_, fun _ => ⟨hkill, hregion⟩,
    fun _ _ _ => ⟨hkill, hregion⟩⟩
  · intro hp hlen
    unfold insert_char
    rw [if_neg (by simp [hp]), if_neg (by omega)]
    exact add_undo_count e _ _ _ _ _ _ hroom
  · intro hx
    unfold delete_char
    rw [if_neg (by omega), if_pos hx]
    exact add_undo_count e _ _ _ _ _ _ hroom
  · intro hx
    unfold delete_char
    split_ifs <;> first | rfl | omega
  · intro hx
    unfold delete_char_right
    rw [if_pos hx]
    exact add_undo_count e _ _ _ _ _ _ hroom
  · intro hx
    unfold delete_char_right
    rw [if_neg (by omega)]
    split_ifs <;> rfl
  · intro hn
    unfold insert_newline
    rw [if_neg (by omega)]
    exact add_undo_count e _ _ _ _ _ _ hroom
  · intro _ _ hn
    unfold insert_lines
    rw [if_neg (by omega)]
    simp only []
    split <;> exact add_undo_count e _ _ _ _ _ _ hroom
  · intro hne _
    simp only [delete_word_left]
    rw [if_neg hne]
    split_ifs <;> (apply add_undo_count; exact hroom)
  · intro hne _
    simp only [delete_word_right]
    rw [if_neg hne]
    split_ifs <;> (apply add_undo_count; exact hroom)

/-- C23 amended, at concrete states: typing into `["ab"]` pushes one entry,
`delete_word_right` there pushes one, `delete_word_right` across the row end
of `["ab", "cd"]` at `(2, 0)` pushes one, and `kill_line` pushes none. -/
theorem logged_mutations_witness :
    undo_count (insert_char (mk_editor ["ab".toList] 1 0) 'X') = 1 ∧
      undo_count (delete_word_right (mk_editor ["ab".toList] 1 0)) = 1 ∧
      undo_count (kill_line (mk_editor ["ab".toList] 1 0)) = 0 ∧
      undo_count (delete_word_right (mk_editor ["ab".toList, "cd".toList] 2 0)) = 1 := by
  have h := logged_mutations (mk_editor ["ab".toList] 1 0) 'X' [] (by decide) (by decide)
  have h2 := logged_mutations (mk_editor ["ab".toList, "cd".toList] 2 0) 'X' []
    (by decide) (by decide)
  exact ⟨h.1 (by decide) (by decide), h.2.2.2.2.2.2.2.2.1 (by decide) (by decide),
    (h.2.2.2.2.2.2.2.2.2.1 rfl).1, h2.2.2.2.2.2.2.2.2.1 (by decide) (by decide)⟩

/-- C23 as stated fails: in valid states with room in the log, `kill_line`
(on `["ab"]` at column 1), `delete_region` (at `region_state`) and the join of
`delete_char` (at `joined_state`) change the lines and leave `undo_count` as
it was. -/
theorem unlogged_mutations :
    mark_ok region_state ∧ delete_region_fits region_state = true ∧
      Valid (mk_editor ["ab".toList] 1 0) ∧ undo_room (mk_editor ["ab".toList] 1 0) 1 ∧
      (kill_line (mk_editor ["ab".toList] 1 0)).lines ≠ (mk_editor ["ab".toList] 1 0).lines ∧
      undo_count (kill_line (mk_editor ["ab".toList] 1 0)) =
        undo_count (mk_editor ["ab".toList] 1 0) ∧
      Valid region_state ∧ undo_room region_state 1 ∧
      (delete_region region_state).lines ≠ region_state.lines ∧
      undo_count (delete_region region_state) = undo_count region_state ∧
      Valid joined_state ∧ undo_room joined_state 1 ∧
      (delete_char joined_state).lines ≠ joined_state.lines ∧
      undo_count (delete_char joined_state) = undo_count joined_state := by
  decide

/-! ## The key dispatcher -/

/-- The two prefix flags are never set together: they are both clear at the
start, and `handle_input` keeps them from being set together, so the
dispatcher is in exactly one of `Normal`, `MetaPrefix` and `CtrlXPrefix`. -/
theorem prefix_flags_exclusive (d : Dispatcher) (e : Editor) (ch now : Int)
    (io_message : String) (d1 : Dispatcher) (e1 : Editor)
    (hd : ¬ (d.expecting_alt = true ∧ d.expecting_ctrl_x = true))
    (h : handle_input d e ch now io_message = some (d1, e1)) :
    ¬ (init_dispatcher.expecting_alt = true ∧ init_dispatcher.expecting_ctrl_x = true) ∧
      ¬ (d1.expecting_alt = true ∧ d1.expecting_ctrl_x = true) := by
  refine ⟨by decide, ?_⟩
  unfold handle_input at h
  simp only [] at h
  cases ha : d.expecting_alt <;> cases hx : d.expecting_ctrl_x <;>
    simp only [ha, hx, Bool.false_eq_true, if_false, if_true] at h hd
  · split_ifs at h <;> simp only [Option.some.injEq, Prod.mk.injEq] at h <;>
      (obtain ⟨h1, _⟩ := h; subst h1; simp [ha, hx])
  · split_ifs at h <;> simp only [Option.some.injEq, Prod.mk.injEq] at h <;>
      (obtain ⟨h1, _⟩ := h; subst h1; simp [ha, hx])
  · split_ifs at h <;> simp only [Option.some.injEq, Prod.mk.injEq] at h <;>
      (obtain ⟨h1, _⟩ := h; subst h1; simp [ha, hx])
  · exact absurd ⟨trivial, trivial⟩ hd

/-- C27. Prefix states last exactly one key: when the editor is not searching
and the dispatcher is in `MetaPrefix` or in `CtrlXPrefix` (exactly one of
`expecting_alt`, `expecting_ctrl_x` is set), `handle_input` ends the program
only for Ctrl-C within the timeout after Ctrl-X; for every other key the
dispatcher is back in `Normal` (both flags clear), and the editor is the
result of the one selected operation, or, for an unknown sequence or a key
after the timeout, the old state with only the message changed: the key is
not run as a `Normal` key. -/
theorem prefix_lasts_one_key (d : Dispatcher) (e : Editor) (ch now : Int)
    (io_message : String) (hs : e.searching = false)
    (hp : d.expecting_alt ≠ d.expecting_ctrl_x) :
    (handle_input d e ch now io_message = none ↔
        (d.expecting_ctrl_x = true ∧ ¬ now - d.ctrl_x_time > CTRL_X_TIMEOUT ∧ ch = 3)) ∧
      ∀ d1 e1, handle_input d e ch now io_message = some (d1, e1) →
        d1.expecting_alt = false ∧ d1.expecting_ctrl_x = false ∧
        (d.expecting_alt = true →
          (ch = 98 → e1 = move_cursor_backward_word { e with message := "" }) ∧
          (ch = 102 → e1 = move_cursor_forward_word { e with message := "" }) ∧
          (ch = 123 → e1 = move_cursor_backward_paragraph { e with message := "" }) ∧
          (ch = 125 → e1 = move_cursor_forward_paragraph { e with message := "" }) ∧
          (ch = KEY_BACKSPACE ∨ ch = 127 → e1 = delete_word_left { e with message := "" }) ∧
          (ch = KEY_DC → e1 = delete_word_right { e with message := "" }) ∧
          (ch ≠ 98 → ch ≠ 102 → ch ≠ 123 → ch ≠ 125 → ch ≠ KEY_BACKSPACE → ch ≠ 127 →
            ch ≠ KEY_DC →
            e1 = { e with message := "Unknown Alt sequence: " ++ toString ch })) ∧
        (d.expecting_ctrl_x = true →
          (now - d.ctrl_x_time > CTRL_X_TIMEOUT →
            e1 = { e with message := "Ctrl+X timeout" }) ∧
          (¬ now - d.ctrl_x_time > CTRL_X_TIMEOUT →
            (ch = 19 → e1 = save_file { e with message := "" } io_message) ∧
            (ch = 24 → e1 = switch_buffer { e with message := "" }) ∧
            (ch ≠ 19 → ch ≠ 3 → ch ≠ 24 →
              e1 = { e with message := "Unknown Ctrl+X sequence: " ++ toString ch }))) := by
  unfold handle_input KEY_BACKSPACE KEY_DC
  simp only [hs, Bool.false_eq_true, if_false]
  cases ha : d.expecting_alt <;> cases hx : d.expecting_ctrl_x
  · rw [ha, hx] at hp; exact absurd rfl hp
  · simp only [Bool.false_eq_true, if_false, if_true]
    constructor
    · split_ifs <;> simp_all
    · intro d1 e1 h
      split_ifs at h <;> simp_all <;> (obtain ⟨h1, h2⟩ := h; subst h1; subst h2; simp_all)
  · simp only [Bool.false_eq_true, if_false, if_true]
    constructor
    · split_ifs <;> simp
    · intro d1 e1 h
      split_ifs at h <;> simp_all <;> (obtain ⟨h1, h2⟩ := h; subst h1; subst h2; simp_all)
      all_goals (refine ⟨?_, ?_⟩ <;> intros <;> omega)
  · rw [ha, hx] at hp; exact absurd rfl hp

/-- C27 at concrete states: in `MetaPrefix` the key `a` (97), and in
`CtrlXPrefix` the same key five seconds later, do not end the program, lead
back to `Normal`, and leave `["ab"]` as it is (in `Normal` the key would be
typed into the line); within the timeout Ctrl-X Ctrl-X switches the buffer. -/
theorem prefix_lasts_one_key_witness :
    handle_input meta_dispatcher (mk_editor ["ab".toList] 1 0) 97 0 "" ≠ none ∧
      (handle_input meta_dispatcher (mk_editor ["ab".toList] 1 0) 97 0 "").map
        (fun r => (r.1.expecting_alt, r.1.expecting_ctrl_x, r.2.lines, r.2.cursor_x))
        = some (false, false, ["ab".toList], 1) ∧
      (handle_input ctrl_x_dispatcher (mk_editor ["ab".toList] 1 0) 97 5 "").map
        (fun r => (r.1.expecting_alt, r.1.expecting_ctrl_x, r.2.lines, r.2.message))
        = some (false, false, ["ab".toList], "Ctrl+X timeout") ∧
      (handle_input ctrl_x_dispatcher (mk_editor ["ab".toList] 1 0) 24 1 "").map
        (fun r => (r.1.expecting_alt, r.1.expecting_ctrl_x, r.2.current_buffer))
        = some (false, false, 1) ∧
      (handle_input init_dispatcher (mk_editor ["ab".toList] 1 0) 97 0 "").map
        (fun r => r.2.lines) = some ["aab".toList] := by
  have h := (prefix_lasts_one_key meta_dispatcher (mk_editor ["ab".toList] 1 0) 97 0 ""
    rfl (by decide)).1
  refine ⟨fun hn => absurd (h.mp hn).1 (by decide), by decide, by decide, by decide,
    by decide⟩

end Micr
